import Mathlib

/-!
# pikago: SP pipes, the message cache, the socket core and protocol engines

A shallow embedding of `conn.go`, `message.go`, `core.go` and of the PULL, PAIR,
SUB, REP, SURVEYOR, PUB and BUS engines of the pikago messaging library, and the
properties of the handshake, the two wire framings, the reference-counted
message cache, the socket options, `SendMsg`, the reconnect backoff, the
registry of pipes and the engines.

Conventions of the embedding

* a byte is a `Fin 256`, a `uint16` a `Fin 65536`; Go `int`/`int64` values are
  `Int`, lengths are `Nat`; the places where the machine width matters
  (`uint64` length prefix, `int64` decoding, the `int32` reference counter)
  reduce explicitly;
* a `net.Conn` is a record of the bytes still to be read, the bytes written
  so far, a closed flag and the number of `Write` calls that still succeed;
* a `*Message` is the record of its fields, threaded through the calls that
  mutate it; the `sync.Pool` of a cache bucket is the list of its messages;
* a socket is the record of its fields, with the protocol's state in `proto`;
  the methods of the protocol are passed as a `ProtocolMethods`; a call that
  would wait in a `select` ends as `blocked`, and the choice of a `select`
  among ready cases is an argument;
* a call that panics returns `none`: a failed type assertion, an index out of
  range, and a `make` whose size the allocator of the runtime refuses
  (`maxAlloc`).
-/

namespace Pikago

/-! ## Bytes and fixed-width integers (`encoding/binary`, big endian) -/

abbrev Byte := Fin 256

abbrev Uint16 := Fin 65536

/-- Go's `byte(v)`: the low eight bits of `v`. -/
def Byte.ofNat (n : Nat) : Byte := ⟨n % 256, Nat.mod_lt _ (by decide)⟩

/-- The conversion `binary.BigEndian.PutUint16`: `b[0] = byte(v >> 8)`, `b[1] = byte(v)`. -/
def PutUint16 (v : Uint16) : List Byte :=
  [Byte.ofNat (v.val / 256), Byte.ofNat v.val]

/-- The conversion `binary.BigEndian.Uint16`: `uint16(b[1]) | uint16(b[0])<<8`. -/
def GetUint16 (b0 b1 : Byte) : Uint16 :=
  ⟨(b0.val * 256 + b1.val) % 65536, Nat.mod_lt _ (by decide)⟩

/-- The conversion `binary.BigEndian.PutUint64` applied to `uint64(v)`: eight bytes, most
significant first. -/
def PutUint64 (v : Nat) : List Byte :=
  [Byte.ofNat (v / 2 ^ 56), Byte.ofNat (v / 2 ^ 48), Byte.ofNat (v / 2 ^ 40),
   Byte.ofNat (v / 2 ^ 32), Byte.ofNat (v / 2 ^ 24), Byte.ofNat (v / 2 ^ 16),
   Byte.ofNat (v / 2 ^ 8), Byte.ofNat v]

/-- The conversion `binary.BigEndian.Uint64` on a byte list (most significant byte first). -/
def GetUint64 (bs : List Byte) : Nat :=
  bs.foldl (fun acc b => acc * 256 + b.val) 0

/-- Go's `int64(u)` for a `uint64` value `u`: two's complement reinterpretation. -/
def toInt64 (u : Nat) : Int :=
  if u % 2 ^ 64 < 2 ^ 63 then ((u % 2 ^ 64 : Nat) : Int) else ((u % 2 ^ 64 : Nat) : Int) - 2 ^ 64

/-- What `binary.Read(r, binary.BigEndian, &sz)` stores in an `int64` from eight bytes. -/
def GetInt64 (bs : List Byte) : Int := toInt64 (GetUint64 bs)

/-- Go's `int32` wrap-around, as performed by `atomic.AddInt32`. -/
def wrapInt32 (x : Int) : Int := (x + 2 ^ 31) % 2 ^ 32 - 2 ^ 31

/-! ## Errors -/

/-- The error values of the library; `EOF`, `ErrUnexpectedEOF`, `ErrNetClosed` and
`ErrNetWrite` stand for the errors of the underlying stream (`io.EOF`, `io.ErrUnexpectedEOF`,
use of a closed connection, failed write). -/
inductive Error
  | ErrBadHeader
  | ErrBadVersion
  | ErrBadProto
  | ErrBadProperty
  | ErrTooLong
  | EOF
  | ErrUnexpectedEOF
  | ErrNetClosed
  | ErrNetWrite
  | ErrClosed
  | ErrBadOption
  | ErrBadValue
  | ErrAddrInUse
  | ErrSendTimeout
  | ErrRecvTimeout
  | ErrProtoOp
  | ErrProtoState
  deriving DecidableEq, Repr

/-! ## The underlying stream (`net.Conn`) -/

/-- A `net.Conn`: `rd` are the bytes the peer has sent and that are not read yet (the stream
ends after them), `wr` the bytes written so far, `wbudget` the number of `Write` calls that
still succeed (`none`: all of them), `closed` whether `Close` has been called. -/
structure NetConn where
  rd : List Byte
  wr : List Byte
  wbudget : Option Nat
  closed : Bool
  deriving DecidableEq, Repr

/-- The call `c.Write(p)`: appends `p` in one piece, or fails and writes nothing. -/
def NetConn.Write (c : NetConn) (p : List Byte) : NetConn × Option Error :=
  if c.closed then (c, some Error.ErrNetClosed)
  else match c.wbudget with
    | none => ({ c with wr := c.wr ++ p }, none)
    | some 0 => (c, some Error.ErrNetWrite)
    | some (k + 1) => ({ c with wr := c.wr ++ p, wbudget := some k }, none)

/-- The call `io.ReadFull(c, buf)` with `len(buf) = n`: exactly `n` bytes or an error
(`io.EOF` when nothing could be read, `io.ErrUnexpectedEOF` after a short read). -/
def NetConn.ReadFull (c : NetConn) (n : Nat) : NetConn × Except Error (List Byte) :=
  if n = 0 then (c, .ok [])
  else if c.closed then (c, .error Error.ErrNetClosed)
  else if n ≤ c.rd.length then ({ c with rd := c.rd.drop n }, .ok (c.rd.take n))
  else if c.rd = [] then (c, .error Error.EOF)
  else ({ c with rd := [] }, .error Error.ErrUnexpectedEOF)

/-- The call `c.Read(one[:])` with a one-byte buffer. -/
def NetConn.Read1 (c : NetConn) : NetConn × Except Error Byte :=
  if c.closed then (c, .error Error.ErrNetClosed)
  else match c.rd with
    | [] => (c, .error Error.EOF)
    | b :: rest => ({ c with rd := rest }, .ok b)

/-- The call `c.Close()`. -/
def NetConn.Close (c : NetConn) : NetConn := { c with closed := true }

/-- Whether the next `k` calls of `Write` all succeed. -/
def NetConn.canWrite (c : NetConn) (k : Nat) : Bool :=
  !c.closed && (match c.wbudget with
    | none => true
    | some n => decide (k ≤ n))

/-! ## The pipe and its handshake (`conn.go`) -/

/-- A value of type `interface{}` as far as the library looks at it: a string, an int, a
network address, a `time.Duration` (nanoseconds), a bool, a `[]byte`, or a value of some
other type. -/
inductive Iface
  | str (s : String)
  | int (n : Int)
  | addr (a : String)
  | other (tag : Nat)
  | dur (d : Int)
  | bool (b : Bool)
  | bytes (bs : List Byte)
  deriving DecidableEq, Repr

/-- The two methods of `Protocol` that the pipe uses. -/
structure Protocol where
  Number : Uint16
  PeerNumber : Uint16
  deriving DecidableEq, Repr

/-- The struct `conn` (`open_` is the field `open`; `localAddr` and `remoteAddr` are what
`c.LocalAddr()` and `c.RemoteAddr()` return; the field `sock` is used only for one option
lookup and is passed to `handshake` as that lookup's result). -/
structure conn where
  c : NetConn
  localAddr : String
  remoteAddr : String
  proto : Protocol
  open_ : Bool
  props : List (String × Iface)
  maxrw : Int
  deriving DecidableEq, Repr

def PropLocalAddr : String := "LOCAL-ADDR"

def PropRemoteAddr : String := "REMOTE-ADDR"

/-- The struct `connHeader`. -/
structure connHeader where
  Zero : Byte
  S : Byte
  P : Byte
  Version : Byte
  Proto : Uint16
  Rsvd : Uint16
  deriving DecidableEq, Repr

/-- The bytes `binary.Write(w, binary.BigEndian, &h)` produces for a `connHeader`. -/
def connHeader.encode (h : connHeader) : List Byte :=
  [h.Zero, h.S, h.P, h.Version] ++ PutUint16 h.Proto ++ PutUint16 h.Rsvd

/-- What `binary.Read(r, binary.BigEndian, &h)` stores from eight bytes. -/
def connHeader.decode : List Byte → Option connHeader
  | [b0, b1, b2, b3, b4, b5, b6, b7] =>
    some ⟨b0, b1, b2, b3, GetUint16 b4 b5, GetUint16 b6 b7⟩
  | _ => none

/-- The property loop of `handshake`: `for len(props) >= 2 { ... }`. -/
def setProps (m : List (String × Iface)) : List Iface → List (String × Iface) × Option Error
  | Iface.str name :: v :: rest => setProps ((name, v) :: m) rest
  | _ :: _ :: _ => (m, some Error.ErrBadProperty)
  | _ => (m, none)

/-- The method `conn.Close`. -/
def conn.Close (p : conn) : conn := { p with open_ := false, c := p.c.Close }

/-- The method `conn.handshake`; `maxRecv` is `some v` when
`p.sock.GetOption(OptionMaxRecvSize)` returns `(v, nil)`. Returns the pipe as the call leaves
it and the returned error (`none` for `nil`). -/
def conn.handshake (p : conn) (props : List Iface) (maxRecv : Option Int) : conn × Option Error :=
  let m0 := [(PropRemoteAddr, Iface.addr p.remoteAddr), (PropLocalAddr, Iface.addr p.localAddr)]
  match setProps m0 props with
  | (m, some e) => ({ p with props := m }, some e)
  | (m, none) =>
    let p1 : conn := { p with props := m, maxrw := (match maxRecv with
      | some v => v
      | none => p.maxrw) }
    let h : connHeader := ⟨0, 83, 80, 0, p1.proto.Number, 0⟩
    match p1.c.Write h.encode with
    | (c2, some e) => ({ p1 with c := c2 }, some e)
    | (c2, none) =>
      match c2.ReadFull 8 with
      | (c3, .error e) => ({ p1 with c := c3.Close }, some e)
      | (c3, .ok bs) =>
        match connHeader.decode bs with
        | none => ({ p1 with c := c3.Close }, some Error.ErrUnexpectedEOF)
        | some h =>
          if h.Zero ≠ 0 ∨ h.S ≠ 83 ∨ h.P ≠ 80 ∨ h.Rsvd ≠ 0 then
            ({ p1 with c := c3.Close }, some Error.ErrBadHeader)
          else if h.Version ≠ 0 then
            ({ p1 with c := c3.Close }, some Error.ErrBadVersion)
          else if h.Proto ≠ p1.proto.PeerNumber then
            ({ p1 with c := c3.Close }, some Error.ErrBadProto)
          else ({ p1 with c := c3, open_ := true }, none)

/-! ## Messages and the message cache (`message.go`) -/

/-- A Go `[]byte`: the visible elements, the capacity of the backing array, and whether the
slice is `nil` (a `nil` slice is empty and has capacity 0; an empty slice need not be `nil`). -/
structure Slice where
  data : List Byte
  cap : Nat
  isNil : Bool
  deriving DecidableEq, Repr

/-- The empty slice of capacity `n` that `make([]byte, 0, n)` returns when it returns. -/
def Slice.make (n : Nat) : Slice := ⟨[], n, false⟩

/-- The largest number of bytes that the allocator of the Go runtime hands out in one piece
(`runtime.maxAlloc`): `2^48` on the 64-bit platforms, on which `int` has 64 bits as
everywhere in this development. Memory that runs out below this limit ends the process and
is not represented. -/
def maxAlloc : Nat := 281474976710656

/-- The call `make([]byte, 0, n)` for an `int` `n`: it panics (`none`) when `n` is negative
or exceeds `maxAlloc`. -/
def makeBytes (n : Int) : Option Slice :=
  if n < 0 ∨ n > maxAlloc then none else some (Slice.make n.toNat)

/-- The `nil` slice. -/
def Slice.nil : Slice := ⟨[], 0, true⟩

/-- The struct `Message` (`expire` is an instant, `0` being the zero `time.Time`). -/
structure Message where
  Header : Slice
  Body : Slice
  bbuf : Slice
  hbuf : Slice
  bsize : Int
  refcnt : Int
  expire : Nat
  deriving DecidableEq, Repr

/-- The struct `msgCacheInfo`; `pool` holds what has been `Put` into the `sync.Pool`. -/
structure msgCacheInfo where
  maxbody : Int
  pool : List Message
  deriving DecidableEq, Repr

/-- The function `newMsg`; `none` when `make([]byte, 0, sz)` panics. -/
def newMsg (sz : Int) : Option Message :=
  match makeBytes sz with
  | some b =>
    some { Header := Slice.nil, Body := Slice.nil, bbuf := b, hbuf := Slice.make 32,
           bsize := sz, refcnt := 0, expire := 0 }
  | none => none

/-- The bucket capacities of `messageCache`, in the order of the source. -/
def ladder : List Int := [64, 128, 256, 512, 1024, 4096, 8192, 65536]

/-- The variable `messageCache` in its initial state: every pool empty. -/
def messageCache : List msgCacheInfo := ladder.map fun n => ⟨n, []⟩

/-- The call `pool.Get()` of a `sync.Pool` whose `New` returns `newMsg(maxbody)`. `Get`
removes and returns an arbitrary pooled item, or ignores the pool and calls `New`: `pick`
is that choice (`some i`: the item at position `i`, when there is one). The result is `none`
when `New` panics. -/
def poolGet (pick : Option Nat) (info : msgCacheInfo) : Option (Message × msgCacheInfo) :=
  match pick with
  | none => (newMsg info.maxbody).map fun m => (m, info)
  | some i =>
    match info.pool[i]? with
    | some m => some (m, { info with pool := info.pool.eraseIdx i })
    | none => (newMsg info.maxbody).map fun m => (m, info)

/-- The loop of `NewMessage`: the first bucket with `sz < maxbody` supplies the message. The
result is `none` when no bucket does (`m == nil` after the loop), and `some none` when the
`Get` on the bucket panics. -/
def cacheGet (pick : Option Nat) (sz : Int) :
    List msgCacheInfo → Option (Option (Message × List msgCacheInfo))
  | [] => none
  | info :: rest =>
    if sz < info.maxbody then
      some ((poolGet pick info).map fun r => (r.1, r.2 :: rest))
    else
      match cacheGet pick sz rest with
      | some r => some (r.map fun r => (r.1, info :: r.2))
      | none => none

/-- The function `NewMessage`, on the cache `mc`: the message and the cache after the call,
or `none` when an allocation panics. -/
def NewMessage (mc : List msgCacheInfo) (pick : Option Nat) (sz : Int) :
    Option (Message × List msgCacheInfo) :=
  let r : Option (Message × List msgCacheInfo) :=
    match cacheGet pick sz mc with
    | some r => r
    | none => (newMsg sz).map fun m => (m, mc)
  r.map fun r => ({ r.1 with refcnt := 1, Body := r.1.bbuf, Header := r.1.hbuf }, r.2)

/-- The loop of `Message.Free`: `Put` into the first bucket with `m.bsize == maxbody`. -/
def cachePut (m : Message) : List msgCacheInfo → List msgCacheInfo
  | [] => []
  | info :: rest =>
    if m.bsize = info.maxbody then { info with pool := m :: info.pool } :: rest
    else info :: cachePut m rest

/-- The method `Message.Free`: the message after the call and the cache after it. -/
def Message.Free (m : Message) (mc : List msgCacheInfo) : Message × List msgCacheInfo :=
  let m1 : Message := { m with refcnt := wrapInt32 (m.refcnt - 1) }
  if m1.refcnt > 0 then (m1, mc) else (m1, cachePut m1 mc)

/-- The method `Message.Dup`. -/
def Message.Dup (m : Message) : Message := { m with refcnt := wrapInt32 (m.refcnt + 1) }

/-- The method `Message.Expired`, `now` being `time.Now()`. -/
def Message.Expired (m : Message) (now : Nat) : Bool :=
  if m.expire = 0 then false
  else if m.expire > now then false
  else true

/-! ## Framing (`conn.Send`, `conn.Recv`, `connipc.Send`, `connipc.Recv`) -/

/-- The result of a send: the pipe, the message and the cache as the call leaves them, and
the returned error. -/
structure SendResult where
  p : conn
  msg : Message
  mc : List msgCacheInfo
  err : Option Error
  deriving DecidableEq, Repr

/-- The result of a receive: the pipe and the cache as the call leaves them, and the
returned message or error; `none` stands for a run-time panic (of an allocation that
`make` refuses, or of a slice expression out of range). -/
structure RecvResult where
  p : conn
  mc : List msgCacheInfo
  res : Option (Except Error Message)

/-- The method `conn.Send`. -/
def conn.Send (p : conn) (msg : Message) (now : Nat) (mc : List msgCacheInfo) : SendResult :=
  let sz := (msg.Header.data.length + msg.Body.data.length) % 2 ^ 64
  if msg.Expired now then
    ⟨p, (msg.Free mc).1, (msg.Free mc).2, none⟩
  else
    match p.c.Write (PutUint64 sz) with
    | (c1, some e) => ⟨{ p with c := c1 }, msg, mc, some e⟩
    | (c1, none) =>
      match c1.Write msg.Header.data with
      | (c2, some e) => ⟨{ p with c := c2 }, msg, mc, some e⟩
      | (c2, none) =>
        match c2.Write msg.Body.data with
        | (c3, some e) => ⟨{ p with c := c3 }, msg, mc, some e⟩
        | (c3, none) => ⟨{ p with c := c3 }, (msg.Free mc).1, (msg.Free mc).2, none⟩

/-- The common tail of `conn.Recv` and `connipc.Recv`, from the size check on. The call
`NewMessage(int(sz))` panics when `make` refuses the size, and the slice expression
`msg.Body[0:sz]` panics when `sz` exceeds the capacity; the stale bytes that it exposes
until `io.ReadFull` has overwritten them are not represented. -/
def recvBody (p : conn) (c1 : NetConn) (sz : Int) (pick : Option Nat) (mc : List msgCacheInfo) :
    RecvResult :=
  if sz < 0 ∨ (p.maxrw > 0 ∧ sz > p.maxrw) then
    ⟨{ p with c := c1 }, mc, some (.error Error.ErrTooLong)⟩
  else
    match NewMessage mc pick sz with
    | none => ⟨{ p with c := c1 }, mc, none⟩
    | some (msg, mc1) =>
      if sz.toNat > msg.Body.cap then ⟨{ p with c := c1 }, mc1, none⟩
      else
        match c1.ReadFull sz.toNat with
        | (c2, .error e) => ⟨{ p with c := c2 }, (msg.Free mc1).2, some (.error e)⟩
        | (c2, .ok bs) =>
          ⟨{ p with c := c2 }, mc1,
            some (.ok { msg with Body := ⟨bs, msg.Body.cap, msg.Body.isNil⟩ })⟩

/-- The method `conn.Recv`. -/
def conn.Recv (p : conn) (pick : Option Nat) (mc : List msgCacheInfo) : RecvResult :=
  match p.c.ReadFull 8 with
  | (c1, .error e) => ⟨{ p with c := c1 }, mc, some (.error e)⟩
  | (c1, .ok bs) => recvBody p c1 (GetInt64 bs) pick mc

/-- The method `connipc.Send` (a `connipc` embeds a `conn`). -/
def connipc.Send (p : conn) (msg : Message) (mc : List msgCacheInfo) : SendResult :=
  let l := (msg.Header.data.length + msg.Body.data.length) % 2 ^ 64
  match p.c.Write [1] with
  | (c0, some e) => ⟨{ p with c := c0 }, msg, mc, some e⟩
  | (c0, none) =>
    match c0.Write (PutUint64 l) with
    | (c1, some e) => ⟨{ p with c := c1 }, msg, mc, some e⟩
    | (c1, none) =>
      match c1.Write msg.Header.data with
      | (c2, some e) => ⟨{ p with c := c2 }, msg, mc, some e⟩
      | (c2, none) =>
        match c2.Write msg.Body.data with
        | (c3, some e) => ⟨{ p with c := c3 }, msg, mc, some e⟩
        | (c3, none) => ⟨{ p with c := c3 }, (msg.Free mc).1, (msg.Free mc).2, none⟩

/-- The method `connipc.Recv`. -/
def connipc.Recv (p : conn) (pick : Option Nat) (mc : List msgCacheInfo) : RecvResult :=
  match p.c.Read1 with
  | (c0, .error e) => ⟨{ p with c := c0 }, mc, some (.error e)⟩
  | (c0, .ok _) =>
    match c0.ReadFull 8 with
    | (c1, .error e) => ⟨{ p with c := c1 }, mc, some (.error e)⟩
    | (c1, .ok bs) => recvBody p c1 (GetInt64 bs) pick mc

/-! ## Well-formedness of messages and of the cache -/

/-- The buffers of a message are the ones `newMsg` gave it: an empty body buffer of capacity
`bsize` and an empty header buffer of capacity 32. -/
def MsgWF (m : Message) : Prop :=
  m.bbuf = Slice.make m.bsize.toNat ∧ m.hbuf = Slice.make 32

instance (m : Message) : Decidable (MsgWF m) := by
  unfold MsgWF; infer_instance

/-- Every pooled message is well formed and sits in the bucket of its allocation size. -/
def PoolsWF (mc : List msgCacheInfo) : Prop :=
  ∀ info ∈ mc, ∀ m ∈ info.pool, MsgWF m ∧ m.bsize = info.maxbody

instance (mc : List msgCacheInfo) : Decidable (PoolsWF mc) := by
  unfold PoolsWF; infer_instance

/-- The cache has the buckets of `messageCache` and well-formed pools. -/
def CacheWF (mc : List msgCacheInfo) : Prop :=
  mc.map (fun info => info.maxbody) = ladder ∧ PoolsWF mc

instance (mc : List msgCacheInfo) : Decidable (CacheWF mc) := by
  unfold CacheWF; infer_instance

/-- The pool of the bucket of capacity `cap` (empty when there is no such bucket). -/
def poolOf (mc : List msgCacheInfo) (cap : Int) : List Message :=
  match mc.find? (fun info => decide (info.maxbody = cap)) with
  | some info => info.pool
  | none => []

/-- The message and the cache that `NewMessage(sz)` returns on the initial cache. For a
size at which `NewMessage` panics this is a message without buffers, which stands for
nothing; the examples use small sizes only. -/
def freshMessage (sz : Int) : Message × List msgCacheInfo :=
  match NewMessage messageCache none sz with
  | some r => r
  | none => (⟨Slice.nil, Slice.nil, Slice.nil, Slice.nil, 0, 0, 0⟩, messageCache)

/-- A message as a protocol hands it to a pipe: header `h`, body `b`, one reference. -/
def mkMessage (h b : List Byte) (expire : Nat) : Message :=
  { (freshMessage (b.length : Int)).1 with
    Header := ⟨h, max 32 h.length, false⟩,
    Body := ⟨b, (freshMessage (b.length : Int)).1.Body.cap, false⟩,
    expire := expire }

/-! ## Sequences of `Dup` and `Free` on one message -/

/-- One call on the message: `m.Dup()` or `m.Free()`. -/
inductive RefOp
  | Dup
  | Free
  deriving DecidableEq, Repr

/-- The call `op` on the message `s.1` with the cache `s.2`. -/
def applyOp (s : Message × List msgCacheInfo) : RefOp → Message × List msgCacheInfo
  | RefOp.Dup => (s.1.Dup, s.2)
  | RefOp.Free => s.1.Free s.2

/-- The calls `ops`, in order, on the message `m` with the cache `mc`. -/
def runOps (m : Message) (mc : List msgCacheInfo) (ops : List RefOp) :
    Message × List msgCacheInfo :=
  ops.foldl applyOp (m, mc)

/-! ## Concrete pipes used in the examples -/

/-- The cache after one message of 100 bytes has been allocated and freed: the bucket of
capacity 128 holds it. -/
def usedCache : List msgCacheInfo :=
  ((freshMessage 100).1.Free (freshMessage 100).2).2


/-- A receiving pipe with `maxrw = 1048576` (the default `MAX-RCV-SIZE`) on which the peer
sent `rd`. -/
def recvPipe (rd : List Byte) : conn :=
  { c := ⟨rd, [], none, false⟩, localAddr := "b", remoteAddr := "a", proto := ⟨0x31, 0x30⟩,
    open_ := true, props := [], maxrw := 1048576 }


/-- A pipe whose stream accepts every write and on which the peer sent `rd`. -/
def pipeOn (rd : List Byte) (proto : Protocol) : conn :=
  { c := ⟨rd, [], none, false⟩, localAddr := "a", remoteAddr := "b", proto := proto,
    open_ := false, props := [], maxrw := 0 }

/-- A pipe whose stream fails the next write (the peer has reset the connection). -/
def brokenPipe : conn :=
  { c := ⟨[], [], some 0, false⟩, localAddr := "a", remoteAddr := "b", proto := ⟨0x10, 0x10⟩,
    open_ := false, props := [], maxrw := 0 }

/-! ## The socket core (`core.go`) -/

/-- A buffered `chan *Message`: the queued messages, oldest first, and the capacity. A send
that is taken directly by a receiver blocked on the channel is not represented. -/
structure Chan where
  buf : List Message
  cap : Nat
  deriving DecidableEq, Repr

/-- The empty channel of capacity `n` that `make(chan *Message, n)` returns when it
returns. -/
def Chan.make (n : Nat) : Chan := ⟨[], n⟩

/-- The size in bytes of the header of a channel in the Go runtime (`hchanSize`, 96 on the
64-bit platforms). -/
def hchanSize : Nat := 96

/-- The call `make(chan *Message, n)` for an `int` `n`: it panics (`none`) when `n` is
negative or when the buffer of `n` pointers of 8 bytes exceeds `maxAlloc - hchanSize`. -/
def makeChan (n : Int) : Option Chan :=
  if n < 0 ∨ 8 * n > maxAlloc - hchanSize then none else some (Chan.make n.toNat)

/-- Whether a send on the channel proceeds without blocking. -/
def Chan.hasRoom (c : Chan) : Bool := decide (c.buf.length < c.cap)

/-- The send `c <- m`. -/
def Chan.send (c : Chan) (m : Message) : Chan := { c with buf := c.buf ++ [m] }

def defaultQLen : Int := 128

def defaultMaxRwSize : Int := 1024 * 1024

/-- The constant `time.Millisecond` (a `time.Duration` counts nanoseconds). -/
def Millisecond : Int := 1000000

/-- The constant `time.Second`. -/
def Second : Int := 1000000000

def OptionRaw : String := "RAW"

def OptionRecvDeadline : String := "RECV-DEADLINE"

def OptionSendDeadline : String := "SEND-DEADLINE"

def OptionSubscribe : String := "SUBSCRIBE"

def OptionUnsubscribe : String := "UNSUBSCRIBE"

def OptionWriteQLen : String := "WRITEQ-LEN"

def OptionReadQLen : String := "READQ-LEN"

def OptionLinger : String := "LINGER"

def OptionTTL : String := "TTL"

def OptionMaxRecvSize : String := "MAX-RCV-SIZE"

def OptionReconnectTime : String := "RECONNECT-TIME"

def OptionMaxReconnectTime : String := "MAX-RECONNECT-TIME"

def OptionBestEffort : String := "BEST-EFFORT"

/-- The type `PortAction` (`port.go`). -/
inductive PortAction
  | PortActionAdd
  | PortActionRemove
  deriving DecidableEq, Repr

/-- The struct `socket`, for a protocol whose state has type `σ`. The channel `closeq` is
closed exactly when `closing` is set; `listeners` holds the addresses of the listeners and
`pipes` the pipes, each given by its place on the heap (see `PipeHeap`). -/
structure socket (σ : Type) where
  proto : σ
  wq : Chan
  wqLen : Int
  rq : Chan
  rqLen : Int
  closing : Bool
  active : Bool
  bestEffort : Bool
  recverr : Option Error
  senderr : Option Error
  rdeadline : Int
  wdeadline : Int
  reconntime : Int
  reconnmax : Int
  linger : Int
  maxRwSize : Int
  pipes : List Nat
  listeners : List String
  porthook : Option (PortAction → Nat → Bool)

/-- What a send or receive hook leaves behind: the socket (the protocol holds a reference to
it), the message, and the returned bool. -/
structure HookResult (σ : Type) where
  sock : socket σ
  msg : Message
  ok : Bool

/-- The methods of a `Protocol` that the socket core calls, with the optional interfaces
`ProtocolSendHook` and `ProtocolRecvHook` (`none` when the protocol does not implement them).
Each method receives the socket, whose field `proto` is the protocol's own state. -/
structure ProtocolMethods (σ : Type) where
  Init : socket σ → socket σ
  SetOption : socket σ → String → Iface → socket σ × Option Error
  GetOption : socket σ → String → Except Error Iface
  SendHook : Option (socket σ → Message → HookResult σ)
  RecvHook : Option (socket σ → Message → HookResult σ)

/-- The method `socket.SetSendError`. -/
def socket.SetSendError {σ : Type} (sock : socket σ) (err : Option Error) : socket σ :=
  { sock with senderr := err }

/-- The method `socket.SetRecvError`. -/
def socket.SetRecvError {σ : Type} (sock : socket σ) (err : Option Error) : socket σ :=
  { sock with recverr := err }

/-- The function `newSocket`; `proto` is the protocol value passed in (`&rep{}`, ...). -/
def newSocket {σ : Type} (P : ProtocolMethods σ) (proto : σ) : socket σ :=
  P.Init
    { proto := proto, wq := Chan.make defaultQLen.toNat, wqLen := defaultQLen,
      rq := Chan.make defaultQLen.toNat, rqLen := defaultQLen, closing := false,
      active := false, bestEffort := false, recverr := none, senderr := none,
      rdeadline := 0, wdeadline := 0, reconntime := Millisecond * 100, reconnmax := 0,
      linger := Second, maxRwSize := defaultMaxRwSize, pipes := [], listeners := [],
      porthook := none }

/-- The `switch name` of `socket.SetOption`, after the protocol has been asked; `matched`
tells whether the protocol accepted the option. The result is `none` when a type assertion
such as `value.(time.Duration)` panics, or when `make` refuses the length of a queue. -/
def socket.setSocketOption {σ : Type} (sock : socket σ) (matched : Bool) (name : String)
    (value : Iface) : Option (socket σ × Option Error) :=
  if name = OptionRecvDeadline then
    match value with
    | Iface.dur d => some ({ sock with rdeadline := d }, none)
    | _ => none
  else if name = OptionSendDeadline then
    match value with
    | Iface.dur d => some ({ sock with wdeadline := d }, none)
    | _ => none
  else if name = OptionLinger then
    match value with
    | Iface.dur d => some ({ sock with linger := d }, none)
    | _ => none
  else if name = OptionWriteQLen then
    if sock.active then some (sock, some Error.ErrBadOption)
    else
      match value with
      | Iface.int length =>
        if length < 0 then some (sock, some Error.ErrBadValue)
        else
          match makeChan length with
          | some q => some ({ sock with wqLen := length, wq := q }, none)
          | none => none
      | _ => none
  else if name = OptionReadQLen then
    if sock.active then some (sock, some Error.ErrBadOption)
    else
      match value with
      | Iface.int length =>
        if length < 0 then some (sock, some Error.ErrBadValue)
        else
          match makeChan length with
          | some q => some ({ sock with rqLen := length, rq := q }, none)
          | none => none
      | _ => none
  else if name = OptionMaxRecvSize then
    match value with
    | Iface.int v =>
      if v < 0 then some (sock, some Error.ErrBadValue)
      else some ({ sock with maxRwSize := v }, none)
    | _ => some (sock, some Error.ErrBadValue)
  else if name = OptionReconnectTime then
    match value with
    | Iface.dur d => some ({ sock with reconntime := d }, none)
    | _ => none
  else if name = OptionMaxReconnectTime then
    match value with
    | Iface.dur d => some ({ sock with reconnmax := d }, none)
    | _ => none
  else if name = OptionBestEffort then
    match value with
    | Iface.bool b => some ({ sock with bestEffort := b }, none)
    | _ => none
  else if matched then some (sock, none)
  else some (sock, some Error.ErrBadOption)

/-- The method `socket.SetOption`: the socket after the call and the returned error, or
`none` for a panic. -/
def socket.SetOption {σ : Type} (P : ProtocolMethods σ) (sock : socket σ) (name : String)
    (value : Iface) : Option (socket σ × Option Error) :=
  match P.SetOption sock name value with
  | (s1, none) => socket.setSocketOption s1 true name value
  | (s1, some e) =>
    if e ≠ Error.ErrBadOption then some (s1, some e)
    else socket.setSocketOption s1 false name value

/-- The method `socket.GetOption`. -/
def socket.GetOption {σ : Type} (P : ProtocolMethods σ) (sock : socket σ) (name : String) :
    Except Error Iface :=
  match P.GetOption sock name with
  | .ok val => .ok val
  | .error err =>
    if err ≠ Error.ErrBadOption then .error err
    else if name = OptionRecvDeadline then .ok (Iface.dur sock.rdeadline)
    else if name = OptionSendDeadline then .ok (Iface.dur sock.wdeadline)
    else if name = OptionLinger then .ok (Iface.dur sock.linger)
    else if name = OptionWriteQLen then .ok (Iface.int sock.wqLen)
    else if name = OptionReadQLen then .ok (Iface.int sock.rqLen)
    else if name = OptionMaxRecvSize then .ok (Iface.int sock.maxRwSize)
    else if name = OptionReconnectTime then .ok (Iface.dur sock.reconntime)
    else if name = OptionMaxReconnectTime then .ok (Iface.dur sock.reconnmax)
    else .error Error.ErrBadOption

/-- The struct `dialer` of `core.go`, as far as `Dial` and `Close` use it. -/
structure dialer where
  closed : Bool
  active : Bool
  deriving DecidableEq, Repr

/-- The method `dialer.Dial` (the supervisor it starts is `dialerRound` below). -/
def dialer.Dial {σ : Type} (d : dialer) (sock : socket σ) :
    dialer × socket σ × Option Error :=
  if d.active then (d, sock, some Error.ErrAddrInUse)
  else ({ d with active := true }, { sock with active := true }, none)

/-- The method `listener.Listen`; `bind` is what the transport's `Listen()` returns. -/
def listener.Listen {σ : Type} (addr : String) (bind : Option Error) (sock : socket σ) :
    socket σ × Option Error :=
  match bind with
  | some err => (sock, some err)
  | none => ({ sock with listeners := sock.listeners ++ [addr], active := true }, none)

/-- How a call of the application ends: it returns (`none` is `nil`), or it waits in its
`select` for a queue, a timer or the close channel. Timers are not represented. -/
inductive CallOutcome
  | returned (err : Option Error)
  | blocked
  deriving DecidableEq, Repr

/-- The result of `socket.SendMsg`: socket, message and cache after the call, and how the
call ended. -/
structure SendMsgResult (σ : Type) where
  sock : socket σ
  msg : Message
  mc : List msgCacheInfo
  out : CallOutcome

/-- The statement `if sock.sendhook != nil { ok := sock.sendhook.SendHook(msg) ... }`: the
hook's result, or the untouched socket and message with `true` when there is no hook. -/
def socket.applySendHook {σ : Type} (P : ProtocolMethods σ) (sock : socket σ) (msg : Message) :
    HookResult σ :=
  match P.SendHook with
  | some hook => hook sock msg
  | none => ⟨sock, msg, true⟩

/-- The expiration that `SendMsg` stores in the message at time `now`. -/
def socket.expireAt {σ : Type} (sock : socket σ) (now : Nat) : Nat :=
  if sock.wdeadline ≠ 0 then ((now : Int) + sock.wdeadline).toNat else 0

/-- The method `socket.SendMsg`, called at time `now`. When both the close channel and the
send queue are ready the `select` takes either: `preferClose` is that choice. -/
def socket.SendMsg {σ : Type} (P : ProtocolMethods σ) (sock : socket σ) (msg : Message)
    (now : Nat) (preferClose : Bool) (mc : List msgCacheInfo) : SendMsgResult σ :=
  match sock.senderr with
  | some e => ⟨sock, msg, mc, .returned (some e)⟩
  | none =>
    let h : HookResult σ := socket.applySendHook P sock msg
    if !h.ok then ⟨h.sock, (h.msg.Free mc).1, (h.msg.Free mc).2, .returned none⟩
    else
      let m1 : Message := { h.msg with expire := h.sock.expireAt now }
      if !h.sock.bestEffort then
        if h.sock.closing ∧ (preferClose ∨ ¬ h.sock.wq.hasRoom) then
          ⟨h.sock, m1, mc, .returned (some Error.ErrClosed)⟩
        else if h.sock.wq.hasRoom then
          ⟨{ h.sock with wq := h.sock.wq.send m1 }, m1, mc, .returned none⟩
        else ⟨h.sock, m1, mc, .blocked⟩
      else
        if h.sock.closing ∧ (preferClose ∨ ¬ h.sock.wq.hasRoom) then
          ⟨h.sock, m1, mc, .returned (some Error.ErrClosed)⟩
        else if h.sock.wq.hasRoom then
          ⟨{ h.sock with wq := h.sock.wq.send m1 }, m1, mc, .returned none⟩
        else ⟨h.sock, (m1.Free mc).1, (m1.Free mc).2, .returned none⟩

/-- The result of `socket.RecvMsg`: socket and cache after the call, the returned message,
and how the call ended. -/
structure RecvMsgResult (σ : Type) where
  sock : socket σ
  mc : List msgCacheInfo
  msg : Option Message
  out : CallOutcome

/-- The loop of `socket.RecvMsg`; every round takes one message from the receive queue, so
`fuel` above the queue length is enough. -/
def socket.recvLoop {σ : Type} (P : ProtocolMethods σ) (preferClose : Bool) :
    Nat → socket σ → List msgCacheInfo → RecvMsgResult σ
  | 0, sock, mc => ⟨sock, mc, none, .blocked⟩
  | fuel + 1, sock, mc =>
    match sock.recverr with
    | some e => ⟨sock, mc, none, .returned (some e)⟩
    | none =>
      if sock.closing ∧ (preferClose ∨ sock.rq.buf = []) then
        ⟨sock, mc, none, .returned (some Error.ErrClosed)⟩
      else
        match sock.rq.buf with
        | [] => ⟨sock, mc, none, .blocked⟩
        | m :: rest =>
          match P.RecvHook with
          | none => ⟨{ sock with rq := { sock.rq with buf := rest } }, mc, some m, .returned none⟩
          | some hook =>
            let h := hook { sock with rq := { sock.rq with buf := rest } } m
            if h.ok then ⟨h.sock, mc, some h.msg, .returned none⟩
            else socket.recvLoop P preferClose fuel h.sock (h.msg.Free mc).2

/-- The method `socket.RecvMsg`. -/
def socket.RecvMsg {σ : Type} (P : ProtocolMethods σ) (sock : socket σ) (preferClose : Bool)
    (mc : List msgCacheInfo) : RecvMsgResult σ :=
  socket.recvLoop P preferClose (sock.rq.buf.length + 1) sock mc

/-! ## The dialer supervisor (`dialer.dialer`) -/

/-- Go's `int64` wrap-around (a `time.Duration` is an `int64`). -/
def wrapInt64 (x : Int) : Int := (x + 2 ^ 63) % 2 ^ 64 - 2 ^ 63

/-- One round of the loop of `dialer.dialer` in which neither the dialer nor the socket is
closed: `ok` tells whether `d.d.Dial()` succeeded (the pipe is then used until it
disconnects). The result is the duration passed to `time.After` and the value of `rtime`
when the round ends; `reconntime` and `rtmax` are `RECONNECT-TIME` and
`MAX-RECONNECT-TIME`. -/
def dialerRound (reconntime rtmax rtime : Int) (ok : Bool) : Int × Int :=
  let rtime1 := if ok then reconntime else rtime
  let rtime2 :=
    if rtmax > 0 then
      if wrapInt64 (rtime1 * 2) > rtmax then rtmax else wrapInt64 (rtime1 * 2)
    else rtime1
  (rtime1, rtime2)

/-- The waits of successive rounds, `rtime` being the interval at the start. -/
def dialerWaitsFrom (reconntime rtmax : Int) : Int → List Bool → List Int
  | _, [] => []
  | rtime, ok :: rest =>
    (dialerRound reconntime rtmax rtime ok).1 ::
      dialerWaitsFrom reconntime rtmax (dialerRound reconntime rtmax rtime ok).2 rest

/-- The waits of the supervisor from its start (`rtime := d.sock.reconntime`), for the given
outcomes of the connection attempts. -/
def dialerWaits (reconntime rtmax : Int) (attempts : List Bool) : List Int :=
  dialerWaitsFrom reconntime rtmax reconntime attempts

/-! ## Slices with `nil` -/

/-- The slice expression `s[0:0]`. -/
def Slice.empty0 (s : Slice) : Slice := ⟨[], s.cap, s.isNil⟩

/-- The call `append(s, xs...)`. With nothing to append the slice is returned as it is (a
`nil` slice stays `nil`). When the capacity does not suffice the runtime allocates; the new
capacity, which Go leaves to the allocator, is taken to be the new length. -/
def Slice.append (s : Slice) (xs : List Byte) : Slice :=
  if xs = [] then s
  else if s.data.length + xs.length ≤ s.cap then ⟨s.data ++ xs, s.cap, false⟩
  else ⟨s.data ++ xs, s.data.length + xs.length, false⟩

/-- The comparison `bytes.Equal(a, b)`. -/
def bytesEqual (a b : List Byte) : Bool := decide (a = b)

/-- The conversion `[]byte(v)` of a string: its UTF-8 encoding. -/
def stringBytes (v : String) : List Byte :=
  (v.data.flatMap String.utf8EncodeChar).map fun b => Byte.ofNat b.toNat

/-! ## PULL (`protocol/pull/pull.go`) -/

/-- The struct `pull`. -/
structure pull where
  raw : Bool
  deriving DecidableEq, Repr

/-- The method `pull.Init`. -/
def pull.Init (sock : socket pull) : socket pull := sock.SetSendError (some Error.ErrProtoOp)

/-- The method `pull.SendHook`. -/
def pull.SendHook (sock : socket pull) (msg : Message) : HookResult pull := ⟨sock, msg, false⟩

/-- The method `pull.SetOption` (a failed assertion `v.(bool)` stores `false`). -/
def pull.SetOption (sock : socket pull) (name : String) (v : Iface) :
    socket pull × Option Error :=
  if name = OptionRaw then
    match v with
    | Iface.bool b => ({ sock with proto := { sock.proto with raw := b } }, none)
    | _ => ({ sock with proto := { sock.proto with raw := false } }, some Error.ErrBadValue)
  else (sock, some Error.ErrBadOption)

/-- The method `pull.GetOption`. -/
def pull.GetOption (sock : socket pull) (name : String) : Except Error Iface :=
  if name = OptionRaw then .ok (Iface.bool sock.proto.raw)
  else .error Error.ErrBadOption

/-- The PULL protocol as the socket core sees it. -/
def pullMethods : ProtocolMethods pull :=
  { Init := pull.Init, SetOption := pull.SetOption, GetOption := pull.GetOption,
    SendHook := some pull.SendHook, RecvHook := none }

/-! ## PAIR (`protocol/pair/pair.go`) -/

/-- The struct `pairEp`; an `Endpoint` is identified by a number (the identity of the
pointer), and `cq` is recorded by whether it has been closed. -/
structure pairEp where
  ep : Nat
  cqClosed : Bool
  deriving DecidableEq, Repr

/-- The struct `pair`. -/
structure pair where
  peer : Option pairEp
  raw : Bool
  deriving DecidableEq, Repr

/-- What `AddEndpoint` and `RemoveEndpoint` do besides updating the engine: close an
endpoint, start the receive or the send worker for an endpoint, close the `cq` of the record
of an endpoint. -/
inductive PairEffect
  | epClose (ep : Nat)
  | goReceiver (ep : Nat)
  | goSender (ep : Nat)
  | closeCq (ep : Nat)
  deriving DecidableEq, Repr

/-- The method `pair.AddEndpoint`. -/
def pair.AddEndpoint (x : pair) (ep : Nat) : pair × List PairEffect :=
  match x.peer with
  | some _ => (x, [PairEffect.epClose ep])
  | none =>
    ({ x with peer := some ⟨ep, false⟩ }, [PairEffect.goReceiver ep, PairEffect.goSender ep])

/-- The method `pair.RemoveEndpoint`. -/
def pair.RemoveEndpoint (x : pair) (ep : Nat) : pair × List PairEffect :=
  match x.peer with
  | some peer =>
    if peer.ep = ep then ({ x with peer := none }, [PairEffect.closeCq ep])
    else (x, [])
  | none => (x, [])

/-- A call of the socket core on the engine. -/
inductive PairOp
  | add (ep : Nat)
  | remove (ep : Nat)
  deriving DecidableEq, Repr

/-- The engine and the effects so far, after one more call. -/
def pair.step (s : pair × List PairEffect) : PairOp → pair × List PairEffect
  | PairOp.add ep => ((s.1.AddEndpoint ep).1, s.2 ++ (s.1.AddEndpoint ep).2)
  | PairOp.remove ep => ((s.1.RemoveEndpoint ep).1, s.2 ++ (s.1.RemoveEndpoint ep).2)

/-- The engine after `Init` (no peer) and a sequence of calls. -/
def pair.run (ops : List PairOp) : pair × List PairEffect :=
  ops.foldl pair.step (⟨none, false⟩, [])

/-- The endpoints registered as peer. -/
def pair.registered (x : pair) : List Nat :=
  match x.peer with
  | some peer => [peer.ep]
  | none => []

/-! ## SUB (`protocol/sub/sub.go`) -/

/-- The struct `sub`. -/
structure sub where
  subs : List (List Byte)
  raw : Bool
  deriving DecidableEq, Repr

/-- The method `sub.Init`. -/
def sub.Init (sock : socket sub) : socket sub :=
  ({ sock with proto := { sock.proto with subs := [] } }).SetSendError (some Error.ErrProtoOp)

/-- The two statements `s.subs[i] = s.subs[len(s.subs)-1]; s.subs = s.subs[:len(s.subs)-1]`. -/
def removeSwap (l : List (List Byte)) (i : Nat) : List (List Byte) :=
  match l.getLast? with
  | some last => (l.set i last).dropLast
  | none => l

/-- The method `sub.SetOption`, on the engine. -/
def sub.SetOption (s : sub) (name : String) (value : Iface) : sub × Option Error :=
  if name = OptionRaw then
    match value with
    | Iface.bool b => ({ s with raw := b }, none)
    | _ => ({ s with raw := false }, some Error.ErrBadValue)
  else if name = OptionSubscribe ∨ name = OptionUnsubscribe then
    let vb : Option (List Byte) :=
      match value with
      | Iface.bytes v => some v
      | Iface.str v => some (stringBytes v)
      | _ => none
    match vb with
    | none => (s, some Error.ErrBadValue)
    | some vb =>
      if name = OptionSubscribe then
        if s.subs.any (fun sub => bytesEqual sub vb) then (s, none)
        else ({ s with subs := s.subs ++ [vb] }, none)
      else
        match s.subs.findIdx? (fun sub => bytesEqual sub vb) with
        | some i => ({ s with subs := removeSwap s.subs i }, none)
        | none => (s, some Error.ErrBadValue)
  else (s, some Error.ErrBadOption)

/-- The method `sub.GetOption`. -/
def sub.GetOption (s : sub) (name : String) : Except Error Iface :=
  if name = OptionRaw then .ok (Iface.bool s.raw)
  else .error Error.ErrBadOption

/-- The SUB protocol as the socket core sees it. -/
def subMethods : ProtocolMethods sub :=
  { Init := sub.Init,
    SetOption := fun sock name v =>
      ({ sock with proto := (sock.proto.SetOption name v).1 }, (sock.proto.SetOption name v).2),
    GetOption := fun sock name => sock.proto.GetOption name,
    SendHook := none, RecvHook := none }

/-- The engine after `Init` and a sequence of `SetOption` calls. -/
def sub.runOptions (ops : List (String × Iface)) : sub :=
  ops.foldl (fun s op => (s.SetOption op.1 op.2).1) ⟨[], false⟩

/-- How one round of a receive worker ends: the message went to the receive queue, it was
freed and the loop goes on, it was freed and the worker returned, or the worker waits in a
`select` without `default` for room in the queue. -/
inductive ReceiverStep
  | forwarded
  | dropped
  | exited
  | blocked
  deriving DecidableEq, Repr

/-- The result of one round of a receive worker. -/
structure ReceiverResult where
  rq : Chan
  msg : Message
  mc : List msgCacheInfo
  step : ReceiverStep
  deriving DecidableEq, Repr

/-- One round of `sub.receiver` for the message `m` that `ep.RecvMsg()` returned; `rq` is the
socket's receive queue, `closing` whether the close channel is closed, `preferClose` the
choice of the `select` when both the queue and the close channel are ready. -/
def sub.receiverStep (s : sub) (rq : Chan) (closing preferClose : Bool) (m : Message)
    (mc : List msgCacheInfo) : ReceiverResult :=
  let matched := s.subs.any (fun sub => sub.isPrefixOf m.Body.data)
  if !matched then ⟨rq, (m.Free mc).1, (m.Free mc).2, .dropped⟩
  else if closing ∧ (preferClose ∨ ¬ rq.hasRoom) then
    ⟨rq, (m.Free mc).1, (m.Free mc).2, .exited⟩
  else if rq.hasRoom then ⟨rq.send m, m, mc, .forwarded⟩
  else ⟨rq, (m.Free mc).1, (m.Free mc).2, .dropped⟩

/-! ## REP (`protocol/rep/rep.go`) -/

/-- The struct `rep`, as far as the hooks and the options use it (`backtracebuf` is a fixed
buffer of 64 bytes). -/
structure rep where
  backtrace : Slice
  raw : Bool
  ttl : Int
  deriving DecidableEq, Repr

/-- The value `&rep{}` that `NewSocket` passes to `MakeSocket`. -/
def rep.zero : rep := ⟨Slice.nil, false, 0⟩

/-- The method `rep.Init`. -/
def rep.Init (sock : socket rep) : socket rep :=
  ({ sock with proto := { sock.proto with ttl := 8 } }).SetSendError (some Error.ErrProtoState)

/-- The method `rep.RecvHook`. -/
def rep.RecvHook (sock : socket rep) (m : Message) : HookResult rep :=
  if sock.proto.raw then ⟨sock, m, true⟩
  else
    ⟨{ sock.SetSendError none with
        proto := { sock.proto with backtrace := (Slice.make 64).append m.Header.data } },
      { m with Header := Slice.nil }, true⟩

/-- The method `rep.SendHook`. -/
def rep.SendHook (sock : socket rep) (m : Message) : HookResult rep :=
  if sock.proto.raw then ⟨sock, m, true⟩
  else
    ⟨{ sock.SetSendError (some Error.ErrProtoState) with
        proto := { sock.proto with backtrace := Slice.nil } },
      { m with Header := m.Header.empty0.append sock.proto.backtrace.data },
      !(m.Header.empty0.append sock.proto.backtrace.data).isNil⟩

/-- The method `rep.SetOption`. -/
def rep.SetOption (sock : socket rep) (name : String) (v : Iface) : socket rep × Option Error :=
  if name = OptionRaw then
    match v with
    | Iface.bool true => (({ sock with proto := { sock.proto with raw := true } }).SetSendError
        none, none)
    | Iface.bool false => (({ sock with proto := { sock.proto with raw := false } }).SetSendError
        (some Error.ErrProtoState), none)
    | _ => ({ sock with proto := { sock.proto with raw := false } }, some Error.ErrBadValue)
  else if name = OptionTTL then
    match v with
    | Iface.int ttl =>
      if ttl < 1 ∨ ttl > 255 then (sock, some Error.ErrBadValue)
      else ({ sock with proto := { sock.proto with ttl := ttl } }, none)
    | _ => (sock, some Error.ErrBadValue)
  else (sock, some Error.ErrBadOption)

/-- The method `rep.GetOption`. -/
def rep.GetOption (sock : socket rep) (name : String) : Except Error Iface :=
  if name = OptionRaw then .ok (Iface.bool sock.proto.raw)
  else if name = OptionTTL then .ok (Iface.int sock.proto.ttl)
  else .error Error.ErrBadOption

/-- The REP protocol as the socket core sees it. -/
def repMethods : ProtocolMethods rep :=
  { Init := rep.Init, SetOption := rep.SetOption, GetOption := rep.GetOption,
    SendHook := some rep.SendHook, RecvHook := some rep.RecvHook }

/-- The PAIR protocol as the socket core sees it (`Init` only prepares the waiter). -/
def pairMethods : ProtocolMethods pair :=
  { Init := fun sock => sock,
    SetOption := fun sock name v =>
      if name = OptionRaw then
        match v with
        | Iface.bool b => ({ sock with proto := { sock.proto with raw := b } }, none)
        | _ => ({ sock with proto := { sock.proto with raw := false } }, some Error.ErrBadValue)
      else (sock, some Error.ErrBadOption),
    GetOption := fun sock name =>
      if name = OptionRaw then .ok (Iface.bool sock.proto.raw)
      else .error Error.ErrBadOption,
    SendHook := none, RecvHook := none }

/-! ## REP: the receive worker (`rep.receiver`) -/

/-- The bytes `byte(v>>24), byte(v>>16), byte(v>>8), byte(v)` of a `uint32` (also what
`binary.BigEndian.PutUint32` writes). -/
def PutUint32 (v : Nat) : List Byte :=
  [Byte.ofNat (v / 2 ^ 24), Byte.ofNat (v / 2 ^ 16), Byte.ofNat (v / 2 ^ 8), Byte.ofNat v]

/-- The value `binary.BigEndian.Uint32` reads from four bytes. -/
def GetUint32 (b0 b1 b2 b3 : Byte) : Nat :=
  ((b0.val * 256 + b1.val) * 256 + b2.val) * 256 + b3.val

/-- The slice expression `s[n:]` for `0 < n ≤ len(s)`. -/
def Slice.drop (s : Slice) (n : Nat) : Slice := ⟨s.data.drop n, s.cap - n, false⟩

/-- The inner loop of `rep.receiver`, which moves the backtrace from the body to the header.
`hops` is the counter, `hdr` the header so far; the body so far is given by its capacity, its
nil-ness and its bytes. The result is the header and the body when the loop is left, and
whether it was left by `break` (true) or by one of the two drops (false): `hops >= r.ttl`,
or fewer than four bytes of body. -/
def rep.walk (ttl : Int) : Int → Slice → Nat → Bool → List Byte → Slice × Slice × Bool
  | hops, hdr, bcap, bnil, b0 :: b1 :: b2 :: b3 :: rest =>
    if hops ≥ ttl then (hdr, ⟨b0 :: b1 :: b2 :: b3 :: rest, bcap, bnil⟩, false)
    else if b0.val &&& 0x80 ≠ 0 then
      (hdr.append [b0, b1, b2, b3], ⟨rest, bcap - 4, false⟩, true)
    else rep.walk ttl (hops + 1) (hdr.append [b0, b1, b2, b3]) (bcap - 4) false rest
  | _, hdr, bcap, bnil, body => (hdr, ⟨body, bcap, bnil⟩, false)

/-- The message as `rep.receiver` has rewritten it when it leaves the inner loop (the ID `id`
of the endpoint appended to the header, then the backtrace moved), and whether the loop was
left by `break`. -/
def rep.backtraced (r : rep) (id : Nat) (m : Message) : Message × Bool :=
  let w := rep.walk r.ttl 0 (m.Header.append (PutUint32 id)) m.Body.cap m.Body.isNil m.Body.data
  ({ m with Header := w.1, Body := w.2.1 }, w.2.2)

/-- One round of `rep.receiver` for the message `m` that `ep.RecvMsg()` returned, on the
endpoint with ID `id`; `rq`, `closing` and `preferClose` as for `sub.receiverStep`. The
final `select` has no `default`: with a full queue and the socket open the worker waits. -/
def rep.receiverStep (r : rep) (id : Nat) (rq : Chan) (closing preferClose : Bool)
    (m : Message) (mc : List msgCacheInfo) : ReceiverResult :=
  let b := r.backtraced id m
  if !b.2 then ⟨rq, (b.1.Free mc).1, (b.1.Free mc).2, .exited⟩
  else if closing ∧ (preferClose ∨ ¬ rq.hasRoom) then
    ⟨rq, (b.1.Free mc).1, (b.1.Free mc).2, .exited⟩
  else if rq.hasRoom then ⟨rq.send b.1, b.1, mc, .forwarded⟩
  else ⟨rq, b.1, mc, .blocked⟩

/-- The worker `rep.receiver` on the endpoint with ID `id`, run on the messages that
`ep.RecvMsg()` returns one after the other (after the last one it returns `nil`): the
receive queue and the cache at the end, and how the worker ended. -/
def rep.receiver (r : rep) (id : Nat) (closing preferClose : Bool) :
    List Message → Chan → List msgCacheInfo → Chan × List msgCacheInfo × ReceiverStep
  | [], rq, mc => (rq, mc, .exited)
  | m :: ms, rq, mc =>
    match (r.receiverStep id rq closing preferClose m mc).step with
    | .forwarded =>
      rep.receiver r id closing preferClose ms (r.receiverStep id rq closing preferClose m mc).rq
        (r.receiverStep id rq closing preferClose m mc).mc
    | st =>
      ((r.receiverStep id rq closing preferClose m mc).rq,
        (r.receiverStep id rq closing preferClose m mc).mc, st)

/-- The index of the first 32-bit word of `B` whose first byte has the high order bit set,
counting only words that lie fully inside `B` and stopping at the first incomplete one. -/
def firstHighWord : List Byte → Option Nat
  | b0 :: _ :: _ :: _ :: rest =>
    if b0.val &&& 0x80 ≠ 0 then some 0 else (firstHighWord rest).map (· + 1)
  | _ => none

/-! ## Fan-out to the per-peer queues (`pub.sender`, `bus.broadcast`, `surveyor.sender`) -/

/-- One entry of the map of peers of a broadcasting engine: the ID of the endpoint (the key
of the map) and the queue `q` of the peer. The map is given as a list, in the order in which
`range` happens to visit it. -/
structure Peer where
  id : Nat
  q : Chan
  deriving DecidableEq, Repr

/-- A duplicate offered to the queue of the peer `id`, and whether the queue took it. -/
structure Offer where
  id : Nat
  accepted : Bool
  deriving DecidableEq, Repr

/-- What a broadcast leaves behind: the peers with their queues, the message (its reference
count), the cache, and the offers made, in the order of the visit. -/
structure FanoutResult where
  peers : List Peer
  msg : Message
  mc : List msgCacheInfo
  offers : List Offer
  deriving DecidableEq, Repr

/-- The loop `for id, pe := range peers { m = m.Dup(); select { case pe.q <- m: default:
m.Free() } }` of the three engines; `skip` is the test before `continue`, which only
`bus.broadcast` has. -/
def fanout (skip : Nat → Bool) : List Peer → Message → List msgCacheInfo → FanoutResult
  | [], m, mc => ⟨[], m, mc, []⟩
  | pe :: rest, m, mc =>
    if skip pe.id then
      { fanout skip rest m mc with
        peers := pe :: (fanout skip rest m mc).peers }
    else if pe.q.hasRoom then
      { fanout skip rest m.Dup mc with
        peers := { pe with q := pe.q.send m.Dup } :: (fanout skip rest m.Dup mc).peers,
        offers := ⟨pe.id, true⟩ :: (fanout skip rest m.Dup mc).offers }
    else
      { fanout skip rest (m.Dup.Free mc).1 (m.Dup.Free mc).2 with
        peers := pe :: (fanout skip rest (m.Dup.Free mc).1 (m.Dup.Free mc).2).peers,
        offers := ⟨pe.id, false⟩ ::
          (fanout skip rest (m.Dup.Free mc).1 (m.Dup.Free mc).2).offers }

/-- The call `m.Free()` that follows the loop in `pub.sender` and in `bus.sender`. -/
def FanoutResult.free (r : FanoutResult) : FanoutResult :=
  { r with
    msg := (r.msg.Free r.mc).1, mc := (r.msg.Free r.mc).2 }

/-- The struct `pub` (`protocol/pub/pub.go`). -/
structure pub where
  eps : List Peer
  raw : Bool
  deriving DecidableEq, Repr

/-- One round of `pub.sender` for the message `m` taken from the send queue of the socket. -/
def pub.senderStep (p : pub) (m : Message) (mc : List msgCacheInfo) : FanoutResult :=
  (fanout (fun _ => false) p.eps m mc).free

/-- The struct `bus` (`protocol/bus/bus.go`). -/
structure bus where
  peers : List Peer
  raw : Bool
  deriving DecidableEq, Repr

/-- The method `bus.broadcast`. -/
def bus.broadcast (x : bus) (m : Message) (sender : Nat) (mc : List msgCacheInfo) :
    FanoutResult :=
  fanout (fun id => decide (sender = id)) x.peers m mc

/-- One round of `bus.sender` for the message `m` taken from the send queue of the socket:
`id` starts as zero and is read from the header when that has four bytes. -/
def bus.senderStep (x : bus) (m : Message) (mc : List msgCacheInfo) : FanoutResult :=
  match m.Header.data with
  | b0 :: b1 :: b2 :: b3 :: _ =>
    (x.broadcast { m with Header := m.Header.drop 4 } (GetUint32 b0 b1 b2 b3) mc).free
  | _ => (x.broadcast m 0 mc).free

/-! ## SURVEYOR (`protocol/surveyor/surveyor.go`) -/

def OptionSurveyTime : String := "SURVEY-TIME"

/-- The constant `defaultSurveyTime`. -/
def defaultSurveyTime : Int := Second

/-- The struct `surveyor`: `nextID` and `surveyID` are `uint32`; `timer` is `none` while the
timer is stopped and holds the duration it was last reset to otherwise. -/
structure surveyor where
  peers : List Peer
  raw : Bool
  nextID : Nat
  surveyID : Nat
  duration : Int
  timer : Option Int
  ttl : Int
  deriving DecidableEq, Repr

/-- The value `&surveyor{duration: defaultSurveyTime}` that `NewSocket` passes on. -/
def surveyor.zero : surveyor := ⟨[], false, 0, 0, defaultSurveyTime, none, 0⟩

/-- The method `surveyor.Init`. -/
def surveyor.Init (sock : socket surveyor) : socket surveyor :=
  ({ sock with
      proto := { sock.proto with peers := [], timer := none } }).SetRecvError
    (some Error.ErrProtoState)

/-- One round of `surveyor.sender` for the message `m` taken from the send queue. -/
def surveyor.senderStep (x : surveyor) (m : Message) (mc : List msgCacheInfo) : FanoutResult :=
  fanout (fun _ => false) x.peers m mc

/-- The method `surveyor.SendHook`. -/
def surveyor.SendHook (sock : socket surveyor) (m : Message) : HookResult surveyor :=
  if sock.proto.raw then ⟨sock, m, true⟩
  else
    ⟨{ sock.SetRecvError none with
        proto := { sock.proto with
          surveyID := (sock.proto.nextID ||| 0x80000000) % 2 ^ 32,
          nextID := (sock.proto.nextID + 1) % 2 ^ 32,
          timer := if sock.proto.duration > 0 then some sock.proto.duration
            else sock.proto.timer } },
      { m with
        Header := m.Header.append (PutUint32 ((sock.proto.nextID ||| 0x80000000) % 2 ^ 32)) },
      true⟩

/-- The method `surveyor.RecvHook`. -/
def surveyor.RecvHook (sock : socket surveyor) (m : Message) : HookResult surveyor :=
  if sock.proto.raw then ⟨sock, m, true⟩
  else
    match m.Header.data with
    | b0 :: b1 :: b2 :: b3 :: _ =>
      if GetUint32 b0 b1 b2 b3 ≠ sock.proto.surveyID then ⟨sock, m, false⟩
      else ⟨sock, { m with Header := m.Header.drop 4 }, true⟩
    | _ => ⟨sock, m, false⟩

/-- One round of `surveyorP.receiver` for the message `m` that `ep.RecvMsg()` returned; `rq`,
`closing` and `preferClose` as for `sub.receiverStep`. A body of fewer than four bytes is
freed and the loop goes on; otherwise the first four bytes of the body are moved to the end
of the header, and the message goes to the receive queue (the `select` has no `default`,
and the case of the close channel returns without freeing the message). -/
def surveyorP.receiverStep (rq : Chan) (closing preferClose : Bool) (m : Message)
    (mc : List msgCacheInfo) : ReceiverResult :=
  if m.Body.data.length < 4 then ⟨rq, (m.Free mc).1, (m.Free mc).2, .dropped⟩
  else if closing ∧ (preferClose ∨ ¬ rq.hasRoom) then
    ⟨rq, { m with
           Header := m.Header.append (m.Body.data.take 4), Body := m.Body.drop 4 }, mc, .exited⟩
  else if rq.hasRoom then
    ⟨rq.send { m with
               Header := m.Header.append (m.Body.data.take 4), Body := m.Body.drop 4 },
      { m with
        Header := m.Header.append (m.Body.data.take 4), Body := m.Body.drop 4 }, mc, .forwarded⟩
  else
    ⟨rq, { m with
           Header := m.Header.append (m.Body.data.take 4), Body := m.Body.drop 4 }, mc, .blocked⟩

/-- The method `surveyor.SetOption`. -/
def surveyor.SetOption (sock : socket surveyor) (name : String) (v : Iface) :
    socket surveyor × Option Error :=
  if name = OptionRaw then
    match v with
    | Iface.bool true =>
      (({ sock with proto := { sock.proto with raw := true, timer := none } }).SetRecvError
        none, none)
    | Iface.bool false =>
      (({ sock with proto := { sock.proto with raw := false } }).SetRecvError
        (some Error.ErrProtoState), none)
    | _ => ({ sock with proto := { sock.proto with raw := false } }, some Error.ErrBadValue)
  else if name = OptionSurveyTime then
    match v with
    | Iface.dur d => ({ sock with proto := { sock.proto with duration := d } }, none)
    | _ => ({ sock with proto := { sock.proto with duration := 0 } }, some Error.ErrBadValue)
  else if name = OptionTTL then
    match v with
    | Iface.int ttl =>
      if ttl < 1 ∨ ttl > 255 then (sock, some Error.ErrBadValue)
      else ({ sock with proto := { sock.proto with ttl := ttl } }, none)
    | _ => (sock, some Error.ErrBadValue)
  else (sock, some Error.ErrBadOption)

/-- The method `surveyor.GetOption`. -/
def surveyor.GetOption (sock : socket surveyor) (name : String) : Except Error Iface :=
  if name = OptionRaw then .ok (Iface.bool sock.proto.raw)
  else if name = OptionSurveyTime then .ok (Iface.dur sock.proto.duration)
  else if name = OptionTTL then .ok (Iface.int sock.proto.ttl)
  else .error Error.ErrBadOption

/-- The SURVEYOR protocol as the socket core sees it. -/
def surveyorMethods : ProtocolMethods surveyor :=
  { Init := surveyor.Init, SetOption := surveyor.SetOption, GetOption := surveyor.GetOption,
    SendHook := some surveyor.SendHook, RecvHook := some surveyor.RecvHook }

/-! ## The registry of pipes (`socket.addPipe`, `socket.remPipe`) -/

/-- Modelled from the spec: the struct `pipe` of the core, which wraps a transport pipe
(`pipe.go` is not among the sources); only what `addPipe` and `remPipe` read and write is
kept: the fields `index`, `d`, `l`, whether `sock` is set, and whether `Close` was called. -/
structure pipe where
  index : Int
  d : Option Nat
  l : Option Nat
  sock : Bool
  closed : Bool
  deriving DecidableEq, Repr

/-- The pipes that exist, by address: `obj a` is the pipe at the address `a`, and `next` is the
address that the next allocation returns. -/
structure PipeHeap where
  obj : Nat → pipe
  next : Nat

/-- The heap with `f` applied to the pipe at the address `a`. -/
def PipeHeap.modify (h : PipeHeap) (a : Nat) (f : pipe → pipe) : PipeHeap :=
  { h with obj := fun b => if b = a then f (h.obj a) else h.obj b }

/-- Modelled from the spec: the function `newPipe` (`pipe.go` is not among the sources),
which allocates the struct `pipe` for a transport pipe; the value `index0` it gives to the
field `index` is left open. -/
def newPipe (h : PipeHeap) (index0 : Int) : Nat × PipeHeap :=
  (h.next, { obj := fun b => if b = h.next then ⟨index0, none, none, false, false⟩ else h.obj b,
             next := h.next + 1 })

/-- Modelled from the spec: the method `pipe.Close` (`pipe.go` is not among the sources), of
which only the fact that it was called is recorded. -/
def PipeHeap.Close (h : PipeHeap) (p : Nat) : PipeHeap :=
  h.modify p fun o => { o with closed := true }

/-- The method `socket.addPipe`: the socket, the heap and the returned pipe (`none` for
`nil`). `d` and `l` are the dialer and the listener (`none` for `nil`), and `addEndpoint` is
the call `sock.proto.AddEndpoint(p)`. -/
def socket.addPipe {σ : Type} (sock : socket σ) (h : PipeHeap) (index0 : Int)
    (d l : Option Nat) (addEndpoint : socket σ → Nat → socket σ) :
    socket σ × PipeHeap × Option Nat :=
  let p := (newPipe h index0).1
  let h1 := (newPipe h index0).2.modify p fun o => { o with d := d, l := l }
  if l = none ∧ d = none then (sock, h1.Close p, none)
  else
    match sock.porthook with
    | some fn =>
      if !fn PortAction.PortActionAdd p then (sock, h1.Close p, none)
      else
        (addEndpoint { sock with pipes := sock.pipes ++ [p] } p,
          h1.modify p fun o => { o with sock := true, index := sock.pipes.length }, some p)
    | none =>
      (addEndpoint { sock with pipes := sock.pipes ++ [p] } p,
        h1.modify p fun o => { o with sock := true, index := sock.pipes.length }, some p)

/-- The method `socket.remPipe`; `removeEndpoint` is the call
`sock.proto.RemoveEndpoint(p)`. The result is `none` when an index expression is out of
range, where the runtime panics. -/
def socket.remPipe {σ : Type} (sock : socket σ) (h : PipeHeap) (p : Nat)
    (removeEndpoint : socket σ → Nat → socket σ) : Option (socket σ × PipeHeap) :=
  let s1 := removeEndpoint sock p
  if (h.obj p).index ≥ 0 then
    match s1.pipes.getLast? with
    | some last =>
      if (h.obj p).index.toNat < s1.pipes.length then
        some ({ s1 with pipes := (s1.pipes.set (h.obj p).index.toNat last).dropLast },
          (h.modify last fun o => { o with index := (h.obj p).index }).modify p
            fun o => { o with index := -1 })
      else none
    | none => none
  else some (s1, h)

/-- A call on the registry of a socket: `add d l` is `addPipe` with the dialer `d` and the
listener `l`; `rem p` is `remPipe` on the pipe at the address `p`. -/
inductive RegistryOp
  | add (d l : Option Nat)
  | rem (p : Nat)
  deriving DecidableEq, Repr

/-- A sequence of calls of `addPipe` and `remPipe` on one socket. The argument of `remPipe`
is a pipe that `addPipe` has registered on the socket before (then its field `sock` is set);
a `rem p` for which there is no such pipe stands for no call. The result is `none` when a
call panics. -/
def socket.runRegistry {σ : Type} (index0 : Int) (addEndpoint removeEndpoint :
    socket σ → Nat → socket σ) :
    List RegistryOp → socket σ × PipeHeap → Option (socket σ × PipeHeap)
  | [], st => some st
  | RegistryOp.add d l :: ops, st =>
    socket.runRegistry index0 addEndpoint removeEndpoint ops
      ((st.1.addPipe st.2 index0 d l addEndpoint).1, (st.1.addPipe st.2 index0 d l addEndpoint).2.1)
  | RegistryOp.rem p :: ops, st =>
    if p < st.2.next ∧ (st.2.obj p).sock = true then
      match st.1.remPipe st.2 p removeEndpoint with
      | some st1 => socket.runRegistry index0 addEndpoint removeEndpoint ops st1
      | none => none
    else socket.runRegistry index0 addEndpoint removeEndpoint ops st

/-- The registry is consistent: the pipe at position `i` of `sock.pipes` has the index `i`;
every registered pipe has been allocated and has its field `sock` set; and a pipe that was
registered and is no longer has the index `-1`. -/
def RegistryInv {σ : Type} (sock : socket σ) (h : PipeHeap) : Prop :=
  (∀ (i : Nat) (q : Nat), sock.pipes[i]? = some q →
    (h.obj q).index = i ∧ q < h.next ∧ (h.obj q).sock = true) ∧
  ∀ q, q < h.next → (h.obj q).sock = true → q ∉ sock.pipes → (h.obj q).index = -1

/-! ## Concrete sockets used in the examples -/

/-- A fresh REP socket whose receive queue holds one request, as the REP receiver forwards
it: peer-ID `1` and request-ID `0x80000001` in the header, the body `A`. -/
def repWithRequest : socket rep :=
  { newSocket repMethods rep.zero with
    rq := ⟨[mkMessage [0, 0, 0, 1, 0x80, 0, 0, 1] [0x41] 0], 128⟩ }


/-- A received message with the given body (empty header, one reference). -/
def bodyMessage (b : String) : Message := mkMessage [] (stringBytes b) 0

/-- A SUB engine subscribed to the prefix `foo`. -/
def subFoo : sub := (sub.SetOption ⟨[], false⟩ OptionSubscribe (Iface.str "foo")).1


/-- A PAIR socket with BEST-EFFORT set whose send queue (capacity 1) holds one message. -/
def fullBestEffortSocket : socket pair :=
  { newSocket pairMethods ⟨none, false⟩ with
    bestEffort := true, wqLen := 1, wq := ⟨[mkMessage [] [9] 0], 1⟩ }

/-- A PULL socket on which the latched send error has been cleared. -/
def pullSocketNoError : socket pull :=
  (newSocket pullMethods ⟨false⟩).SetSendError none

/-! # Properties

## Stream lemmas -/

theorem setProps_err : ∀ (props : List Iface) (m m' : List (String × Iface)),
    (setProps m props).2 = (setProps m' props).2
  | [], _, _ => by simp [setProps]
  | [_], _, _ => by simp [setProps]
  | Iface.str _ :: _ :: rest, _, _ => by simp only [setProps]; exact setProps_err rest _ _
  | Iface.int _ :: _ :: _, _, _ => by simp [setProps]
  | Iface.addr _ :: _ :: _, _, _ => by simp [setProps]
  | Iface.other _ :: _ :: _, _, _ => by simp [setProps]
  | Iface.dur _ :: _ :: _, _, _ => by simp [setProps]
  | Iface.bool _ :: _ :: _, _, _ => by simp [setProps]
  | Iface.bytes _ :: _ :: _, _, _ => by simp [setProps]

theorem Write_of_canWrite (c : NetConn) (k : Nat) (bs : List Byte)
    (h : c.canWrite (k + 1) = true) :
    (c.Write bs).2 = none ∧ (c.Write bs).1.wr = c.wr ++ bs ∧ (c.Write bs).1.rd = c.rd ∧
      (c.Write bs).1.closed = false ∧ (c.Write bs).1.canWrite k = true := by
  obtain ⟨rd, wr, wb, cl⟩ := c
  cases cl <;> cases wb with
  | none => simp_all [NetConn.canWrite, NetConn.Write]
  | some n =>
    cases n with
    | zero => simp_all [NetConn.canWrite, NetConn.Write]
    | succ n => simp_all [NetConn.canWrite, NetConn.Write]

theorem ReadFull_wr (c : NetConn) (n : Nat) : (c.ReadFull n).1.wr = c.wr := by
  unfold NetConn.ReadFull; split_ifs <;> rfl

theorem ReadFull_closed (c : NetConn) (n : Nat) : (c.ReadFull n).1.closed = c.closed := by
  unfold NetConn.ReadFull; split_ifs <;> rfl

theorem ReadFull_ok (c : NetConn) (n : Nat) (h : c.closed = false) (hn : n ≤ c.rd.length) :
    c.ReadFull n = ({ c with rd := c.rd.drop n }, .ok (c.rd.take n)) := by
  unfold NetConn.ReadFull
  by_cases h0 : n = 0
  · subst h0; simp
  · simp [h0, h, hn]

theorem handshake_wr (p : conn) (props : List Iface) (maxRecv : Option Int)
    (hprops : (setProps [] props).2 = none) (hw : p.c.canWrite 1 = true) :
    (p.handshake props maxRecv).1.c.wr =
      p.c.wr ++ (connHeader.mk 0 83 80 0 p.proto.Number 0).encode := by
  have hs := setProps_err props
    [(PropRemoteAddr, Iface.addr p.remoteAddr), (PropLocalAddr, Iface.addr p.localAddr)] []
  rw [hprops] at hs
  obtain ⟨hw2, hw1, -⟩ := Write_of_canWrite p.c 0 (connHeader.mk 0 83 80 0 p.proto.Number 0).encode hw
  unfold conn.handshake
  simp only []
  split
  · rename_i m e he; rw [he] at hs; simp at hs
  · rename_i m he
    split
    · rename_i c2 e hc; rw [hc] at hw2; simp at hw2
    · rename_i c2 hc
      rw [hc] at hw1; simp only at hw1
      have hr := ReadFull_wr c2 8
      split
      · rename_i c3 e h3; rw [h3] at hr; simp only at hr
        simp [NetConn.Close, hr, hw1]
      · rename_i c3 bs h3; rw [h3] at hr; simp only at hr
        split
        · simp [NetConn.Close, hr, hw1]
        · split_ifs <;> simp [NetConn.Close, hr, hw1]

/-- C1: with a well-formed property list and a writable stream, `conn.handshake` appends to
the stream exactly the eight bytes `0x00, 'S', 'P', 0x00, n>>8, n&0xff, 0x00, 0x00`, where `n`
is the local protocol number. -/
theorem handshake_writes_header (p : conn) (props : List Iface) (maxRecv : Option Int)
    (hprops : (setProps [] props).2 = none) (hw : p.c.canWrite 1 = true) :
    ((p.handshake props maxRecv).1.c.wr.map Fin.val) =
      p.c.wr.map Fin.val ++
        [0x00, 0x53, 0x50, 0x00, p.proto.Number.val >>> 8, p.proto.Number.val &&& 0xff,
         0x00, 0x00] := by
  rw [handshake_wr p props maxRecv hprops hw]
  have hn := p.proto.Number.isLt
  have h1 : p.proto.Number.val >>> 8 = p.proto.Number.val / 256 := by
    rw [Nat.shiftRight_eq_div_pow]
  have h2 : p.proto.Number.val &&& 0xff = p.proto.Number.val % 256 := by
    exact Nat.and_pow_two_sub_one_eq_mod _ 8
  rw [h1, h2]
  simp [connHeader.encode, PutUint16, Byte.ofNat]
  omega

theorem GetUint16_ne_zero (a b : Byte) : GetUint16 a b ≠ 0 ↔ a ≠ 0 ∨ b ≠ 0 := by
  have ha := a.isLt
  have hb := b.isLt
  simp only [GetUint16, ne_eq, Fin.ext_iff, Fin.val_zero]
  omega

theorem GetUint16_ne (a b : Byte) (n : Uint16) :
    GetUint16 a b ≠ n ↔ a.val * 256 + b.val ≠ n.val := by
  have ha := a.isLt
  have hb := b.isLt
  simp only [GetUint16, ne_eq, Fin.ext_iff]
  omega

/-- The handshake after a successful write and a complete peer header, step by step. -/
theorem handshake_eq (p : conn) (props : List Iface) (maxRecv : Option Int)
    (b0 b1 b2 b3 b4 b5 b6 b7 : Byte) (rest : List Byte)
    (hprops : (setProps [] props).2 = none) (hw : p.c.canWrite 1 = true)
    (hrd : p.c.rd = [b0, b1, b2, b3, b4, b5, b6, b7] ++ rest) :
    ∃ p1 : conn, ∃ c3 : NetConn, p1.open_ = p.open_ ∧ c3.closed = false ∧ c3.rd = rest ∧
      p.handshake props maxRecv =
        if b0 ≠ 0 ∨ b1 ≠ 83 ∨ b2 ≠ 80 ∨ GetUint16 b6 b7 ≠ 0 then
          ({ p1 with c := c3.Close }, some Error.ErrBadHeader)
        else if b3 ≠ 0 then ({ p1 with c := c3.Close }, some Error.ErrBadVersion)
        else if GetUint16 b4 b5 ≠ p.proto.PeerNumber then
          ({ p1 with c := c3.Close }, some Error.ErrBadProto)
        else ({ p1 with c := c3, open_ := true }, none) := by
  have hs := setProps_err props
    [(PropRemoteAddr, Iface.addr p.remoteAddr), (PropLocalAddr, Iface.addr p.localAddr)] []
  rw [hprops] at hs
  obtain ⟨hw2, -, hw3, hw4, -⟩ :=
    Write_of_canWrite p.c 0 (connHeader.mk 0 83 80 0 p.proto.Number 0).encode hw
  rcases hsp : setProps
    [(PropRemoteAddr, Iface.addr p.remoteAddr), (PropLocalAddr, Iface.addr p.localAddr)] props
    with ⟨m, e⟩
  rw [hsp] at hs
  simp only at hs
  subst hs
  rcases hwr : p.c.Write (connHeader.mk 0 83 80 0 p.proto.Number 0).encode with ⟨c2, e2⟩
  rw [hwr] at hw2 hw3 hw4
  simp only at hw2 hw3 hw4
  subst hw2
  have hlen : 8 ≤ c2.rd.length := by rw [hw3, hrd]; simp
  have hrf := ReadFull_ok c2 8 hw4 hlen
  refine ⟨{ p with props := m, maxrw := (match maxRecv with
      | some v => v
      | none => p.maxrw) }, { c2 with rd := rest }, rfl, hw4, rfl, ?_⟩
  unfold conn.handshake
  simp only [hsp, hwr, hrf, hw3, hrd]
  simp [connHeader.decode]

theorem handshake_writes_header_witness :
    (setProps [] [Iface.str "TLS-STATE", Iface.other 0]).2 = none ∧
    (pipeOn [] ⟨0x640, 0x640⟩).c.canWrite 1 = true ∧
    (((pipeOn [] ⟨0x640, 0x640⟩).handshake [Iface.str "TLS-STATE", Iface.other 0] none).1.c.wr.map
        Fin.val) =
      (pipeOn [] ⟨0x640, 0x640⟩).c.wr.map Fin.val ++
        [0x00, 0x53, 0x50, 0x00, (pipeOn [] ⟨0x640, 0x640⟩).proto.Number.val >>> 8,
         (pipeOn [] ⟨0x640, 0x640⟩).proto.Number.val &&& 0xff, 0x00, 0x00] :=
  ⟨rfl, rfl, handshake_writes_header _ _ _ rfl rfl⟩

/-- Once the local header is written, every failure of the handshake closes the stream and
leaves the open flag as it was. -/
theorem handshake_failure_after_write (p : conn) (props : List Iface) (maxRecv : Option Int)
    (hprops : (setProps [] props).2 = none) (hw : p.c.canWrite 1 = true)
    (herr : (p.handshake props maxRecv).2 ≠ none) :
    (p.handshake props maxRecv).1.c.closed = true ∧
      (p.handshake props maxRecv).1.open_ = p.open_ := by
  have hs := setProps_err props
    [(PropRemoteAddr, Iface.addr p.remoteAddr), (PropLocalAddr, Iface.addr p.localAddr)] []
  rw [hprops] at hs
  obtain ⟨hw2, -⟩ := Write_of_canWrite p.c 0 (connHeader.mk 0 83 80 0 p.proto.Number 0).encode hw
  revert herr
  unfold conn.handshake
  simp only []
  split
  · rename_i m e he; rw [he] at hs; simp at hs
  · split
    · rename_i c2 e hc; rw [hc] at hw2; simp at hw2
    · split
      · intro _; exact ⟨rfl, rfl⟩
      · split
        · intro _; exact ⟨rfl, rfl⟩
        · split_ifs
          · intro _; exact ⟨rfl, rfl⟩
          · intro _; exact ⟨rfl, rfl⟩
          · intro _; exact ⟨rfl, rfl⟩
          · intro h; exact absurd rfl h

/-- C2: for every eight-byte header received from the peer (after a well-formed property
list and a successful write of the local header) `conn.handshake` returns `ErrBadHeader` if
byte 0 is not 0, bytes 1-2 are not `SP` or bytes 6-7 are not zero; otherwise `ErrBadVersion`
if byte 3 is not 0; otherwise `ErrBadProto` if the big-endian value of bytes 4-5 differs from
the peer number; it returns nil exactly when none of these holds, and then the open flag is
set and the stream is left open. -/
theorem handshake_checks_peer_header (p : conn) (props : List Iface) (maxRecv : Option Int)
    (b0 b1 b2 b3 b4 b5 b6 b7 : Byte) (rest : List Byte)
    (hprops : (setProps [] props).2 = none) (hw : p.c.canWrite 1 = true)
    (hrd : p.c.rd = [b0, b1, b2, b3, b4, b5, b6, b7] ++ rest) :
    (p.handshake props maxRecv).2 =
      (if b0 ≠ 0 ∨ b1 ≠ 83 ∨ b2 ≠ 80 ∨ b6 ≠ 0 ∨ b7 ≠ 0 then some Error.ErrBadHeader
       else if b3 ≠ 0 then some Error.ErrBadVersion
       else if b4.val * 256 + b5.val ≠ p.proto.PeerNumber.val then some Error.ErrBadProto
       else none) ∧
    ((p.handshake props maxRecv).2 = none ↔
      (b0 = 0 ∧ b1 = 83 ∧ b2 = 80 ∧ b6 = 0 ∧ b7 = 0) ∧ b3 = 0 ∧
        b4.val * 256 + b5.val = p.proto.PeerNumber.val) ∧
    ((p.handshake props maxRecv).2 = none →
      (p.handshake props maxRecv).1.open_ = true ∧
        (p.handshake props maxRecv).1.c.closed = false) := by
  obtain ⟨p1, c3, ho, hc, -, heq⟩ :=
    handshake_eq p props maxRecv b0 b1 b2 b3 b4 b5 b6 b7 rest hprops hw hrd
  rw [heq]
  have h67 := GetUint16_ne_zero b6 b7
  have h45 := GetUint16_ne b4 b5 p.proto.PeerNumber
  by_cases hh : b0 ≠ 0 ∨ b1 ≠ 83 ∨ b2 ≠ 80 ∨ b6 ≠ 0 ∨ b7 ≠ 0
  · have hh' : b0 ≠ 0 ∨ b1 ≠ 83 ∨ b2 ≠ 80 ∨ GetUint16 b6 b7 ≠ 0 := by
      rw [h67]; exact hh
    rw [if_pos hh', if_pos hh]
    refine ⟨rfl, ⟨fun h => by simp at h, fun h => ?_⟩, fun h => by simp at h⟩
    obtain ⟨⟨h0, h1, h2, h6, h7⟩, -, -⟩ := h
    simp [h0, h1, h2, h6, h7] at hh
  · have hh' : ¬ (b0 ≠ 0 ∨ b1 ≠ 83 ∨ b2 ≠ 80 ∨ GetUint16 b6 b7 ≠ 0) := by
      rw [h67]; exact hh
    rw [if_neg hh', if_neg hh]
    push_neg at hh
    by_cases hv : b3 ≠ 0
    · rw [if_pos hv, if_pos hv]
      exact ⟨rfl, ⟨fun h => by simp at h, fun h => absurd h.2.1 hv⟩, fun h => by simp at h⟩
    · rw [if_neg hv, if_neg hv]
      push_neg at hv
      by_cases hp : b4.val * 256 + b5.val ≠ p.proto.PeerNumber.val
      · rw [if_pos (h45.mpr hp), if_pos hp]
        exact ⟨rfl, ⟨fun h => by simp at h, fun h => absurd h.2.2 hp⟩, fun h => by simp at h⟩
      · have hp' : ¬ GetUint16 b4 b5 ≠ p.proto.PeerNumber := fun h => hp (h45.mp h)
        rw [if_neg hp', if_neg hp]
        push_neg at hp
        exact ⟨rfl, ⟨fun _ => ⟨hh, hv, hp⟩, fun _ => rfl⟩, fun _ => ⟨rfl, hc⟩⟩

theorem handshake_checks_peer_header_witness :
    (setProps [] []).2 = none ∧
    (pipeOn [0, 83, 80, 0, 0, 0x31, 0, 0] ⟨0x30, 0x31⟩).c.canWrite 1 = true ∧
    ((pipeOn [0, 83, 80, 0, 0, 0x31, 0, 0] ⟨0x30, 0x31⟩).handshake [] (some 1048576)).2 = none ∧
    ((pipeOn [0, 83, 80, 0, 0, 0x31, 0, 0] ⟨0x30, 0x31⟩).handshake [] (some 1048576)).1.open_ =
      true :=
  have h := handshake_checks_peer_header (pipeOn [0, 83, 80, 0, 0, 0x31, 0, 0] ⟨0x30, 0x31⟩) []
    (some 1048576) 0 83 80 0 0 0x31 0 0 [] rfl rfl rfl
  ⟨rfl, rfl, h.2.1.mpr (by decide), (h.2.2 (h.2.1.mpr (by decide))).1⟩

/-- C3 (the code at the failing inputs): when the write of the local header fails, and when
the property list is malformed, `conn.handshake` returns the error and leaves the stream
open, whereas a header with a bad first byte closes it. -/
theorem handshake_failure_leaves_stream_open :
    (brokenPipe.handshake [] none).2 = some Error.ErrNetWrite ∧
    (brokenPipe.handshake [] none).1.c.closed = false ∧
    ((pipeOn [] ⟨0x10, 0x10⟩).handshake [Iface.int 7, Iface.int 8] none).2 =
      some Error.ErrBadProperty ∧
    ((pipeOn [] ⟨0x10, 0x10⟩).handshake [Iface.int 7, Iface.int 8] none).1.c.closed = false ∧
    ((pipeOn [1, 83, 80, 0, 0, 0x10, 0, 0] ⟨0x10, 0x10⟩).handshake [] none).2 =
      some Error.ErrBadHeader ∧
    ((pipeOn [1, 83, 80, 0, 0, 0x10, 0, 0] ⟨0x10, 0x10⟩).handshake [] none).1.c.closed = true := by
  refine ⟨rfl, rfl, rfl, rfl, ?_, ?_⟩ <;> decide

/-! ## Framing: what `Send` writes -/

theorem PutUint64_mod (v : Nat) : PutUint64 (v % 2 ^ 64) = PutUint64 v := by
  simp only [PutUint64, Byte.ofNat, List.cons.injEq, Fin.mk.injEq, and_true]
  norm_num
  omega

theorem GetUint64_PutUint64 (v : Nat) : GetUint64 (PutUint64 v) = v % 2 ^ 64 := by
  simp only [GetUint64, PutUint64, Byte.ofNat, List.foldl]
  norm_num
  omega

theorem canWrite_mono (c : NetConn) (k j : Nat) (hkj : j ≤ k) (h : c.canWrite k = true) :
    c.canWrite j = true := by
  obtain ⟨rd, wr, wb, cl⟩ := c
  cases wb with
  | none => simpa [NetConn.canWrite] using h
  | some n =>
    simp only [NetConn.canWrite, Bool.and_eq_true, Bool.not_eq_true', decide_eq_true_eq] at h ⊢
    exact ⟨h.1, by omega⟩

theorem conn_Send_eq (p : conn) (msg : Message) (now : Nat) (mc : List msgCacheInfo)
    (hexp : msg.Expired now = false) (hw : p.c.canWrite 3 = true) :
    ∃ c3 : NetConn, c3.wr = p.c.wr ++ PutUint64 (msg.Header.data.length + msg.Body.data.length)
        ++ msg.Header.data ++ msg.Body.data ∧ c3.rd = p.c.rd ∧ c3.closed = false ∧
      p.Send msg now mc = ⟨{ p with c := c3 }, (msg.Free mc).1, (msg.Free mc).2, none⟩ := by
  obtain ⟨a1, a2, a3, a4, a5⟩ := Write_of_canWrite p.c 2
    (PutUint64 ((msg.Header.data.length + msg.Body.data.length) % 2 ^ 64)) hw
  rcases h1 : p.c.Write (PutUint64 ((msg.Header.data.length + msg.Body.data.length) % 2 ^ 64))
    with ⟨c1, e1⟩
  rw [h1] at a1 a2 a3 a4 a5
  simp only at a1 a2 a3 a4 a5
  subst a1
  obtain ⟨b1, b2, b3, b4, b5⟩ := Write_of_canWrite c1 1 msg.Header.data a5
  rcases h2 : c1.Write msg.Header.data with ⟨c2, e2⟩
  rw [h2] at b1 b2 b3 b4 b5
  simp only at b1 b2 b3 b4 b5
  subst b1
  obtain ⟨d1, d2, d3, d4, -⟩ := Write_of_canWrite c2 0 msg.Body.data b5
  rcases h3 : c2.Write msg.Body.data with ⟨c3, e3⟩
  rw [h3] at d1 d2 d3 d4
  simp only at d1 d2 d3 d4
  subst d1
  refine ⟨c3, ?_, ?_, d4, ?_⟩
  · rw [d2, b2, a2, PutUint64_mod]
  · rw [d3, b3, a3]
  · unfold conn.Send
    simp only [hexp, h1, h2, h3]
    simp

theorem connipc_Send_eq (p : conn) (msg : Message) (mc : List msgCacheInfo)
    (hw : p.c.canWrite 4 = true) :
    ∃ c3 : NetConn, c3.wr = p.c.wr ++ [1] ++
          PutUint64 (msg.Header.data.length + msg.Body.data.length)
        ++ msg.Header.data ++ msg.Body.data ∧ c3.rd = p.c.rd ∧ c3.closed = false ∧
      connipc.Send p msg mc = ⟨{ p with c := c3 }, (msg.Free mc).1, (msg.Free mc).2, none⟩ := by
  obtain ⟨z1, z2, z3, z4, z5⟩ := Write_of_canWrite p.c 3 [1] hw
  rcases h0 : p.c.Write [1] with ⟨c0, e0⟩
  rw [h0] at z1 z2 z3 z4 z5
  simp only at z1 z2 z3 z4 z5
  subst z1
  obtain ⟨a1, a2, a3, a4, a5⟩ := Write_of_canWrite c0 2
    (PutUint64 ((msg.Header.data.length + msg.Body.data.length) % 2 ^ 64)) z5
  rcases h1 : c0.Write (PutUint64 ((msg.Header.data.length + msg.Body.data.length) % 2 ^ 64))
    with ⟨c1, e1⟩
  rw [h1] at a1 a2 a3 a4 a5
  simp only at a1 a2 a3 a4 a5
  subst a1
  obtain ⟨b1, b2, b3, b4, b5⟩ := Write_of_canWrite c1 1 msg.Header.data a5
  rcases h2 : c1.Write msg.Header.data with ⟨c2, e2⟩
  rw [h2] at b1 b2 b3 b4 b5
  simp only at b1 b2 b3 b4 b5
  subst b1
  obtain ⟨d1, d2, d3, d4, -⟩ := Write_of_canWrite c2 0 msg.Body.data b5
  rcases h3 : c2.Write msg.Body.data with ⟨c3, e3⟩
  rw [h3] at d1 d2 d3 d4
  simp only at d1 d2 d3 d4
  subst d1
  refine ⟨c3, ?_, ?_, d4, ?_⟩
  · rw [d2, b2, a2, z2, PutUint64_mod]
  · rw [d3, b3, a3, z3]
  · unfold connipc.Send
    simp only [h0, h1, h2, h3]

/-- C4: for a message that is not expired, with header `h` and body `b`, `conn.Send` appends
to the stream the 8-byte big-endian encoding of `|h|+|b|`, then `h`, then `b`, and
`connipc.Send` appends the byte `0x01` followed by the same length, `h` and `b`; both return
nil. The eight length bytes decode back to `|h|+|b|` (below `2^64`). -/
theorem Send_writes_frame (p : conn) (msg : Message) (now : Nat) (mc : List msgCacheInfo)
    (hexp : msg.Expired now = false) (hw : p.c.canWrite 4 = true) :
    ((p.Send msg now mc).p.c.wr = p.c.wr ++
        (PutUint64 (msg.Header.data.length + msg.Body.data.length) ++ msg.Header.data
          ++ msg.Body.data) ∧ (p.Send msg now mc).err = none) ∧
    ((connipc.Send p msg mc).p.c.wr = p.c.wr ++
        ([1] ++ PutUint64 (msg.Header.data.length + msg.Body.data.length) ++ msg.Header.data
          ++ msg.Body.data) ∧ (connipc.Send p msg mc).err = none) ∧
    (PutUint64 (msg.Header.data.length + msg.Body.data.length)).length = 8 ∧
    (msg.Header.data.length + msg.Body.data.length < 2 ^ 64 →
      GetUint64 (PutUint64 (msg.Header.data.length + msg.Body.data.length)) =
        msg.Header.data.length + msg.Body.data.length) := by
  obtain ⟨c3, h1, -, -, h2⟩ := conn_Send_eq p msg now mc hexp (canWrite_mono _ 4 3 (by omega) hw)
  obtain ⟨c4, h3, -, -, h4⟩ := connipc_Send_eq p msg mc hw
  rw [h2, h4]
  refine ⟨⟨?_, rfl⟩, ⟨?_, rfl⟩, rfl, fun hlt => ?_⟩
  · simp [h1]
  · simp [h3]
  · rw [GetUint64_PutUint64, Nat.mod_eq_of_lt hlt]

theorem Send_writes_frame_witness :
    (mkMessage [0x80, 0, 0, 1] [0x68, 0x69] 0).Expired 5 = false ∧
    (pipeOn [] ⟨0x30, 0x31⟩).c.canWrite 4 = true ∧
    ((pipeOn [] ⟨0x30, 0x31⟩).Send (mkMessage [0x80, 0, 0, 1] [0x68, 0x69] 0) 5 messageCache).p.c.wr
      = [0, 0, 0, 0, 0, 0, 0, 6, 0x80, 0, 0, 1, 0x68, 0x69] ∧
    (connipc.Send (pipeOn [] ⟨0x30, 0x31⟩) (mkMessage [0x80, 0, 0, 1] [0x68, 0x69] 0)
        messageCache).p.c.wr
      = [1, 0, 0, 0, 0, 0, 0, 0, 6, 0x80, 0, 0, 1, 0x68, 0x69] :=
  have h := Send_writes_frame (pipeOn [] ⟨0x30, 0x31⟩) (mkMessage [0x80, 0, 0, 1] [0x68, 0x69] 0)
    5 messageCache rfl rfl
  ⟨rfl, rfl, h.1.1.trans (by decide), h.2.1.1.trans (by decide)⟩

/-- C7 (the code at the failing input): `conn.Send` drops an expired message, writing
nothing, freeing it and returning nil; `connipc.Send` has no expiry check and writes the
whole frame of the same expired message. -/
theorem connipc_Send_ignores_expiry :
    (mkMessage [] [0x41] 3).Expired 5 = true ∧
    ((pipeOn [] ⟨0x50, 0x51⟩).Send (mkMessage [] [0x41] 3) 5 messageCache).p.c.wr = [] ∧
    ((pipeOn [] ⟨0x50, 0x51⟩).Send (mkMessage [] [0x41] 3) 5 messageCache).err = none ∧
    ((pipeOn [] ⟨0x50, 0x51⟩).Send (mkMessage [] [0x41] 3) 5 messageCache).msg.refcnt = 0 ∧
    (connipc.Send (pipeOn [] ⟨0x50, 0x51⟩) (mkMessage [] [0x41] 3) messageCache).p.c.wr =
      [1, 0, 0, 0, 0, 0, 0, 0, 1, 0x41] ∧
    (connipc.Send (pipeOn [] ⟨0x50, 0x51⟩) (mkMessage [] [0x41] 3) messageCache).err = none := by
  refine ⟨by decide, by decide, by decide, by decide, by decide, by decide⟩

/-- Dropping an expired message on the plain pipe, in general: nothing is written, the
message is freed, nil is returned. -/
theorem conn_Send_expired (p : conn) (msg : Message) (now : Nat) (mc : List msgCacheInfo)
    (hexp : msg.Expired now = true) :
    p.Send msg now mc = ⟨p, (msg.Free mc).1, (msg.Free mc).2, none⟩ := by
  unfold conn.Send
  simp [hexp]

/-! ## The message cache -/

theorem makeBytes_ok (n : Int) (h0 : 0 ≤ n) (h1 : n ≤ maxAlloc) :
    makeBytes n = some (Slice.make n.toNat) := by
  unfold makeBytes
  rw [if_neg (by omega)]

theorem newMsg_ok (sz : Int) (h0 : 0 ≤ sz) (h1 : sz ≤ maxAlloc) :
    newMsg sz = some ⟨Slice.nil, Slice.nil, Slice.make sz.toNat, Slice.make 32, sz, 0, 0⟩ := by
  unfold newMsg
  rw [makeBytes_ok sz h0 h1]

theorem newMsg_none (sz : Int) (h : sz < 0 ∨ sz > maxAlloc) : newMsg sz = none := by
  unfold newMsg makeBytes
  rw [if_pos h]

theorem newMsg_wf (sz : Int) (m : Message) (h : newMsg sz = some m) :
    MsgWF m ∧ m.bsize = sz := by
  unfold newMsg makeBytes at h
  split_ifs at h with hc
  simp only [Option.some.injEq] at h
  subst h
  exact ⟨⟨rfl, rfl⟩, rfl⟩

theorem poolGet_spec (pick : Option Nat) (info : msgCacheInfo)
    (h : ∀ m ∈ info.pool, MsgWF m ∧ m.bsize = info.maxbody)
    (hb0 : 0 ≤ info.maxbody) (hb1 : info.maxbody ≤ maxAlloc) :
    ∃ r, poolGet pick info = some r ∧
      (MsgWF r.1 ∧ r.1.bsize = info.maxbody) ∧ r.2.maxbody = info.maxbody ∧
      (∀ m ∈ r.2.pool, m ∈ info.pool) := by
  have hn := newMsg_ok info.maxbody hb0 hb1
  have hnew : ∃ r, (newMsg info.maxbody).map (fun m => (m, info)) = some r ∧
      (MsgWF r.1 ∧ r.1.bsize = info.maxbody) ∧ r.2.maxbody = info.maxbody ∧
      (∀ m ∈ r.2.pool, m ∈ info.pool) := by
    rw [hn]
    exact ⟨_, rfl, ⟨⟨rfl, rfl⟩, rfl⟩, rfl, fun m hm => hm⟩
  cases pick with
  | none => exact hnew
  | some i =>
    cases hg : info.pool[i]? with
    | none =>
      have e : poolGet (some i) info = (newMsg info.maxbody).map (fun m => (m, info)) := by
        simp [poolGet, hg]
      rw [e]
      exact hnew
    | some m =>
      have e : poolGet (some i) info = some (m, { info with pool := info.pool.eraseIdx i }) := by
        simp [poolGet, hg]
      rw [e]
      exact ⟨_, rfl, h m (List.getElem?_mem hg), rfl, fun x hx => List.mem_of_mem_eraseIdx hx⟩

/-- The loop of `NewMessage` stops at the first bucket with `sz < maxbody`. -/
theorem cacheGet_some (pick : Option Nat) (sz : Int) :
    ∀ (mc : List msgCacheInfo) (o : Option (Message × List msgCacheInfo)),
      cacheGet pick sz mc = some o →
      ∃ pre info post, mc = pre ++ info :: post ∧ (∀ x ∈ pre, ¬ sz < x.maxbody) ∧
        sz < info.maxbody ∧
        o = (poolGet pick info).map fun r => (r.1, pre ++ r.2 :: post)
  | [], o, h => by simp [cacheGet] at h
  | info :: rest, o, h => by
    unfold cacheGet at h
    by_cases hlt : sz < info.maxbody
    · rw [if_pos hlt] at h
      simp only [Option.some.injEq] at h
      exact ⟨[], info, rest, rfl, by simp, hlt, by rw [← h]; rfl⟩
    · rw [if_neg hlt] at h
      cases hr : cacheGet pick sz rest with
      | none => rw [hr] at h; simp at h
      | some r =>
        rw [hr] at h
        simp only [Option.some.injEq] at h
        obtain ⟨pre, info1, post, e1, e2, e3, e4⟩ := cacheGet_some pick sz rest r hr
        refine ⟨info :: pre, info1, post, by simp [e1], ?_, e3, ?_⟩
        · intro x hx
          rcases List.mem_cons.mp hx with hx | hx
          · rw [hx]; exact hlt
          · exact e2 x hx
        · rw [← h, e4]
          cases poolGet pick info1 <;> rfl

theorem cacheGet_none (pick : Option Nat) (sz : Int) :
    ∀ (mc : List msgCacheInfo), cacheGet pick sz mc = none → ∀ x ∈ mc, ¬ sz < x.maxbody
  | [], _, x, hx => by simp at hx
  | info :: rest, h, x, hx => by
    unfold cacheGet at h
    by_cases hlt : sz < info.maxbody
    · rw [if_pos hlt] at h; simp at h
    · rw [if_neg hlt] at h
      cases hr : cacheGet pick sz rest with
      | none =>
        rcases List.mem_cons.mp hx with hx | hx
        · rw [hx]; exact hlt
        · exact cacheGet_none pick sz rest hr x hx
      | some r => rw [hr] at h; simp at h

theorem cacheGet_eq_none (pick : Option Nat) (sz : Int) :
    ∀ (mc : List msgCacheInfo), (∀ x ∈ mc, ¬ sz < x.maxbody) → cacheGet pick sz mc = none
  | [], _ => rfl
  | info :: rest, h => by
    unfold cacheGet
    rw [if_neg (h info (by simp)),
      cacheGet_eq_none pick sz rest fun x hx => h x (List.mem_cons_of_mem _ hx)]

theorem ladder_sorted : ladder.Pairwise (fun a b => a < b) := by decide

theorem ladder_bound : ∀ c ∈ ladder, 64 ≤ c ∧ c ≤ 65536 := by decide

/-- In a cache with the buckets of `messageCache`, the first bucket above `sz` is the smallest
one above `sz`. -/
theorem first_bucket_smallest (mc pre post : List msgCacheInfo) (info : msgCacheInfo) (sz : Int)
    (hl : mc.map (fun i => i.maxbody) = ladder) (hmc : mc = pre ++ info :: post)
    (hpre : ∀ x ∈ pre, ¬ sz < x.maxbody) :
    info.maxbody ∈ ladder ∧ ∀ c ∈ ladder, sz < c → info.maxbody ≤ c := by
  have hs := ladder_sorted
  rw [← hl, hmc, List.map_append, List.map_cons] at hs
  refine ⟨by rw [← hl, hmc]; simp, fun c hc hlt => ?_⟩
  rw [← hl, hmc, List.map_append, List.map_cons, List.mem_append, List.mem_cons] at hc
  rcases hc with hc | hc | hc
  · obtain ⟨x, hx, rfl⟩ := List.mem_map.mp hc
    exact absurd hlt (hpre x hx)
  · exact le_of_eq hc.symm
  · have h2 := (List.pairwise_append.mp hs).2.1
    exact le_of_lt ((List.pairwise_cons.mp h2).1 c hc)

theorem PoolsWF_replace (pre post : List msgCacheInfo) (info info' : msgCacheInfo)
    (h : PoolsWF (pre ++ info :: post)) (hm : info'.maxbody = info.maxbody)
    (hp : ∀ m ∈ info'.pool, m ∈ info.pool ∨ (MsgWF m ∧ m.bsize = info.maxbody)) :
    PoolsWF (pre ++ info' :: post) := by
  intro x hx m hmem
  rw [List.mem_append, List.mem_cons] at hx
  rcases hx with hx | hx | hx
  · exact h x (by simp [hx]) m hmem
  · subst hx
    rcases hp m hmem with h1 | h1
    · rw [hm]; exact h info (by simp) m h1
    · rw [hm]; exact h1
  · exact h x (by simp [hx]) m hmem

/-- What `NewMessage` returns on a well-formed cache, for a size within the limit of the
allocator. -/
theorem NewMessage_spec (mc : List msgCacheInfo) (pick : Option Nat) (sz : Int)
    (hwf : CacheWF mc) (hsz : sz ≤ maxAlloc) :
    ∃ r, NewMessage mc pick sz = some r ∧
      r.1.refcnt = 1 ∧
      r.1.Body = Slice.make r.1.bsize.toNat ∧
      r.1.Header = Slice.make 32 ∧
      MsgWF r.1 ∧
      CacheWF r.2 ∧
      (sz < 65536 → ∃ pre info post p, mc = pre ++ info :: post ∧
        poolGet pick info = some p ∧
        r.2 = pre ++ p.2 :: post ∧
        r.1.bbuf = p.1.bbuf ∧
        r.1.bsize = info.maxbody ∧
        info.maxbody ∈ ladder ∧ sz < info.maxbody ∧ ∀ c ∈ ladder, sz < c → info.maxbody ≤ c) ∧
      (65536 ≤ sz → r.1.bsize = sz ∧ r.2 = mc) := by
  obtain ⟨hl, hp⟩ := hwf
  cases hg : cacheGet pick sz mc with
  | none =>
    have hn := cacheGet_none pick sz mc hg
    have hge : 65536 ≤ sz := by
      have hmem : (65536 : Int) ∈ mc.map (fun i => i.maxbody) := by rw [hl]; decide
      obtain ⟨x, hx, hx2⟩ := List.mem_map.mp hmem
      have := hn x hx
      rw [hx2] at this
      omega
    have e : NewMessage mc pick sz =
        some (⟨Slice.make 32, Slice.make sz.toNat, Slice.make sz.toNat, Slice.make 32, sz, 1,
          0⟩, mc) := by
      simp [NewMessage, hg, newMsg_ok sz (by omega) hsz]
    refine ⟨_, e, rfl, rfl, rfl, ⟨rfl, rfl⟩, ⟨hl, hp⟩, fun hlt => ?_, fun _ => ⟨rfl, rfl⟩⟩
    omega
  | some o =>
    obtain ⟨pre, info, post, e1, e2, e3, e4⟩ := cacheGet_some pick sz mc o hg
    have hinfo : ∀ x ∈ info.pool, MsgWF x ∧ x.bsize = info.maxbody :=
      fun x hx => hp info (by rw [e1]; simp) x hx
    obtain ⟨s1, s2⟩ := first_bucket_smallest mc pre post info sz hl e1 e2
    have hb := ladder_bound _ s1
    obtain ⟨p, hpg, ⟨g1, g2⟩, g3, g4⟩ := poolGet_spec pick info hinfo (by omega)
      (by have : (65536 : Int) ≤ maxAlloc := by decide
          omega)
    have e : NewMessage mc pick sz =
        some ({ p.1 with refcnt := 1, Body := p.1.bbuf, Header := p.1.hbuf },
          pre ++ p.2 :: post) := by
      simp [NewMessage, hg, e4, hpg]
    refine ⟨_, e, rfl, g1.1, g1.2, g1, ⟨?_, ?_⟩, fun _ => ?_, fun hge => ?_⟩
    · show (pre ++ p.2 :: post).map (fun i => i.maxbody) = ladder
      rw [← hl, e1]; simp [g3]
    · show PoolsWF (pre ++ p.2 :: post)
      rw [e1] at hp
      exact PoolsWF_replace pre post info _ hp g3 (fun x hx => Or.inl (g4 x hx))
    · exact ⟨pre, info, post, p, e1, hpg, rfl, rfl, g2, s1, e3, s2⟩
    · exfalso
      omega

/-- Beyond the limit of the allocator `NewMessage` panics. -/
theorem NewMessage_panics (mc : List msgCacheInfo) (pick : Option Nat) (sz : Int)
    (hwf : CacheWF mc) (hsz : sz > maxAlloc) : NewMessage mc pick sz = none := by
  have hg : cacheGet pick sz mc = none := by
    apply cacheGet_eq_none
    intro x hx
    have hm : x.maxbody ∈ ladder := by
      rw [← hwf.1]; exact List.mem_map.2 ⟨x, hx, rfl⟩
    have := (ladder_bound _ hm).2
    have h2 : (65536 : Int) ≤ maxAlloc := by decide
    omega
  simp [NewMessage, hg, newMsg_none sz (Or.inr hsz)]

/-- The body that `NewMessage` returns has room for `sz` bytes. -/
theorem NewMessage_cap (mc : List msgCacheInfo) (pick : Option Nat) (sz : Int)
    (hwf : CacheWF mc) (hsz : sz ≤ maxAlloc) :
    ∃ r, NewMessage mc pick sz = some r ∧ sz ≤ (r.1.Body.cap : Int) ∧ r.1.refcnt = 1 ∧
      r.1.Header = Slice.make 32 := by
  obtain ⟨r, e, h1, h2, h3, -, -, h6, h7⟩ := NewMessage_spec mc pick sz hwf hsz
  refine ⟨r, e, ?_, h1, h3⟩
  have hcap : r.1.Body.cap = r.1.bsize.toNat := by
    rw [h2]; rfl
  rw [hcap]
  by_cases hlt : sz < 65536
  · obtain ⟨pre, info, post, p, -, -, -, -, g4, -, g6, -⟩ := h6 hlt
    rw [g4]; omega
  · have := (h7 (by omega)).1
    rw [this]; omega

/-- On the initial cache `freshMessage sz` is what `NewMessage(sz)` returns, for every size
within the limit of the allocator. -/
theorem NewMessage_freshMessage (sz : Int) (hsz : sz ≤ maxAlloc) :
    NewMessage messageCache none sz = some (freshMessage sz) := by
  obtain ⟨r, e, -⟩ := NewMessage_spec messageCache none sz (by decide) hsz
  unfold freshMessage
  rw [e]

/-- C8 (counterexample): `NewMessage(1 << 62)` panics: no bucket is large enough, and
`make([]byte, 0, 1 << 62)` in `newMsg` exceeds the limit of the allocator. -/
theorem NewMessage_panics_for_huge_size :
    (0 : Int) ≤ 2 ^ 62 ∧ NewMessage messageCache none (2 ^ 62) = none := by
  decide

/-- C8 (amended): on a well-formed cache and for every `sz` up to the limit of the
allocator (in particular every `0 ≤ sz ≤ maxAlloc`), `NewMessage(sz)` returns a message
with reference count 1, an empty body of capacity at least `sz` and an empty header of
capacity 32. For `sz < 65536` the body buffer is the one supplied by the pool of the
smallest bucket of the ladder whose capacity is strictly greater than `sz` (and the body
capacity is that bucket's); for `sz ≥ 65536` the buffer has capacity exactly `sz` and no pool
is touched. Beyond the limit of the allocator `NewMessage` panics. -/
theorem NewMessage_returns (mc : List msgCacheInfo) (pick : Option Nat) (sz : Int)
    (hwf : CacheWF mc) :
    (sz ≤ maxAlloc →
      ∃ r, NewMessage mc pick sz = some r ∧
        r.1.refcnt = 1 ∧
        r.1.Body.data.length = 0 ∧
        sz ≤ (r.1.Body.cap : Int) ∧
        r.1.Header.data.length = 0 ∧
        r.1.Header.cap = 32 ∧
        (sz < 65536 → ∃ pre info post p, mc = pre ++ info :: post ∧
          poolGet pick info = some p ∧
          r.2 = pre ++ p.2 :: post ∧
          r.1.Body = p.1.bbuf ∧
          (r.1.Body.cap : Int) = info.maxbody ∧
          info.maxbody ∈ ladder ∧ sz < info.maxbody ∧
          ∀ c ∈ ladder, sz < c → info.maxbody ≤ c) ∧
        (65536 ≤ sz → (r.1.Body.cap : Int) = sz ∧ r.2 = mc)) ∧
    (sz > maxAlloc → NewMessage mc pick sz = none) := by
  refine ⟨fun hsz => ?_, NewMessage_panics mc pick sz hwf⟩
  obtain ⟨r, e, h1, h2, h3, h4, -, h6, h7⟩ := NewMessage_spec mc pick sz hwf hsz
  obtain ⟨r', e', hc, -, -⟩ := NewMessage_cap mc pick sz hwf hsz
  rw [e] at e'
  obtain rfl := Option.some.inj e'
  have hcap : r.1.Body.cap = r.1.bsize.toNat := by
    rw [h2]; rfl
  refine ⟨r, e, h1, by rw [h2]; rfl, hc, by rw [h3]; rfl,
    by rw [h3]; rfl, fun hlt => ?_, fun hge => ?_⟩
  · obtain ⟨pre, info, post, p, g1, gp, g2, g3, g4, g5, g6, g7⟩ := h6 hlt
    refine ⟨pre, info, post, p, g1, gp, g2, ?_, ?_, g5, g6, g7⟩
    · rw [← g3, h2]
      exact h4.1.symm
    · have := (ladder_bound _ g5).1
      rw [hcap, g4]; omega
  · obtain ⟨g1, g2⟩ := h7 hge
    exact ⟨by rw [hcap, g1]; omega, g2⟩

theorem NewMessage_returns_witness :
    CacheWF usedCache ∧
    ∃ r, NewMessage usedCache (some 0) 70 = some r ∧ r.1.refcnt = 1 ∧
      (70 : Int) ≤ (r.1.Body.cap : Int) ∧ r.1.Header.cap = 32 ∧ r.2 = messageCache :=
  have h := (NewMessage_returns usedCache (some 0) 70 (by decide)).1 (by decide)
  ⟨by decide, h.imp fun r hr => ⟨hr.1, hr.2.1, hr.2.2.2.1, hr.2.2.2.2.2.1, by
    have e := hr.1
    have e2 : NewMessage usedCache (some 0) 70 = some ((NewMessage usedCache (some 0) 70).get
      (by decide)) := (Option.some_get _).symm
    rw [e2] at e
    rw [← Option.some.inj e]
    decide⟩⟩

/-! ## Framing: what `Recv` returns -/

theorem ReadFull_not_tooLong (c : NetConn) (n : Nat) :
    (c.ReadFull n).2 ≠ .error Error.ErrTooLong := by
  unfold NetConn.ReadFull
  split_ifs <;> simp

theorem recvBody_tooLong_iff (p : conn) (c1 : NetConn) (sz : Int) (pick : Option Nat)
    (mc : List msgCacheInfo) :
    (recvBody p c1 sz pick mc).res = some (.error Error.ErrTooLong) ↔
      (sz < 0 ∨ (p.maxrw > 0 ∧ sz > p.maxrw)) := by
  unfold recvBody
  by_cases hc : sz < 0 ∨ (p.maxrw > 0 ∧ sz > p.maxrw)
  · simp [hc]
  · rw [if_neg hc]
    simp only [hc, iff_false]
    cases hN : NewMessage mc pick sz with
    | none => simp
    | some r =>
      obtain ⟨msg, mc1⟩ := r
      simp only []
      split_ifs
      · simp
      · have hne := ReadFull_not_tooLong c1 sz.toNat
        rcases hr : c1.ReadFull sz.toNat with ⟨c2, r⟩
        rw [hr] at hne
        cases r with
        | error e =>
          simp only [Option.some.injEq, Except.error.injEq]
          intro he
          exact hne (by rw [he])
        | ok bs => simp

theorem recvBody_tooLong (p : conn) (c1 : NetConn) (sz : Int) (pick : Option Nat)
    (mc : List msgCacheInfo) (hc : sz < 0 ∨ (p.maxrw > 0 ∧ sz > p.maxrw)) :
    recvBody p c1 sz pick mc = ⟨{ p with c := c1 }, mc, some (.error Error.ErrTooLong)⟩ := by
  unfold recvBody
  rw [if_pos hc]

/-- A frame that passes the size check, whose length the allocator accepts and whose payload
is on the stream is returned as a message with an empty header and the payload as body. -/
theorem recvBody_ok (p : conn) (c1 : NetConn) (sz : Int) (pick : Option Nat)
    (mc : List msgCacheInfo) (payload rest : List Byte)
    (hwf : CacheWF mc) (hsz : 0 ≤ sz) (halloc : sz ≤ maxAlloc)
    (hmax : ¬ (p.maxrw > 0 ∧ sz > p.maxrw))
    (hcl : c1.closed = false) (hrd : c1.rd = payload ++ rest)
    (hlen : payload.length = sz.toNat) :
    ∃ r, NewMessage mc pick sz = some r ∧ r.1.refcnt = 1 ∧ r.1.Header = Slice.make 32 ∧
      recvBody p c1 sz pick mc =
        ⟨{ p with c := { c1 with rd := rest } }, r.2,
          some (.ok { r.1 with Body := ⟨payload, r.1.Body.cap, r.1.Body.isNil⟩ })⟩ := by
  obtain ⟨r, e, hcap, h1, h3⟩ := NewMessage_cap mc pick sz hwf halloc
  refine ⟨r, e, h1, h3, ?_⟩
  have hc : ¬ (sz < 0 ∨ (p.maxrw > 0 ∧ sz > p.maxrw)) := by
    intro h
    rcases h with h | h
    · omega
    · exact hmax h
  have hcap2 : ¬ (sz.toNat > r.1.Body.cap) := by omega
  have hrf := ReadFull_ok c1 sz.toNat hcl (by rw [hrd]; simp [hlen])
  unfold recvBody
  rw [if_neg hc, e]
  obtain ⟨msg, mc1⟩ := r
  simp only [if_neg hcap2, hrf]
  simp [hrd, ← hlen]

/-- A length that passes the size check but that the allocator refuses makes `Recv` panic. -/
theorem recvBody_panics (p : conn) (c1 : NetConn) (sz : Int) (pick : Option Nat)
    (mc : List msgCacheInfo) (hwf : CacheWF mc) (halloc : sz > maxAlloc)
    (hmax : ¬ (p.maxrw > 0 ∧ sz > p.maxrw)) :
    (recvBody p c1 sz pick mc).res = none := by
  have hc : ¬ (sz < 0 ∨ (p.maxrw > 0 ∧ sz > p.maxrw)) := by
    intro h
    rcases h with h | h
    · have : (0 : Int) ≤ maxAlloc := by decide
      omega
    · exact hmax h
  unfold recvBody
  rw [if_neg hc, NewMessage_panics mc pick sz hwf halloc]

theorem GetInt64_PutUint64 (n : Nat) (h : n < 2 ^ 63) : GetInt64 (PutUint64 n) = (n : Int) := by
  unfold GetInt64 toInt64
  rw [GetUint64_PutUint64]
  have h1 : n % 2 ^ 64 = n := Nat.mod_eq_of_lt (by omega)
  rw [Nat.mod_mod, h1, if_pos h]

theorem GetInt64_range (bs : List Byte) : -(2 ^ 63 : Int) ≤ GetInt64 bs ∧ GetInt64 bs < 2 ^ 63 := by
  unfold GetInt64 toInt64
  have := Nat.mod_lt (GetUint64 bs) (show 0 < 2 ^ 64 by norm_num)
  split_ifs with h <;> constructor <;> omega

theorem conn_Recv_eq (p : conn) (pick : Option Nat) (mc : List msgCacheInfo)
    (lenbytes rest : List Byte) (hcl : p.c.closed = false) (hl : lenbytes.length = 8)
    (hrd : p.c.rd = lenbytes ++ rest) :
    p.Recv pick mc = recvBody p { p.c with rd := rest } (GetInt64 lenbytes) pick mc := by
  have hrf := ReadFull_ok p.c 8 hcl (by rw [hrd]; simp [hl])
  unfold conn.Recv
  rw [hrf]
  simp [hrd, ← hl]

theorem connipc_Recv_eq (p : conn) (pick : Option Nat) (mc : List msgCacheInfo)
    (one : Byte) (lenbytes rest : List Byte) (hcl : p.c.closed = false)
    (hl : lenbytes.length = 8) (hrd : p.c.rd = one :: (lenbytes ++ rest)) :
    connipc.Recv p pick mc = recvBody p { p.c with rd := rest } (GetInt64 lenbytes) pick mc := by
  rcases p with ⟨⟨rd, wr, wb, cl⟩, la, ra, pr, op, props, mx⟩
  simp only at hcl hrd
  subst hcl hrd
  simp [connipc.Recv, NetConn.Read1, NetConn.ReadFull, hl, List.take_left' hl,
    List.drop_left' hl]

/-- Receiving from the bytes of one frame: the message has an empty header and the whole
payload as body (plain framing). -/
theorem conn_Recv_frame (p : conn) (pick : Option Nat) (mc : List msgCacheInfo)
    (payload rest : List Byte) (hcl : p.c.closed = false) (hwf : CacheWF mc)
    (hlt : payload.length ≤ maxAlloc)
    (hmax : ¬ (p.maxrw > 0 ∧ (payload.length : Int) > p.maxrw))
    (hrd : p.c.rd = PutUint64 payload.length ++ (payload ++ rest)) :
    ∃ m, (p.Recv pick mc).res = some (.ok m) ∧ m.Header.data = [] ∧ m.Body.data = payload ∧
      m.refcnt = 1 ∧ (p.Recv pick mc).p.c.rd = rest := by
  have hA : maxAlloc = 281474976710656 := rfl
  have h1 := conn_Recv_eq p pick mc (PutUint64 payload.length) (payload ++ rest) hcl rfl hrd
  have hsz := GetInt64_PutUint64 payload.length (by omega)
  rw [hsz] at h1
  obtain ⟨r, -, r1, r3, h2⟩ := recvBody_ok p { p.c with rd := payload ++ rest } payload.length
    pick mc payload rest hwf (by omega) (by exact_mod_cast hlt) hmax hcl rfl (by simp)
  rw [h1, h2]
  exact ⟨_, rfl, by simp [r3, Slice.make], rfl, r1, rfl⟩

/-- Receiving from the bytes of one frame (IPC framing; the leading byte is not examined). -/
theorem connipc_Recv_frame (p : conn) (pick : Option Nat) (mc : List msgCacheInfo) (one : Byte)
    (payload rest : List Byte) (hcl : p.c.closed = false) (hwf : CacheWF mc)
    (hlt : payload.length ≤ maxAlloc)
    (hmax : ¬ (p.maxrw > 0 ∧ (payload.length : Int) > p.maxrw))
    (hrd : p.c.rd = one :: (PutUint64 payload.length ++ (payload ++ rest))) :
    ∃ m, (connipc.Recv p pick mc).res = some (.ok m) ∧ m.Header.data = [] ∧
      m.Body.data = payload ∧ m.refcnt = 1 ∧ (connipc.Recv p pick mc).p.c.rd = rest := by
  have hA : maxAlloc = 281474976710656 := rfl
  have h1 := connipc_Recv_eq p pick mc one (PutUint64 payload.length) (payload ++ rest) hcl rfl hrd
  have hsz := GetInt64_PutUint64 payload.length (by omega)
  rw [hsz] at h1
  obtain ⟨r, -, r1, r3, h2⟩ := recvBody_ok p { p.c with rd := payload ++ rest } payload.length
    pick mc payload rest hwf (by omega) (by exact_mod_cast hlt) hmax hcl rfl (by simp)
  rw [h1, h2]
  exact ⟨_, rfl, by simp [r3, Slice.make], rfl, r1, rfl⟩

/-- C5 (counterexample): for `h = [1]`, `b = [2]` the message that `Recv` returns from the
bytes written by `Send` has an empty header and the body `[1, 2]`; it is not `(h, b)`. -/
theorem roundtrip_header_not_restored :
    ∃ m, ((recvPipe ((pipeOn [] ⟨0x30, 0x31⟩).Send (mkMessage [1] [2] 0) 0
        messageCache).p.c.wr).Recv none messageCache).res = some (.ok m) ∧
      m.Header.data = [] ∧ m.Body.data = [1, 2] ∧
      ¬ (m.Header.data = [1] ∧ m.Body.data = [2]) :=
  ⟨_, rfl, by decide, by decide, by decide⟩

/-- C5 (amended): for a message with header `h` and body `b`, not expired, with
`|h|+|b| ≤ MAX-RCV-SIZE` (and, as the bytes of a message held in memory are, within the limit
of the allocator), `Recv` applied to the bytes that `Send` wrote returns a message
with an empty header and the body `h ++ b`; it is the message `(h, b)` exactly when `h` is
empty. -/
theorem Recv_of_Send (ps pr : conn) (msg : Message) (now : Nat) (mcS mcR : List msgCacheInfo)
    (pick : Option Nat) (hexp : msg.Expired now = false) (hw : ps.c.canWrite 3 = true)
    (hcl : pr.c.closed = false) (hwf : CacheWF mcR)
    (halloc : msg.Header.data.length + msg.Body.data.length ≤ maxAlloc)
    (hsize : ((msg.Header.data.length + msg.Body.data.length : Nat) : Int) ≤ pr.maxrw)
    (hwire : pr.c.rd = ((ps.Send msg now mcS).p.c.wr).drop ps.c.wr.length) :
    ∃ m, (pr.Recv pick mcR).res = some (.ok m) ∧ m.Header.data = [] ∧
      m.Body.data = msg.Header.data ++ msg.Body.data ∧
      ((m.Header.data = msg.Header.data ∧ m.Body.data = msg.Body.data) ↔
        msg.Header.data = []) := by
  obtain ⟨c3, h1, -, -, h2⟩ := conn_Send_eq ps msg now mcS hexp hw
  rw [h2] at hwire
  simp only [h1, List.append_assoc, List.drop_left] at hwire
  have hlen : (msg.Header.data ++ msg.Body.data).length
      = msg.Header.data.length + msg.Body.data.length := List.length_append _ _
  rw [← hlen] at hwire hsize halloc
  obtain ⟨m, g1, g2, g3, -, -⟩ := conn_Recv_frame pr pick mcR (msg.Header.data ++ msg.Body.data) []
    hcl hwf halloc (by omega) (by simpa using hwire)
  refine ⟨m, g1, g2, g3, fun h0 => ?_, fun h0 => ?_⟩
  · rw [← h0.1, g2]
  · rw [g2, g3, h0]
    exact ⟨rfl, rfl⟩

theorem Recv_of_Send_witness :
    ∃ m, ((recvPipe ((pipeOn [] ⟨0x30, 0x31⟩).Send (mkMessage [] [7, 8, 9] 0) 0
        messageCache).p.c.wr).Recv none messageCache).res = some (.ok m) ∧
      m.Header.data = [] ∧ m.Body.data = [7, 8, 9] :=
  have h := Recv_of_Send (pipeOn [] ⟨0x30, 0x31⟩)
    (recvPipe ((pipeOn [] ⟨0x30, 0x31⟩).Send (mkMessage [] [7, 8, 9] 0) 0 messageCache).p.c.wr)
    (mkMessage [] [7, 8, 9] 0) 0 messageCache messageCache none rfl rfl rfl (by decide)
    (by decide) (by decide) rfl
  h.imp fun _ hm => ⟨hm.1, hm.2.1, hm.2.2.1⟩

/-- C6 (counterexample): with `maxrw = 2^50` a frame whose length prefix is `2^50` passes the
size check, and with `maxrw = 0` so does one whose length prefix is `2^63 - 1`; in both
cases `NewMessage` panics, for `conn.Recv` and for `connipc.Recv`: the frame is neither
refused with `ErrTooLong` nor accepted. -/
theorem Recv_panics_on_huge_length :
    GetInt64 [0, 4, 0, 0, 0, 0, 0, 0] = 2 ^ 50 ∧
    ({ recvPipe [0, 4, 0, 0, 0, 0, 0, 0] with maxrw := 2 ^ 50 }.Recv none messageCache).res =
      none ∧
    (connipc.Recv { recvPipe [1, 0, 4, 0, 0, 0, 0, 0, 0] with maxrw := 2 ^ 50 } none
      messageCache).res = none ∧
    GetInt64 [0x7f, 0xff, 0xff, 0xff, 0xff, 0xff, 0xff, 0xff] = 2 ^ 63 - 1 ∧
    ((pipeOn [0x7f, 0xff, 0xff, 0xff, 0xff, 0xff, 0xff, 0xff] ⟨0x30, 0x31⟩).Recv none
      messageCache).res = none ∧
    (connipc.Recv (pipeOn [1, 0x7f, 0xff, 0xff, 0xff, 0xff, 0xff, 0xff, 0xff] ⟨0x30, 0x31⟩) none
      messageCache).res = none :=
  ⟨by decide, rfl, rfl, by decide, rfl, rfl⟩

/-- C6 (amended): for `conn.Recv` and `connipc.Recv` alike, with maximum `N = maxrw` and a
frame whose eight length bytes decode to the signed value `sz`: the result is `ErrTooLong` if
and only if `sz < 0` or (`N > 0` and `sz > N`), and then only the length prefix (and the IPC
marker byte) has been consumed. So with `N > 0` a length of `N + 1` is refused with
`ErrTooLong` and a length of `N` is not; a length of `N` is accepted (the message is
returned when its payload is on the stream) when `N` is within the limit of the allocator,
and makes `Recv` panic when it is beyond. With `N = 0` no non-negative length is refused
with `ErrTooLong`; a length beyond the limit of the allocator makes `Recv` panic. -/
theorem Recv_tooLong_iff (p q : conn) (pick : Option Nat) (mc : List msgCacheInfo) (one : Byte)
    (lenbytes rest : List Byte) (hl : lenbytes.length = 8)
    (hp : p.c.closed = false) (hprd : p.c.rd = lenbytes ++ rest)
    (hq : q.c.closed = false) (hqrd : q.c.rd = one :: (lenbytes ++ rest)) :
    (((p.Recv pick mc).res = some (.error Error.ErrTooLong) ↔
        (GetInt64 lenbytes < 0 ∨ (p.maxrw > 0 ∧ GetInt64 lenbytes > p.maxrw))) ∧
      ((connipc.Recv q pick mc).res = some (.error Error.ErrTooLong) ↔
        (GetInt64 lenbytes < 0 ∨ (q.maxrw > 0 ∧ GetInt64 lenbytes > q.maxrw)))) ∧
    (((p.Recv pick mc).res = some (.error Error.ErrTooLong) → (p.Recv pick mc).p.c.rd = rest) ∧
      ((connipc.Recv q pick mc).res = some (.error Error.ErrTooLong) →
        (connipc.Recv q pick mc).p.c.rd = rest)) ∧
    ((p.maxrw > 0 → GetInt64 lenbytes = p.maxrw + 1 →
        (p.Recv pick mc).res = some (.error Error.ErrTooLong)) ∧
      (q.maxrw > 0 → GetInt64 lenbytes = q.maxrw + 1 →
        (connipc.Recv q pick mc).res = some (.error Error.ErrTooLong))) ∧
    ((p.maxrw > 0 → GetInt64 lenbytes = p.maxrw →
        (p.Recv pick mc).res ≠ some (.error Error.ErrTooLong) ∧
        (CacheWF mc → p.maxrw ≤ maxAlloc → ∀ payload rest', rest = payload ++ rest' →
          payload.length = p.maxrw.toNat →
          ∃ m, (p.Recv pick mc).res = some (.ok m) ∧ m.Body.data = payload) ∧
        (CacheWF mc → p.maxrw > maxAlloc → (p.Recv pick mc).res = none)) ∧
      (q.maxrw > 0 → GetInt64 lenbytes = q.maxrw →
        (connipc.Recv q pick mc).res ≠ some (.error Error.ErrTooLong) ∧
        (CacheWF mc → q.maxrw ≤ maxAlloc → ∀ payload rest', rest = payload ++ rest' →
          payload.length = q.maxrw.toNat →
          ∃ m, (connipc.Recv q pick mc).res = some (.ok m) ∧ m.Body.data = payload) ∧
        (CacheWF mc → q.maxrw > maxAlloc → (connipc.Recv q pick mc).res = none))) ∧
    ((p.maxrw = 0 → 0 ≤ GetInt64 lenbytes →
        (p.Recv pick mc).res ≠ some (.error Error.ErrTooLong) ∧
        (CacheWF mc → GetInt64 lenbytes > maxAlloc → (p.Recv pick mc).res = none)) ∧
      (q.maxrw = 0 → 0 ≤ GetInt64 lenbytes →
        (connipc.Recv q pick mc).res ≠ some (.error Error.ErrTooLong) ∧
        (CacheWF mc → GetInt64 lenbytes > maxAlloc →
          (connipc.Recv q pick mc).res = none))) := by
  have e1 := conn_Recv_eq p pick mc lenbytes rest hp hl hprd
  have e2 := connipc_Recv_eq q pick mc one lenbytes rest hq hl hqrd
  rw [e1, e2]
  have i1 := recvBody_tooLong_iff p { p.c with rd := rest } (GetInt64 lenbytes) pick mc
  have i2 := recvBody_tooLong_iff q { q.c with rd := rest } (GetInt64 lenbytes) pick mc
  refine ⟨⟨i1, i2⟩, ⟨fun h => ?_, fun h => ?_⟩, ⟨fun hN hsz => ?_, fun hN hsz => ?_⟩,
    ⟨fun hN hsz => ⟨?_, ?_, ?_⟩, fun hN hsz => ⟨?_, ?_, ?_⟩⟩,
    ⟨fun hN hsz => ⟨?_, ?_⟩, fun hN hsz => ⟨?_, ?_⟩⟩⟩
  · rw [recvBody_tooLong _ _ _ _ _ (i1.mp h)]
  · rw [recvBody_tooLong _ _ _ _ _ (i2.mp h)]
  · exact i1.mpr (Or.inr ⟨hN, by omega⟩)
  · exact i2.mpr (Or.inr ⟨hN, by omega⟩)
  · rw [Ne, i1]; omega
  · intro hwf ha payload rest' hrest hplen
    obtain ⟨r, -, -, -, e⟩ := recvBody_ok p { p.c with rd := rest } (GetInt64 lenbytes) pick mc
      payload rest' hwf (by omega) (by omega) (by omega) hp hrest (by rw [hplen, hsz])
    rw [e]
    exact ⟨_, rfl, rfl⟩
  · intro hwf ha
    exact recvBody_panics p _ _ pick mc hwf (by omega) (by omega)
  · rw [Ne, i2]; omega
  · intro hwf ha payload rest' hrest hplen
    obtain ⟨r, -, -, -, e⟩ := recvBody_ok q { q.c with rd := rest } (GetInt64 lenbytes) pick mc
      payload rest' hwf (by omega) (by omega) (by omega) hq hrest (by rw [hplen, hsz])
    rw [e]
    exact ⟨_, rfl, rfl⟩
  · intro hwf ha
    exact recvBody_panics q _ _ pick mc hwf (by omega) (by omega)
  · rw [Ne, i1]; omega
  · intro hwf ha
    exact recvBody_panics p _ _ pick mc hwf ha (by omega)
  · rw [Ne, i2]; omega
  · intro hwf ha
    exact recvBody_panics q _ _ pick mc hwf ha (by omega)

theorem Recv_tooLong_iff_witness :
    ([0, 0, 0, 0, 0, 0x10, 0, 1] : List Byte).length = 8 ∧
    (recvPipe [0, 0, 0, 0, 0, 0x10, 0, 1, 5]).c.closed = false ∧
    (recvPipe [1, 0, 0, 0, 0, 0, 0x10, 0, 1, 5]).c.closed = false ∧
    GetInt64 [0, 0, 0, 0, 0, 0x10, 0, 1] = (recvPipe []).maxrw + 1 ∧
    ((recvPipe [0, 0, 0, 0, 0, 0x10, 0, 1, 5]).Recv none messageCache).res =
      some (.error Error.ErrTooLong) ∧
    (connipc.Recv (recvPipe [1, 0, 0, 0, 0, 0, 0x10, 0, 1, 5]) none messageCache).res =
      some (.error Error.ErrTooLong) :=
  have h := Recv_tooLong_iff (recvPipe [0, 0, 0, 0, 0, 0x10, 0, 1, 5])
    (recvPipe [1, 0, 0, 0, 0, 0, 0x10, 0, 1, 5]) none messageCache 1 [0, 0, 0, 0, 0, 0x10, 0, 1]
    [5] rfl rfl rfl rfl rfl
  ⟨rfl, rfl, rfl, by decide, h.2.2.1.1 (by decide) (by decide),
    h.2.2.1.2 (by decide) (by decide)⟩

/-! ## Reference counting -/

theorem wrapInt32_id (x : Int) (h1 : -(2 ^ 31) ≤ x) (h2 : x < 2 ^ 31) : wrapInt32 x = x := by
  unfold wrapInt32
  omega

theorem cachePut_maxbody (m : Message) :
    ∀ mc : List msgCacheInfo,
      (cachePut m mc).map (fun i => i.maxbody) = mc.map (fun i => i.maxbody)
  | [] => rfl
  | info :: rest => by
    unfold cachePut
    split_ifs
    · rfl
    · simp [cachePut_maxbody m rest]

theorem cachePut_not_mem (m : Message) :
    ∀ mc : List msgCacheInfo, m.bsize ∉ mc.map (fun i => i.maxbody) → cachePut m mc = mc
  | [], _ => rfl
  | info :: rest, h => by
    simp only [List.map_cons, List.mem_cons, not_or] at h
    unfold cachePut
    rw [if_neg h.1, cachePut_not_mem m rest h.2]

/-- The effect of the loop of `Free` on the pools: the bucket of capacity `m.bsize`, if there
is one, receives `m` once; every other pool is unchanged. -/
theorem cachePut_poolOf (m : Message) (cap : Int) :
    ∀ mc : List msgCacheInfo,
      poolOf (cachePut m mc) cap =
        if cap = m.bsize ∧ m.bsize ∈ mc.map (fun i => i.maxbody) then m :: poolOf mc cap
        else poolOf mc cap
  | [] => by simp [cachePut]
  | info :: rest => by
    have ih := cachePut_poolOf m cap rest
    unfold cachePut
    by_cases h1 : m.bsize = info.maxbody
    · rw [if_pos h1]
      by_cases h2 : cap = m.bsize
      · have h3 : info.maxbody = cap := by rw [h2, h1]
        simp [poolOf, List.find?, h3, h2]
      · have h3 : ¬ info.maxbody = cap := fun h => h2 (by rw [h1, h])
        simp [poolOf, List.find?, h3, h2]
    · rw [if_neg h1]
      by_cases h3 : info.maxbody = cap
      · have h2 : ¬ cap = m.bsize := fun h => h1 (by rw [← h, h3])
        simp [poolOf, List.find?, h3, h2]
      · have e1 : poolOf (info :: cachePut m rest) cap = poolOf (cachePut m rest) cap := by
          simp [poolOf, List.find?, h3]
        have e2 : poolOf (info :: rest) cap = poolOf rest cap := by
          simp [poolOf, List.find?, h3]
        rw [e1, e2, ih]
        have h4 : ¬ info.maxbody = m.bsize := fun h => h1 h.symm
        simp [h1]

theorem Free_of_pos (m : Message) (mc : List msgCacheInfo) (h1 : 1 < m.refcnt)
    (h2 : m.refcnt ≤ 2 ^ 31) :
    m.Free mc = ({ m with refcnt := m.refcnt - 1 }, mc) := by
  have hw : wrapInt32 (m.refcnt - 1) = m.refcnt - 1 := wrapInt32_id _ (by omega) (by omega)
  unfold Message.Free
  simp only [hw]
  rw [if_pos (by omega)]

theorem Free_of_last (m : Message) (mc : List msgCacheInfo) (h1 : m.refcnt = 1) :
    m.Free mc = ({ m with refcnt := 0 }, cachePut { m with refcnt := 0 } mc) := by
  have hw : wrapInt32 (m.refcnt - 1) = 0 := by rw [h1]; decide
  unfold Message.Free
  simp only [hw]
  rw [if_neg (by omega)]

/-- C9: for a message `m` with reference count 1 (as `NewMessage` returns it), whatever its
current header and body: `Dup` gives the same message with count 2; the first `Free` only
lowers the count to 1 and leaves every pool as it is; the second `Free` lowers it to 0 and
puts `m` exactly once into the bucket whose capacity equals `m.bsize`, the size it was
allocated with, every other pool being unchanged, and into no pool when that size is not on
the ladder. The cache after `Dup`, `Free`, `Free` is the cache after a single `Free`. -/
theorem Dup_then_two_Frees (m : Message) (mc : List msgCacheInfo) (hm : m.refcnt = 1)
    (hmc : mc.map (fun i => i.maxbody) = ladder) :
    m.Dup = { m with refcnt := 2 } ∧
    runOps m mc [RefOp.Dup, RefOp.Free] = ({ m with refcnt := 1 }, mc) ∧
    (runOps m mc [RefOp.Dup, RefOp.Free, RefOp.Free]).1 = { m with refcnt := 0 } ∧
    (runOps m mc [RefOp.Dup, RefOp.Free, RefOp.Free]).2.map (fun i => i.maxbody) = ladder ∧
    (∀ cap ∈ ladder, poolOf (runOps m mc [RefOp.Dup, RefOp.Free, RefOp.Free]).2 cap =
      if cap = m.bsize then { m with refcnt := 0 } :: poolOf mc cap else poolOf mc cap) ∧
    (m.bsize ∉ ladder → (runOps m mc [RefOp.Dup, RefOp.Free, RefOp.Free]).2 = mc) ∧
    (runOps m mc [RefOp.Dup, RefOp.Free, RefOp.Free]).2 = (runOps m mc [RefOp.Free]).2 := by
  have hd : m.Dup = { m with refcnt := 2 } := by
    unfold Message.Dup
    rw [hm]
    rfl
  have h1 : runOps m mc [RefOp.Dup, RefOp.Free] = ({ m with refcnt := 1 }, mc) := by
    simp only [runOps, List.foldl, applyOp]
    rw [hd, Free_of_pos _ _ (by simp) (by simp)]
    rfl
  have h2 : runOps m mc [RefOp.Dup, RefOp.Free, RefOp.Free] =
      ({ m with refcnt := 0 }, cachePut { m with refcnt := 0 } mc) := by
    have e : runOps m mc [RefOp.Dup, RefOp.Free, RefOp.Free] =
        applyOp (runOps m mc [RefOp.Dup, RefOp.Free]) RefOp.Free := rfl
    rw [e, h1]
    simp only [applyOp]
    rw [Free_of_last _ _ rfl]
  have h3 : runOps m mc [RefOp.Free] =
      ({ m with refcnt := 0 }, cachePut { m with refcnt := 0 } mc) := by
    simp only [runOps, List.foldl, applyOp]
    rw [Free_of_last _ _ hm]
  refine ⟨hd, h1, by rw [h2], ?_, ?_, ?_, by rw [h2, h3]⟩
  · rw [h2]; simp only []; rw [cachePut_maxbody, hmc]
  · intro cap hcap
    rw [h2]
    simp only []
    rw [cachePut_poolOf]
    simp only [hmc]
    by_cases hc : cap = m.bsize
    · rw [if_pos hc, if_pos ⟨hc, by rw [← hc]; exact hcap⟩]
    · rw [if_neg hc, if_neg (fun h => hc h.1)]
  · intro hn
    rw [h2]
    exact cachePut_not_mem _ mc (by rw [hmc]; exact hn)

theorem Dup_then_two_Frees_witness :
    (freshMessage 100).1.refcnt = 1 ∧
    messageCache.map (fun i => i.maxbody) = ladder ∧
    poolOf (runOps (freshMessage 100).1 messageCache
        [RefOp.Dup, RefOp.Free, RefOp.Free]).2 128 =
      [{ (freshMessage 100).1 with refcnt := 0 }] ∧
    (runOps (freshMessage 100).1 messageCache
        [RefOp.Dup, RefOp.Free, RefOp.Free]).2 =
      (runOps (freshMessage 100).1 messageCache [RefOp.Free]).2 :=
  have h := Dup_then_two_Frees (freshMessage 100).1 messageCache rfl rfl
  ⟨rfl, rfl, (h.2.2.2.2.1 128 (by decide)).trans (by decide), h.2.2.2.2.2.2⟩

/-- The reference count after a sequence of calls, as long as the `int32` does not wrap. -/
theorem runOps_refcnt : ∀ (ops : List RefOp) (m : Message) (mc : List msgCacheInfo),
    -(2 ^ 31 : Int) ≤ m.refcnt - ops.length → m.refcnt + ops.length < 2 ^ 31 →
    (runOps m mc ops).1.refcnt = m.refcnt + ops.count RefOp.Dup - ops.count RefOp.Free
  | [], m, mc, _, _ => by simp [runOps]
  | RefOp.Dup :: ops, m, mc, h1, h2 => by
    simp only [List.length_cons, Nat.cast_add, Nat.cast_one] at h1 h2
    have hw : wrapInt32 (m.refcnt + 1) = m.refcnt + 1 := wrapInt32_id _ (by omega) (by omega)
    have e : runOps m mc (RefOp.Dup :: ops) = runOps m.Dup mc ops := rfl
    have hr : m.Dup.refcnt = m.refcnt + 1 := hw
    rw [e, runOps_refcnt ops m.Dup mc (by rw [hr]; omega) (by rw [hr]; omega), hr]
    simp [List.count_cons]
    omega
  | RefOp.Free :: ops, m, mc, h1, h2 => by
    simp only [List.length_cons, Nat.cast_add, Nat.cast_one] at h1 h2
    have hw : wrapInt32 (m.refcnt - 1) = m.refcnt - 1 := wrapInt32_id _ (by omega) (by omega)
    have e : runOps m mc (RefOp.Free :: ops) = runOps (m.Free mc).1 (m.Free mc).2 ops := rfl
    have hr : (m.Free mc).1.refcnt = m.refcnt - 1 := by
      unfold Message.Free
      simp only []
      split_ifs <;> exact hw
    rw [e, runOps_refcnt ops _ _ (by rw [hr]; omega) (by rw [hr]; omega), hr]
    simp [List.count_cons]
    omega

/-- C10 (counterexample): two `Free` calls on a message fresh from `NewMessage` leave the
reference count at -1. -/
theorem refcount_negative_after_double_Free :
    (runOps (freshMessage 10).1 (freshMessage 10).2
      [RefOp.Free, RefOp.Free]).1.refcnt = -1 ∧
    ¬ (0 ≤ (runOps (freshMessage 10).1 (freshMessage 10).2
      [RefOp.Free, RefOp.Free]).1.refcnt) := by
  constructor <;> decide

/-- C10 (amended): for a message obtained from `NewMessage` and a sequence of `Dup` and
`Free` calls on it in which no prefix contains more `Free` calls than `Dup` calls plus one
(every `Free` releases a reference that is held) and which is shorter than `2^31 - 1` calls,
the reference count after each call is `1 + #Dup - #Free` and so is not negative. -/
theorem refcount_nonneg (mc0 : List msgCacheInfo) (pick : Option Nat) (sz : Int)
    (r : Message × List msgCacheInfo) (hnew : NewMessage mc0 pick sz = some r)
    (mc : List msgCacheInfo) (ops : List RefOp)
    (hbal : ∀ k ≤ ops.length,
      (ops.take k).count RefOp.Free ≤ (ops.take k).count RefOp.Dup + 1)
    (hlen : ops.length < 2 ^ 31 - 1) :
    ∀ k ≤ ops.length,
      (runOps r.1 mc (ops.take k)).1.refcnt =
        1 + ((ops.take k).count RefOp.Dup : Int) - ((ops.take k).count RefOp.Free : Int) ∧
      0 ≤ (runOps r.1 mc (ops.take k)).1.refcnt := by
  intro k hk
  have hr : r.1.refcnt = 1 := by
    unfold NewMessage at hnew
    simp only [Option.map_eq_some'] at hnew
    obtain ⟨a, -, ha⟩ := hnew
    rw [← ha]
  have hl : (ops.take k).length ≤ ops.length := by simp [List.length_take]
  have h := runOps_refcnt (ops.take k) r.1 mc (by rw [hr]; omega)
    (by rw [hr]; omega)
  rw [hr] at h
  have hb := hbal k hk
  refine ⟨h, ?_⟩
  rw [h]
  omega

theorem refcount_nonneg_witness :
    0 ≤ (runOps (freshMessage 10).1 messageCache
      ([RefOp.Dup, RefOp.Free, RefOp.Dup, RefOp.Free, RefOp.Free].take 5)).1.refcnt :=
  (refcount_nonneg messageCache none 10 (freshMessage 10) rfl messageCache
    [RefOp.Dup, RefOp.Free, RefOp.Dup, RefOp.Free, RefOp.Free] (by decide) (by decide) 5
    (by decide)).2

/-! ## The cache invariant is inductive -/

theorem messageCache_wf : CacheWF messageCache := by decide

theorem cachePut_PoolsWF (m : Message) (hm : MsgWF m) :
    ∀ mc : List msgCacheInfo, PoolsWF mc → PoolsWF (cachePut m mc)
  | [], _ => by intro x hx; simp [cachePut] at hx
  | info :: rest, h => by
    have hrest : PoolsWF rest := fun x hx => h x (List.mem_cons_of_mem _ hx)
    unfold cachePut
    by_cases hb : m.bsize = info.maxbody
    · rw [if_pos hb]
      intro x hx y hy
      rcases List.mem_cons.mp hx with hx | hx
      · subst hx
        rcases List.mem_cons.mp hy with hy | hy
        · subst hy; exact ⟨hm, hb⟩
        · exact h info (List.mem_cons_self _ _) y hy
      · exact h x (List.mem_cons_of_mem _ hx) y hy
    · rw [if_neg hb]
      intro x hx y hy
      rcases List.mem_cons.mp hx with hx | hx
      · subst hx; exact h _ (List.mem_cons_self _ _) y hy
      · exact cachePut_PoolsWF m hm rest hrest x hx y hy

theorem Free_wf (m : Message) (mc : List msgCacheInfo) (hm : MsgWF m) (hwf : CacheWF mc) :
    MsgWF (m.Free mc).1 ∧ CacheWF (m.Free mc).2 := by
  unfold Message.Free
  simp only []
  split_ifs
  · exact ⟨hm, hwf⟩
  · refine ⟨hm, ?_, ?_⟩
    · simp only []
      rw [cachePut_maxbody]
      exact hwf.1
    · exact cachePut_PoolsWF { m with refcnt := wrapInt32 (m.refcnt - 1) } hm mc hwf.2

theorem Dup_wf (m : Message) (hm : MsgWF m) : MsgWF m.Dup := hm

/-! ## Socket options -/

theorem GetOption_of_badOption {σ : Type} (P : ProtocolMethods σ) (sock : socket σ)
    (name : String) (h : P.GetOption sock name = .error Error.ErrBadOption) :
    socket.GetOption P sock name =
      if name = OptionRecvDeadline then .ok (Iface.dur sock.rdeadline)
      else if name = OptionSendDeadline then .ok (Iface.dur sock.wdeadline)
      else if name = OptionLinger then .ok (Iface.dur sock.linger)
      else if name = OptionWriteQLen then .ok (Iface.int sock.wqLen)
      else if name = OptionReadQLen then .ok (Iface.int sock.rqLen)
      else if name = OptionMaxRecvSize then .ok (Iface.int sock.maxRwSize)
      else if name = OptionReconnectTime then .ok (Iface.dur sock.reconntime)
      else if name = OptionMaxReconnectTime then .ok (Iface.dur sock.reconnmax)
      else .error Error.ErrBadOption := by
  unfold socket.GetOption
  rw [h]
  simp

theorem SetOption_of_badOption {σ : Type} (P : ProtocolMethods σ) (sock : socket σ)
    (name : String) (v : Iface) (h : P.SetOption sock name v = (sock, some Error.ErrBadOption)) :
    socket.SetOption P sock name v = socket.setSocketOption sock false name v := by
  unfold socket.SetOption
  rw [h]
  simp

/-- C11: on a socket fresh from `newSocket`, whose protocol leaves the option fields alone in
`Init` and answers `ErrBadOption` for the socket-level names, `GetOption` returns
RECV-DEADLINE = 0, SEND-DEADLINE = 0, LINGER = 1 s, WRITEQ-LEN = 128, READQ-LEN = 128,
MAX-RCV-SIZE = 1048576, RECONNECT-TIME = 100 ms and MAX-RECONNECT-TIME = 0, and the
best-effort flag is false. -/
theorem newSocket_defaults {σ : Type} (P : ProtocolMethods σ) (proto : σ)
    (hInit : ∀ s : socket σ, (P.Init s).rdeadline = s.rdeadline ∧
      (P.Init s).wdeadline = s.wdeadline ∧ (P.Init s).linger = s.linger ∧
      (P.Init s).wqLen = s.wqLen ∧ (P.Init s).rqLen = s.rqLen ∧
      (P.Init s).maxRwSize = s.maxRwSize ∧ (P.Init s).reconntime = s.reconntime ∧
      (P.Init s).reconnmax = s.reconnmax ∧ (P.Init s).bestEffort = s.bestEffort)
    (hGet : ∀ (s : socket σ) (name : String),
      name ∈ [OptionRecvDeadline, OptionSendDeadline, OptionLinger, OptionWriteQLen,
        OptionReadQLen, OptionMaxRecvSize, OptionReconnectTime, OptionMaxReconnectTime] →
      P.GetOption s name = .error Error.ErrBadOption) :
    socket.GetOption P (newSocket P proto) OptionRecvDeadline = .ok (Iface.dur 0) ∧
    socket.GetOption P (newSocket P proto) OptionSendDeadline = .ok (Iface.dur 0) ∧
    socket.GetOption P (newSocket P proto) OptionLinger = .ok (Iface.dur 1000000000) ∧
    socket.GetOption P (newSocket P proto) OptionWriteQLen = .ok (Iface.int 128) ∧
    socket.GetOption P (newSocket P proto) OptionReadQLen = .ok (Iface.int 128) ∧
    socket.GetOption P (newSocket P proto) OptionMaxRecvSize = .ok (Iface.int 1048576) ∧
    socket.GetOption P (newSocket P proto) OptionReconnectTime = .ok (Iface.dur 100000000) ∧
    socket.GetOption P (newSocket P proto) OptionMaxReconnectTime = .ok (Iface.dur 0) ∧
    (newSocket P proto).bestEffort = false := by
  obtain ⟨h1, h2, h3, h4, h5, h6, h7, h8, h9⟩ := hInit
    { proto := proto, wq := Chan.make defaultQLen.toNat, wqLen := defaultQLen,
      rq := Chan.make defaultQLen.toNat, rqLen := defaultQLen, closing := false,
      active := false, bestEffort := false, recverr := none, senderr := none,
      rdeadline := 0, wdeadline := 0, reconntime := Millisecond * 100, reconnmax := 0,
      linger := Second, maxRwSize := defaultMaxRwSize, pipes := [], listeners := [],
      porthook := none }
  have g := fun name hn => GetOption_of_badOption P (newSocket P proto) name
    (hGet (newSocket P proto) name hn)
  refine ⟨?_, ?_, ?_, ?_, ?_, ?_, ?_, ?_, h9⟩
  · rw [g _ (by simp)]; simp only [newSocket, h1]; rfl
  · rw [g _ (by simp)]; simp only [newSocket, h2]; rfl
  · rw [g _ (by simp)]; simp only [newSocket, h3]; rfl
  · rw [g _ (by simp)]; simp only [newSocket, h4]; rfl
  · rw [g _ (by simp)]; simp only [newSocket, h5]; rfl
  · rw [g _ (by simp)]; simp only [newSocket, h6]; rfl
  · rw [g _ (by simp)]; simp only [newSocket, h7]; rfl
  · rw [g _ (by simp)]; simp only [newSocket, h8]; rfl

theorem rep_GetOption_socket_names (s : socket rep) (name : String)
    (hn : name ∈ [OptionRecvDeadline, OptionSendDeadline, OptionLinger, OptionWriteQLen,
      OptionReadQLen, OptionMaxRecvSize, OptionReconnectTime, OptionMaxReconnectTime,
      OptionBestEffort]) :
    repMethods.GetOption s name = .error Error.ErrBadOption := by
  simp only [List.mem_cons, List.mem_singleton, List.not_mem_nil, or_false] at hn
  rcases hn with h | h | h | h | h | h | h | h | h <;> subst h <;> rfl

theorem newSocket_defaults_witness :
    socket.GetOption repMethods (newSocket repMethods rep.zero) OptionLinger =
      .ok (Iface.dur 1000000000) ∧
    socket.GetOption repMethods (newSocket repMethods rep.zero) OptionMaxRecvSize =
      .ok (Iface.int 1048576) ∧
    (newSocket repMethods rep.zero).bestEffort = false :=
  have h := newSocket_defaults repMethods rep.zero
    (fun _ => ⟨rfl, rfl, rfl, rfl, rfl, rfl, rfl, rfl, rfl⟩)
    (fun s name hn => rep_GetOption_socket_names s name (by
      simp only [List.mem_cons, List.mem_singleton, List.not_mem_nil, or_false] at hn ⊢
      tauto))
  ⟨h.2.2.1, h.2.2.2.2.2.1, h.2.2.2.2.2.2.2.2⟩

/-- What `GetOption` returns after a successful `SetOption`, for the eight socket-level
names that `GetOption` knows, on a socket whose protocol leaves both calls to the socket. -/
theorem GetOption_after_SetOption {σ : Type} (P : ProtocolMethods σ) (sock s1 : socket σ)
    (name : String) (v : Iface)
    (hn : name ∈ [OptionRecvDeadline, OptionSendDeadline, OptionLinger, OptionWriteQLen,
      OptionReadQLen, OptionMaxRecvSize, OptionReconnectTime, OptionMaxReconnectTime])
    (hSet : P.SetOption sock name v = (sock, some Error.ErrBadOption))
    (hGet : ∀ s : socket σ, P.GetOption s name = .error Error.ErrBadOption)
    (hok : socket.SetOption P sock name v = some (s1, none)) :
    socket.GetOption P s1 name = .ok v := by
  rw [SetOption_of_badOption P sock name v hSet] at hok
  rw [GetOption_of_badOption P s1 name (hGet s1)]
  simp only [List.mem_cons, List.mem_singleton, List.not_mem_nil, or_false] at hn
  rcases hn with h | h | h | h | h | h | h | h <;> subst h <;>
    cases v <;> simp [socket.setSocketOption, OptionRecvDeadline, OptionSendDeadline,
      OptionLinger, OptionWriteQLen, OptionReadQLen, OptionMaxRecvSize, OptionReconnectTime,
      OptionMaxReconnectTime] at hok ⊢ <;>
    (try split_ifs at hok) <;> (try simp at hok) <;>
    (try (subst hok; rfl)) <;>
    (try (split at hok <;> first | (simp at hok; subst hok; rfl) | simp at hok))

/-- C12 (the code at the failing input): on a fresh PAIR socket `SetOption(BEST-EFFORT, true)`
returns nil and sets the flag, and the following `GetOption(BEST-EFFORT)` returns
`ErrBadOption` instead of `true`; for LINGER the value set is the value returned. -/
theorem GetOption_BestEffort_not_symmetric :
    ∃ s1 : socket pair,
      socket.SetOption pairMethods (newSocket pairMethods ⟨none, false⟩) OptionBestEffort
        (Iface.bool true) = some (s1, none) ∧
      s1.bestEffort = true ∧
      socket.GetOption pairMethods s1 OptionBestEffort = .error Error.ErrBadOption ∧
      socket.GetOption pairMethods s1 OptionBestEffort ≠ .ok (Iface.bool true) ∧
      ∃ s2 : socket pair,
        socket.SetOption pairMethods s1 OptionLinger (Iface.dur 5) = some (s2, none) ∧
        socket.GetOption pairMethods s2 OptionLinger = .ok (Iface.dur 5) :=
  ⟨_, rfl, rfl, rfl, by simp [socket.GetOption, pairMethods, OptionBestEffort, OptionRaw,
      OptionRecvDeadline, OptionSendDeadline, OptionLinger, OptionWriteQLen, OptionReadQLen,
      OptionMaxRecvSize, OptionReconnectTime, OptionMaxReconnectTime],
    _, rfl, rfl⟩

theorem makeChan_ok (n : Int) (h0 : 0 ≤ n) (h1 : 8 * n ≤ maxAlloc - hchanSize) :
    makeChan n = some (Chan.make n.toNat) := by
  unfold makeChan
  rw [if_neg (by omega)]

theorem makeChan_none (n : Int) (h : n < 0 ∨ 8 * n > maxAlloc - hchanSize) :
    makeChan n = none := by
  unfold makeChan
  rw [if_pos h]

/-- C13 (counterexample): on a fresh (inactive) REP socket `SetOption(WRITEQ-LEN, 1 << 62)`
and `SetOption(READQ-LEN, 1 << 62)` panic in `make(chan *Message, n)` instead of
succeeding. -/
theorem queue_length_panics_for_huge_length :
    (0 : Int) ≤ 2 ^ 62 ∧ (newSocket repMethods rep.zero).active = false ∧
    (socket.SetOption repMethods (newSocket repMethods rep.zero) OptionWriteQLen
      (Iface.int (2 ^ 62))).isNone = true ∧
    (socket.SetOption repMethods (newSocket repMethods rep.zero) OptionReadQLen
      (Iface.int (2 ^ 62))).isNone = true :=
  ⟨by decide, rfl, rfl, rfl⟩

/-- C13 (amended): on a socket whose protocol leaves the queue-length options to the socket.
Once the socket is active, `SetOption(WRITEQ-LEN, n)` and `SetOption(READQ-LEN, n)` return
`ErrBadOption` for every int `n` and leave the socket as it is; on an inactive socket they
return nil for every `n ≥ 0` that `make(chan *Message, n)` accepts (`8 n` at most
`maxAlloc - hchanSize`), storing `n` and installing an empty queue of that capacity, they
panic for larger `n`, and they return `ErrBadValue` for `n < 0`, changing nothing.
`dialer.Dial` and `listener.Listen`, when they return nil, leave the socket active. -/
theorem queue_length_options {σ : Type} (P : ProtocolMethods σ) (sock : socket σ) (n : Int)
    (hw : P.SetOption sock OptionWriteQLen (Iface.int n) = (sock, some Error.ErrBadOption))
    (hr : P.SetOption sock OptionReadQLen (Iface.int n) = (sock, some Error.ErrBadOption)) :
    (sock.active = true →
      socket.SetOption P sock OptionWriteQLen (Iface.int n) =
        some (sock, some Error.ErrBadOption) ∧
      socket.SetOption P sock OptionReadQLen (Iface.int n) =
        some (sock, some Error.ErrBadOption)) ∧
    (sock.active = false → 0 ≤ n → 8 * n ≤ maxAlloc - hchanSize →
      socket.SetOption P sock OptionWriteQLen (Iface.int n) =
        some ({ sock with wqLen := n, wq := Chan.make n.toNat }, none) ∧
      socket.SetOption P sock OptionReadQLen (Iface.int n) =
        some ({ sock with rqLen := n, rq := Chan.make n.toNat }, none)) ∧
    (sock.active = false → 8 * n > maxAlloc - hchanSize →
      socket.SetOption P sock OptionWriteQLen (Iface.int n) = none ∧
      socket.SetOption P sock OptionReadQLen (Iface.int n) = none) ∧
    (sock.active = false → n < 0 →
      socket.SetOption P sock OptionWriteQLen (Iface.int n) =
        some (sock, some Error.ErrBadValue) ∧
      socket.SetOption P sock OptionReadQLen (Iface.int n) =
        some (sock, some Error.ErrBadValue)) ∧
    (∀ d : dialer, (d.Dial sock).2.2 = none → (d.Dial sock).2.1.active = true) ∧
    (∀ addr bind, (listener.Listen addr bind sock).2 = none →
      (listener.Listen addr bind sock).1.active = true) := by
  rw [SetOption_of_badOption P sock _ _ hw, SetOption_of_badOption P sock _ _ hr]
  refine ⟨fun ha => ?_, fun ha hn hc => ?_, fun ha hc => ?_, fun ha hn => ?_, fun d hd => ?_,
    fun addr bind hb => ?_⟩
  · simp [socket.setSocketOption, ha, OptionRecvDeadline, OptionSendDeadline, OptionLinger,
      OptionWriteQLen, OptionReadQLen]
  · have hn' : ¬ n < 0 := by omega
    simp [socket.setSocketOption, ha, hn', makeChan_ok n hn hc, OptionRecvDeadline,
      OptionSendDeadline, OptionLinger, OptionWriteQLen, OptionReadQLen]
  · have hn' : ¬ n < 0 := by
      have : hchanSize = 96 := rfl
      have : maxAlloc = 281474976710656 := rfl
      omega
    simp [socket.setSocketOption, ha, hn', makeChan_none n (Or.inr hc), OptionRecvDeadline,
      OptionSendDeadline, OptionLinger, OptionWriteQLen, OptionReadQLen]
  · simp [socket.setSocketOption, ha, hn, OptionRecvDeadline, OptionSendDeadline, OptionLinger,
      OptionWriteQLen, OptionReadQLen]
  · unfold dialer.Dial at hd ⊢
    by_cases hda : d.active = true
    · simp [hda] at hd
    · simp [hda]
  · unfold listener.Listen at hb ⊢
    cases bind with
    | none => rfl
    | some e => simp at hb

theorem queue_length_options_witness :
    (∃ s1 : socket rep, ∃ s2 : socket rep,
      (dialer.Dial ⟨false, false⟩ (newSocket repMethods rep.zero)) = (⟨false, true⟩, s1, none) ∧
      socket.SetOption repMethods s1 OptionWriteQLen (Iface.int 16) =
        some (s1, some Error.ErrBadOption) ∧
      socket.SetOption repMethods (newSocket repMethods rep.zero) OptionWriteQLen (Iface.int 16)
        = some (s2, none) ∧ s2.wqLen = 16 ∧ s2.wq = Chan.make 16) :=
  ⟨_, _, rfl,
    ((queue_length_options repMethods
      (dialer.Dial ⟨false, false⟩ (newSocket repMethods rep.zero)).2.1 16 rfl rfl).1 rfl).1,
    ((queue_length_options repMethods (newSocket repMethods rep.zero) 16 rfl rfl).2.1 rfl
      (by decide) (by decide)).1, rfl, rfl⟩

/-! ## `socket.SendMsg` -/

theorem SendMsg_latched {σ : Type} (P : ProtocolMethods σ) (sock : socket σ) (msg : Message)
    (now : Nat) (preferClose : Bool) (mc : List msgCacheInfo) (e : Error)
    (he : sock.senderr = some e) :
    socket.SendMsg P sock msg now preferClose mc = ⟨sock, msg, mc, .returned (some e)⟩ := by
  unfold socket.SendMsg
  rw [he]

theorem SendMsg_hook_rejects {σ : Type} (P : ProtocolMethods σ) (sock : socket σ)
    (msg : Message) (now : Nat) (preferClose : Bool) (mc : List msgCacheInfo)
    (he : sock.senderr = none) (hok : (socket.applySendHook P sock msg).ok = false) :
    socket.SendMsg P sock msg now preferClose mc =
      ⟨(socket.applySendHook P sock msg).sock,
        ((socket.applySendHook P sock msg).msg.Free mc).1,
        ((socket.applySendHook P sock msg).msg.Free mc).2, .returned none⟩ := by
  unfold socket.SendMsg
  rw [he]
  simp [hok]

/-- The queueing step of `SendMsg` once the hook has accepted the message. -/
theorem SendMsg_hook_accepts {σ : Type} (P : ProtocolMethods σ) (sock : socket σ)
    (msg : Message) (now : Nat) (preferClose : Bool) (mc : List msgCacheInfo)
    (he : sock.senderr = none) (hok : (socket.applySendHook P sock msg).ok = true)
    (hcl : (socket.applySendHook P sock msg).sock.closing = false) :
    socket.SendMsg P sock msg now preferClose mc =
      if (socket.applySendHook P sock msg).sock.wq.hasRoom then
        ⟨{ (socket.applySendHook P sock msg).sock with
            wq := (socket.applySendHook P sock msg).sock.wq.send
              { (socket.applySendHook P sock msg).msg with
                expire := (socket.applySendHook P sock msg).sock.expireAt now } },
          { (socket.applySendHook P sock msg).msg with
            expire := (socket.applySendHook P sock msg).sock.expireAt now }, mc, .returned none⟩
      else if (socket.applySendHook P sock msg).sock.bestEffort then
        ⟨(socket.applySendHook P sock msg).sock,
          (Message.Free { (socket.applySendHook P sock msg).msg with
            expire := (socket.applySendHook P sock msg).sock.expireAt now } mc).1,
          (Message.Free { (socket.applySendHook P sock msg).msg with
            expire := (socket.applySendHook P sock msg).sock.expireAt now } mc).2,
          .returned none⟩
      else
        ⟨(socket.applySendHook P sock msg).sock,
          { (socket.applySendHook P sock msg).msg with
            expire := (socket.applySendHook P sock msg).sock.expireAt now }, mc, .blocked⟩ := by
  unfold socket.SendMsg
  rw [he]
  simp only [hok, hcl]
  by_cases hroom : (socket.applySendHook P sock msg).sock.wq.hasRoom = true
  · by_cases hbe : (socket.applySendHook P sock msg).sock.bestEffort = true <;>
      simp [hroom, hbe]
  · by_cases hbe : (socket.applySendHook P sock msg).sock.bestEffort = true <;>
      simp [hroom, hbe]

/-- C14 (counterexample): a fresh PULL socket has the send error `ErrProtoOp` latched and a
send-hook that returns false; `SendMsg` returns `ErrProtoOp`, not nil, and does not free the
message. -/
theorem SendMsg_latched_error_before_hook :
    (pull.SendHook (newSocket pullMethods ⟨false⟩) (mkMessage [] [1] 0)).ok = false ∧
    (socket.SendMsg pullMethods (newSocket pullMethods ⟨false⟩) (mkMessage [] [1] 0) 0 false
      messageCache).out = .returned (some Error.ErrProtoOp) ∧
    (socket.SendMsg pullMethods (newSocket pullMethods ⟨false⟩) (mkMessage [] [1] 0) 0 false
      messageCache).out ≠ .returned none ∧
    (socket.SendMsg pullMethods (newSocket pullMethods ⟨false⟩) (mkMessage [] [1] 0) 0 false
      messageCache).msg.refcnt = 1 := by
  refine ⟨rfl, rfl, ?_, rfl⟩
  decide

/-- C14 (amended): `SendMsg` consults the latched send error before the send-hook. When a
send error is latched it is returned for every message, and the hook is not called, the
message is not freed and nothing is placed on the send queue. When no error is latched and
the send-hook returns false for `m`, `SendMsg` frees `m` and returns nil, the socket being as
the hook left it. -/
theorem SendMsg_error_then_hook {σ : Type} (P : ProtocolMethods σ) (sock : socket σ)
    (msg : Message) (now : Nat) (preferClose : Bool) (mc : List msgCacheInfo) :
    (∀ e, sock.senderr = some e →
      (socket.SendMsg P sock msg now preferClose mc).out = .returned (some e) ∧
      (socket.SendMsg P sock msg now preferClose mc).sock.wq = sock.wq ∧
      (socket.SendMsg P sock msg now preferClose mc).sock.proto = sock.proto ∧
      (socket.SendMsg P sock msg now preferClose mc).sock.senderr = sock.senderr ∧
      (socket.SendMsg P sock msg now preferClose mc).msg = msg ∧
      (socket.SendMsg P sock msg now preferClose mc).mc = mc) ∧
    (sock.senderr = none → (socket.applySendHook P sock msg).ok = false →
      (socket.SendMsg P sock msg now preferClose mc).out = .returned none ∧
      (socket.SendMsg P sock msg now preferClose mc).sock.wq =
        (socket.applySendHook P sock msg).sock.wq ∧
      (socket.SendMsg P sock msg now preferClose mc).msg =
        ((socket.applySendHook P sock msg).msg.Free mc).1 ∧
      (socket.SendMsg P sock msg now preferClose mc).mc =
        ((socket.applySendHook P sock msg).msg.Free mc).2) := by
  refine ⟨fun e he => ?_, fun he hok => ?_⟩
  · rw [SendMsg_latched P sock msg now preferClose mc e he]
    exact ⟨rfl, rfl, rfl, rfl, rfl, rfl⟩
  · rw [SendMsg_hook_rejects P sock msg now preferClose mc he hok]
    exact ⟨rfl, rfl, rfl, rfl⟩

/-- C15: on an open socket with BEST-EFFORT set, no latched send error and a send-hook (if
any) that accepts the message: if the send queue is full `SendMsg` returns nil without
blocking, the queue is as it was and the message is freed; if the queue has room the message
is appended to it and nil is returned. The socket and the message are taken as the hook
leaves them. -/
theorem SendMsg_best_effort {σ : Type} (P : ProtocolMethods σ) (sock : socket σ)
    (msg : Message) (now : Nat) (preferClose : Bool) (mc : List msgCacheInfo)
    (he : sock.senderr = none) (hok : (socket.applySendHook P sock msg).ok = true)
    (hcl : (socket.applySendHook P sock msg).sock.closing = false)
    (hbe : (socket.applySendHook P sock msg).sock.bestEffort = true) :
    ((socket.applySendHook P sock msg).sock.wq.hasRoom = false →
      (socket.SendMsg P sock msg now preferClose mc).out = .returned none ∧
      (socket.SendMsg P sock msg now preferClose mc).sock.wq =
        (socket.applySendHook P sock msg).sock.wq ∧
      (socket.SendMsg P sock msg now preferClose mc).msg =
        (Message.Free { (socket.applySendHook P sock msg).msg with
          expire := (socket.applySendHook P sock msg).sock.expireAt now } mc).1 ∧
      (socket.SendMsg P sock msg now preferClose mc).mc =
        (Message.Free { (socket.applySendHook P sock msg).msg with
          expire := (socket.applySendHook P sock msg).sock.expireAt now } mc).2) ∧
    ((socket.applySendHook P sock msg).sock.wq.hasRoom = true →
      (socket.SendMsg P sock msg now preferClose mc).out = .returned none ∧
      (socket.SendMsg P sock msg now preferClose mc).sock.wq.buf =
        (socket.applySendHook P sock msg).sock.wq.buf ++
          [{ (socket.applySendHook P sock msg).msg with
            expire := (socket.applySendHook P sock msg).sock.expireAt now }] ∧
      (socket.SendMsg P sock msg now preferClose mc).mc = mc) := by
  have h := SendMsg_hook_accepts P sock msg now preferClose mc he hok hcl
  refine ⟨fun hroom => ?_, fun hroom => ?_⟩
  · rw [h, hroom, hbe]
    simp [Chan.send]
  · rw [h, hroom]
    simp [Chan.send]

theorem SendMsg_error_then_hook_witness :
    (socket.SendMsg pullMethods (newSocket pullMethods ⟨false⟩) (mkMessage [] [1] 0) 0 false
      messageCache).out = .returned (some Error.ErrProtoOp) ∧
    (socket.SendMsg pullMethods pullSocketNoError (mkMessage [] [1] 0) 0 false
      messageCache).out = .returned none ∧
    (socket.SendMsg pullMethods pullSocketNoError (mkMessage [] [1] 0) 0 false
      messageCache).msg.refcnt = 0 :=
  have h1 := (SendMsg_error_then_hook pullMethods (newSocket pullMethods ⟨false⟩)
    (mkMessage [] [1] 0) 0 false messageCache).1 Error.ErrProtoOp rfl
  have h2 := (SendMsg_error_then_hook pullMethods pullSocketNoError
    (mkMessage [] [1] 0) 0 false messageCache).2 rfl rfl
  ⟨h1.1, h2.1, by rw [h2.2.2.1]; decide⟩

theorem SendMsg_best_effort_witness :
    fullBestEffortSocket.senderr = none ∧
    (socket.applySendHook pairMethods fullBestEffortSocket (mkMessage [] [1] 0)).ok = true ∧
    fullBestEffortSocket.wq.hasRoom = false ∧
    (socket.SendMsg pairMethods fullBestEffortSocket (mkMessage [] [1] 0) 0 false
      messageCache).out = .returned none ∧
    (socket.SendMsg pairMethods fullBestEffortSocket (mkMessage [] [1] 0) 0 false
      messageCache).sock.wq = fullBestEffortSocket.wq :=
  have h := (SendMsg_best_effort pairMethods fullBestEffortSocket (mkMessage [] [1] 0) 0 false
    messageCache rfl rfl rfl rfl).1 (by decide)
  ⟨rfl, rfl, by decide, h.1, h.2.1⟩

/-! ## Reconnect backoff -/

theorem wrapInt64_id (x : Int) (h1 : -(2 ^ 63) ≤ x) (h2 : x < 2 ^ 63) : wrapInt64 x = x := by
  unfold wrapInt64
  omega

/-- One round without overflow: the wait is the current interval (the initial one after a
success), and with a positive cap the next interval is the doubled one, capped. -/
theorem dialerRound_failed (r M rtime : Int) (h0 : 0 < rtime) (h1 : rtime ≤ M)
    (h2 : M < 2 ^ 62) :
    dialerRound r M rtime false = (rtime, min (rtime * 2) M) := by
  have hw : wrapInt64 (rtime * 2) = rtime * 2 := wrapInt64_id _ (by omega) (by omega)
  unfold dialerRound
  simp only [Bool.false_eq_true, if_false, hw]
  rw [if_pos (by omega)]
  by_cases h : rtime * 2 > M
  · rw [if_pos h, min_eq_right (by omega)]
  · rw [if_neg h, min_eq_left (by omega)]

/-- The wait that follows the `k`-th consecutive failure, starting from the interval
`rtime`. -/
theorem dialerWaitsFrom_failures (r M : Int) (hM : M < 2 ^ 62) :
    ∀ (k n : Nat) (rtime : Int), 0 < rtime → rtime ≤ M → k < n →
      (dialerWaitsFrom r M rtime (List.replicate n false))[k]? = some (min (rtime * 2 ^ k) M)
  | 0, n + 1, rtime, h0, h1, _ => by
    simp only [List.replicate, dialerWaitsFrom, dialerRound_failed r M rtime h0 h1 hM]
    simp [min_eq_left h1]
  | k + 1, n + 1, rtime, h0, h1, hk => by
    have ih := dialerWaitsFrom_failures r M hM k n (min (rtime * 2) M) (by omega)
      (min_le_right _ _) (by omega)
    simp only [List.replicate, dialerWaitsFrom, dialerRound_failed r M rtime h0 h1 hM,
      List.getElem?_cons_succ]
    rw [ih]
    congr 1
    have hp : (1 : Int) ≤ 2 ^ k := by exact_mod_cast Nat.one_le_two_pow
    by_cases h : rtime * 2 ≤ M
    · rw [min_eq_left h, pow_succ]
      congr 1
      ring
    · have hM0 : 0 < M := by omega
      have e0 : min (rtime * 2) M = M := min_eq_right (by omega)
      have e1 : M ≤ M * 2 ^ k := by nlinarith
      have e2 : M ≤ rtime * 2 ^ (k + 1) := by
        rw [pow_succ]
        nlinarith
      rw [e0, min_eq_right e1, min_eq_right e2]

theorem dialerWaitsFrom_no_backoff (r : Int) :
    ∀ (attempts : List Bool) (rtime : Int) (w : Int),
      w ∈ dialerWaitsFrom r 0 rtime attempts → w = r ∨ w = rtime
  | [], _, w, h => by simp [dialerWaitsFrom] at h
  | ok :: rest, rtime, w, h => by
    simp only [dialerWaitsFrom, dialerRound, lt_self_iff_false, gt_iff_lt, if_false,
      List.mem_cons] at h
    rcases h with h | h
    · cases ok <;> simp at h <;> simp [h]
    · have := dialerWaitsFrom_no_backoff r rest _ w h
      cases ok <;> simp at this <;> tauto

theorem dialerWaitsFrom_le (r M : Int) (hr0 : 0 < r) (hr : r ≤ M) (hM : M < 2 ^ 62) :
    ∀ (attempts : List Bool) (rtime : Int), 0 < rtime → rtime ≤ M →
      ∀ w ∈ dialerWaitsFrom r M rtime attempts, w ≤ M
  | [], _, _, _, w, h => by simp [dialerWaitsFrom] at h
  | false :: rest, rtime, h0, h1, w, h => by
    simp only [dialerWaitsFrom, dialerRound_failed r M rtime h0 h1 hM, List.mem_cons] at h
    rcases h with h | h
    · omega
    · exact dialerWaitsFrom_le r M hr0 hr hM rest _ (by omega) (min_le_right _ _) w h
  | true :: rest, rtime, h0, h1, w, h => by
    have e : dialerRound r M rtime true = dialerRound r M r false := by
      simp [dialerRound]
    simp only [dialerWaitsFrom, e, dialerRound_failed r M r hr0 hr hM, List.mem_cons] at h
    rcases h with h | h
    · omega
    · exact dialerWaitsFrom_le r M hr0 hr hM rest _ (by omega) (min_le_right _ _) w h

/-- C16 (the code at the failing input): with RECONNECT-TIME = 100 ms and
MAX-RECONNECT-TIME = 50 ms the wait after the first failed attempt is 100 ms, above the
maximum and not `min(r, M)`; and with `r = 2^62`, `M = 2^63 - 1` the doubled interval
wraps, so that the wait after the second failure is `-2^63` and not `M`. -/
theorem dialer_wait_not_min :
    (dialerWaits 100000000 50000000 [false])[0]? = some 100000000 ∧
    (dialerWaits 100000000 50000000 [false])[0]? ≠
      some (min (100000000 * 2 ^ 0) 50000000) ∧
    ¬ ((100000000 : Int) ≤ 50000000) ∧
    (dialerWaits (2 ^ 62) (2 ^ 63 - 1) [false, false])[1]? = some (-(2 ^ 63)) ∧
    (dialerWaits (2 ^ 62) (2 ^ 63 - 1) [false, false])[1]? ≠
      some (min (2 ^ 62 * 2 ^ 1) (2 ^ 63 - 1)) := by
  refine ⟨by decide, by decide, by decide, by decide, by decide⟩

/-- Where the dialer supervisor keeps to the documented backoff, with initial interval
`r > 0` and maximum `M`: when `M = 0` every wait is `r`; when `r ≤ M < 2^62` the wait that
follows the `k`-th consecutive failed attempt since the start is `min (r * 2^k) M` and no
wait exceeds `M`; and the wait that follows a successful connection is `r` again, whatever
the interval had grown to. -/
theorem dialer_backoff (r M : Int) (hr : 0 < r) :
    (M = 0 → ∀ attempts : List Bool, ∀ w ∈ dialerWaits r M attempts, w = r) ∧
    (r ≤ M → M < 2 ^ 62 →
      (∀ k n : Nat, k < n →
        (dialerWaits r M (List.replicate n false))[k]? = some (min (r * 2 ^ k) M)) ∧
      (∀ attempts : List Bool, ∀ w ∈ dialerWaits r M attempts, w ≤ M)) ∧
    (∀ rtime : Int, (dialerRound r M rtime true).1 = r) := by
  refine ⟨fun hM attempts w hw => ?_, fun hrM hM => ⟨fun k n hk => ?_, fun attempts w hw => ?_⟩,
    fun rtime => rfl⟩
  · subst hM
    rcases dialerWaitsFrom_no_backoff r attempts r w hw with h | h <;> exact h
  · exact dialerWaitsFrom_failures r M hM k n r hr hrM hk
  · exact dialerWaitsFrom_le r M hr hrM hM attempts r hr hrM w hw

theorem dialer_backoff_witness :
    (0 : Int) < 100000000 ∧
    (dialerWaits 100000000 1000000000 (List.replicate 5 false))[4]? = some 1000000000 ∧
    (dialerWaits 100000000 1000000000 (List.replicate 5 false))[2]? = some 400000000 :=
  have h := (dialer_backoff 100000000 1000000000 (by decide)).2.1 (by decide) (by decide)
  ⟨by decide, (h.1 4 5 (by decide)).trans (by decide), (h.1 2 5 (by decide)).trans (by decide)⟩

/-! ## PAIR -/

theorem pair_AddEndpoint_registered (x : pair) (ep : Nat) (p : pairEp) (h : x.peer = some p) :
    x.AddEndpoint ep = (x, [PairEffect.epClose ep]) := by
  unfold pair.AddEndpoint
  rw [h]

theorem pair_step_invariant (s : pair × List PairEffect) (op : PairOp)
    (h : s.2.countP (fun e => e matches PairEffect.goSender _) =
      s.2.countP (fun e => e matches PairEffect.closeCq _) + s.1.registered.length) :
    (pair.step s op).2.countP (fun e => e matches PairEffect.goSender _) =
      (pair.step s op).2.countP (fun e => e matches PairEffect.closeCq _) +
        (pair.step s op).1.registered.length := by
  obtain ⟨x, effs⟩ := s
  obtain ⟨peer, raw⟩ := x
  cases op with
  | add ep =>
    cases peer with
    | none =>
      simp only [pair.registered, List.length_nil, add_zero] at h
      simp [pair.step, pair.AddEndpoint, pair.registered, List.countP_append, h,
        List.countP_cons]
    | some p =>
      simp only [pair.registered, List.length_singleton] at h
      simp [pair.step, pair.AddEndpoint, pair.registered, List.countP_append, h,
        List.countP_cons]
  | remove ep =>
    cases peer with
    | none =>
      simp only [pair.registered, List.length_nil, add_zero] at h
      simp [pair.step, pair.RemoveEndpoint, pair.registered, h]
    | some p =>
      simp only [pair.registered, List.length_singleton] at h
      by_cases hp : p.ep = ep
      · simp [pair.step, pair.RemoveEndpoint, pair.registered, List.countP_append, h, hp,
          List.countP_cons]
      · simp [pair.step, pair.RemoveEndpoint, pair.registered, h, hp]

theorem pair_run_invariant (ops : List PairOp) :
    (pair.run ops).2.countP (fun e => e matches PairEffect.goSender _) =
      (pair.run ops).2.countP (fun e => e matches PairEffect.closeCq _) +
        (pair.run ops).1.registered.length := by
  induction ops using List.reverseRecOn with
  | nil => rfl
  | append_singleton ops op ih =>
    have e : pair.run (ops ++ [op]) = pair.step (pair.run ops) op := by
      simp [pair.run, List.foldl_append]
    rw [e]
    exact pair_step_invariant _ op ih

/-- C17: in every state that `AddEndpoint` and `RemoveEndpoint` reach from `Init`, at most
one peer is registered, and the send workers started and not yet told to stop are exactly
that peer's. `AddEndpoint(ep2)` while a peer is registered closes `ep2`, starts no worker and
leaves the engine as it is. `RemoveEndpoint(ep)` clears the registered peer if and only if
`ep` is that peer, and otherwise changes nothing. -/
theorem pair_exclusive :
    (∀ ops : List PairOp, (pair.run ops).1.registered.length ≤ 1 ∧
      (pair.run ops).2.countP (fun e => e matches PairEffect.goSender _) =
        (pair.run ops).2.countP (fun e => e matches PairEffect.closeCq _) +
          (pair.run ops).1.registered.length) ∧
    (∀ (x : pair) (ep2 : Nat) (p : pairEp), x.peer = some p →
      x.AddEndpoint ep2 = (x, [PairEffect.epClose ep2])) ∧
    (∀ (x : pair) (ep : Nat) (p : pairEp), x.peer = some p →
      ((x.RemoveEndpoint ep).1.peer = none ↔ p.ep = ep) ∧
      (p.ep ≠ ep → x.RemoveEndpoint ep = (x, []))) ∧
    (∀ (x : pair) (ep : Nat), x.peer = none →
      (x.AddEndpoint ep).1.peer = some ⟨ep, false⟩ ∧
      (x.AddEndpoint ep).2 = [PairEffect.goReceiver ep, PairEffect.goSender ep]) := by
  refine ⟨fun ops => ⟨?_, pair_run_invariant ops⟩, pair_AddEndpoint_registered,
    fun x ep p h => ?_, fun x ep h => ?_⟩
  · unfold pair.registered
    cases (pair.run ops).1.peer <;> simp
  · unfold pair.RemoveEndpoint
    rw [h]
    by_cases hp : p.ep = ep
    · simp [hp]
    · simp [hp, h]
  · unfold pair.AddEndpoint
    rw [h]
    exact ⟨rfl, rfl⟩

/-! ## SUB -/

theorem any_isPrefixOf_iff (subs : List (List Byte)) (b : List Byte) :
    subs.any (fun sub => sub.isPrefixOf b) = true ↔ ∃ p ∈ subs, p <+: b := by
  simp [List.any_eq_true]

/-- C18: for every subscription list and every message with body `b` that arrives while the
receive queue has room (and the `select` is not taken by a closed close channel), the SUB
receiver puts the message on the
receive queue if and only if some subscribed `p` is a start of `b`, and frees it otherwise,
leaving the queue as it is. With no subscription nothing is forwarded, with the empty
subscription everything is; subscribed to `foo`, the bodies `foobar` and `foo` are forwarded,
`bar` and `fo` are dropped. -/
theorem sub_receiver_filter :
    (∀ (s : sub) (rq : Chan) (closing preferClose : Bool) (m : Message)
      (mc : List msgCacheInfo), rq.hasRoom = true → (closing = true → preferClose = false) →
      ((s.receiverStep rq closing preferClose m mc).step = ReceiverStep.forwarded ↔
        ∃ p ∈ s.subs, p <+: m.Body.data) ∧
      ((∃ p ∈ s.subs, p <+: m.Body.data) →
        s.receiverStep rq closing preferClose m mc =
          ⟨rq.send m, m, mc, ReceiverStep.forwarded⟩) ∧
      ((¬ ∃ p ∈ s.subs, p <+: m.Body.data) →
        s.receiverStep rq closing preferClose m mc =
          ⟨rq, (m.Free mc).1, (m.Free mc).2, ReceiverStep.dropped⟩)) ∧
    (∀ (raw : Bool) (rq : Chan) (preferClose : Bool) (m : Message) (mc : List msgCacheInfo),
      ((⟨[], raw⟩ : sub).receiverStep rq false preferClose m mc).step = ReceiverStep.dropped) ∧
    (∀ (s : sub) (rq : Chan) (preferClose : Bool) (m : Message) (mc : List msgCacheInfo),
      rq.hasRoom = true → [] ∈ s.subs →
      (s.receiverStep rq false preferClose m mc).step = ReceiverStep.forwarded) ∧
    subFoo.subs = [[0x66, 0x6f, 0x6f]] ∧
    (subFoo.receiverStep (Chan.make 4) false false (bodyMessage "foobar") messageCache).step =
      ReceiverStep.forwarded ∧
    (subFoo.receiverStep (Chan.make 4) false false (bodyMessage "foo") messageCache).step =
      ReceiverStep.forwarded ∧
    (subFoo.receiverStep (Chan.make 4) false false (bodyMessage "bar") messageCache).step =
      ReceiverStep.dropped ∧
    (subFoo.receiverStep (Chan.make 4) false false (bodyMessage "fo") messageCache).step =
      ReceiverStep.dropped := by
  have key : ∀ (s : sub) (rq : Chan) (closing preferClose : Bool) (m : Message)
      (mc : List msgCacheInfo), rq.hasRoom = true → (closing = true → preferClose = false) →
      ((∃ p ∈ s.subs, p <+: m.Body.data) →
        s.receiverStep rq closing preferClose m mc =
          ⟨rq.send m, m, mc, ReceiverStep.forwarded⟩) ∧
      ((¬ ∃ p ∈ s.subs, p <+: m.Body.data) →
        s.receiverStep rq closing preferClose m mc =
          ⟨rq, (m.Free mc).1, (m.Free mc).2, ReceiverStep.dropped⟩) := by
    intro s rq closing preferClose m mc hroom hsel
    constructor
    · intro h
      have ha := (any_isPrefixOf_iff s.subs m.Body.data).mpr h
      unfold sub.receiverStep
      cases closing
      · simp [ha, hroom]
      · simp [ha, hroom, hsel rfl]
    · intro h
      have ha : s.subs.any (fun sub => sub.isPrefixOf m.Body.data) = false := by
        rw [← Bool.not_eq_true, any_isPrefixOf_iff]
        exact h
      unfold sub.receiverStep
      simp [ha]
  refine ⟨fun s rq closing preferClose m mc hroom hsel => ?_,
    fun raw rq preferClose m mc => ?_,
    fun s rq preferClose m mc hroom hmem => ?_, by decide, by decide, by decide, by decide,
    by decide⟩
  · obtain ⟨k1, k2⟩ := key s rq closing preferClose m mc hroom hsel
    refine ⟨⟨fun h => ?_, fun h => by rw [k1 h]⟩, k1, k2⟩
    by_contra hn
    rw [k2 hn] at h
    simp at h
  · simp [sub.receiverStep]
  · rw [(key s rq false preferClose m mc hroom (fun h => by simp at h)).1
      ⟨[], hmem, List.nil_prefix⟩]

theorem set_perm_cons_eraseIdx {α : Type} (a : α) :
    ∀ (l : List α) (i : Nat), i < l.length → (l.set i a).Perm (a :: l.eraseIdx i)
  | [], _, h => by simp at h
  | x :: xs, 0, _ => by simp
  | x :: xs, i + 1, h => by
    have ih := set_perm_cons_eraseIdx a xs i (by simpa using h)
    simp only [List.set_cons_succ, List.eraseIdx_cons_succ]
    exact (List.Perm.cons x ih).trans (List.Perm.swap a x _)

theorem removeSwap_perm (l : List (List Byte)) (i : Nat) (h : i < l.length) :
    (removeSwap l i).Perm (l.eraseIdx i) := by
  rcases List.eq_nil_or_concat l with hl | ⟨init, last, hl⟩
  · subst hl; simp at h
  · rw [List.concat_eq_append] at hl
    subst hl
    have hg : (init ++ [last]).getLast? = some last := List.getLast?_concat init
    unfold removeSwap
    rw [hg]
    simp only []
    simp only [List.length_append, List.length_singleton] at h
    by_cases hi : i < init.length
    · rw [List.set_append_left i last hi, List.dropLast_concat,
        List.eraseIdx_append_of_lt_length hi]
      exact (set_perm_cons_eraseIdx last init i hi).trans
        (List.perm_append_singleton last (init.eraseIdx i)).symm
    · have hi2 : i = init.length := by omega
      subst hi2
      rw [List.set_append_right _ _ (le_refl _), List.eraseIdx_append_of_length_le (le_refl _)]
      simp

theorem eraseIdx_of_findIdx? (vb : List Byte) :
    ∀ (l : List (List Byte)) (i : Nat),
      l.findIdx? (fun sub => bytesEqual sub vb) = some i →
      i < l.length ∧ l.eraseIdx i = l.erase vb
  | [], _, h => by simp at h
  | x :: xs, i, h => by
    rw [List.findIdx?_cons] at h
    by_cases hx : x = vb
    · subst hx
      simp only [bytesEqual, decide_True, if_true, Option.some.injEq, zero_add] at h
      subst h
      simp
    · have hb : bytesEqual x vb = false := by simp [bytesEqual, hx]
      rw [hb] at h
      simp only [Bool.false_eq_true, if_false, zero_add, List.findIdx?_succ,
        Option.map_eq_some'] at h
      obtain ⟨j, hj, rfl⟩ := h
      obtain ⟨h1, h2⟩ := eraseIdx_of_findIdx? vb xs j hj
      refine ⟨by simpa using h1, ?_⟩
      rw [List.eraseIdx_cons_succ, h2, List.erase_cons]
      simp [hx]

theorem any_bytesEqual_iff (subs : List (List Byte)) (vb : List Byte) :
    subs.any (fun sub => bytesEqual sub vb) = true ↔ vb ∈ subs := by
  simp [List.any_eq_true, bytesEqual]

/-- The subscribe and unsubscribe options on byte values. -/
theorem sub_SetOption_bytes (s : sub) (vb : List Byte) :
    (vb ∈ s.subs → s.SetOption OptionSubscribe (Iface.bytes vb) = (s, none)) ∧
    (vb ∉ s.subs →
      s.SetOption OptionSubscribe (Iface.bytes vb) = ({ s with subs := s.subs ++ [vb] }, none)) ∧
    (vb ∉ s.subs →
      s.SetOption OptionUnsubscribe (Iface.bytes vb) = (s, some Error.ErrBadValue)) ∧
    (vb ∈ s.subs → (s.SetOption OptionUnsubscribe (Iface.bytes vb)).2 = none ∧
      (s.SetOption OptionUnsubscribe (Iface.bytes vb)).1.raw = s.raw ∧
      ((s.SetOption OptionUnsubscribe (Iface.bytes vb)).1.subs).Perm (s.subs.erase vb)) := by
  have hne1 : ¬ OptionSubscribe = OptionRaw := by decide
  have hne2 : ¬ OptionUnsubscribe = OptionRaw := by decide
  have hne3 : ¬ OptionUnsubscribe = OptionSubscribe := by decide
  refine ⟨fun h => ?_, fun h => ?_, fun h => ?_, fun h => ?_⟩
  · have ha := (any_bytesEqual_iff s.subs vb).mpr h
    simp [sub.SetOption, hne1, ha]
  · have ha : s.subs.any (fun sub => bytesEqual sub vb) = false := by
      rw [← Bool.not_eq_true, any_bytesEqual_iff]; exact h
    simp [sub.SetOption, hne1, ha]
  · have hf : s.subs.findIdx? (fun sub => bytesEqual sub vb) = none := by
      rw [List.findIdx?_eq_none_iff]
      intro x hx
      simp only [bytesEqual, decide_eq_false_iff_not]
      intro hxe
      exact h (hxe ▸ hx)
    simp [sub.SetOption, hne2, hne3, hf]
  · cases hf : s.subs.findIdx? (fun sub => bytesEqual sub vb) with
    | none =>
      rw [List.findIdx?_eq_none_iff] at hf
      have := hf vb h
      simp [bytesEqual] at this
    | some i =>
      obtain ⟨h1, h2⟩ := eraseIdx_of_findIdx? vb s.subs i hf
      have e : s.SetOption OptionUnsubscribe (Iface.bytes vb) =
          ({ s with subs := removeSwap s.subs i }, none) := by
        simp [sub.SetOption, hne2, hne3, hf]
      rw [e]
      refine ⟨rfl, rfl, ?_⟩
      rw [← h2]
      exact removeSwap_perm s.subs i h1

theorem sub_SetOption_str (s : sub) (name v : String) :
    s.SetOption name (Iface.str v) = s.SetOption name (Iface.bytes (stringBytes v)) := by
  unfold sub.SetOption
  rfl

theorem sub_SetOption_other (s : sub) (name : String) (v : Iface)
    (hn : name = OptionSubscribe ∨ name = OptionUnsubscribe)
    (hb : ∀ bs, v ≠ Iface.bytes bs) (hs : ∀ str, v ≠ Iface.str str) :
    s.SetOption name v = (s, some Error.ErrBadValue) := by
  have hne : ¬ name = OptionRaw := by
    rcases hn with h | h <;> subst h <;> decide
  unfold sub.SetOption
  cases v with
  | bytes bs => exact absurd rfl (hb bs)
  | str x => exact absurd rfl (hs x)
  | int n => simp [hne, hn]
  | addr a => simp [hne, hn]
  | other t => simp [hne, hn]
  | dur d => simp [hne, hn]
  | bool b => simp [hne, hn]

theorem sub_SetOption_bytes_nodup (s : sub) (name : String) (vb : List Byte)
    (hd : s.subs.Nodup) : (s.SetOption name (Iface.bytes vb)).1.subs.Nodup := by
  obtain ⟨h1, h2, h3, h4⟩ := sub_SetOption_bytes s vb
  by_cases hr : name = OptionRaw
  · subst hr; simpa [sub.SetOption] using hd
  · by_cases hs : name = OptionSubscribe
    · subst hs
      by_cases hm : vb ∈ s.subs
      · rw [h1 hm]; exact hd
      · rw [h2 hm]
        exact List.Nodup.append hd (List.nodup_singleton vb) (by simpa using hm)
    · by_cases hu : name = OptionUnsubscribe
      · subst hu
        by_cases hm : vb ∈ s.subs
        · exact (h4 hm).2.2.nodup_iff.mpr (hd.erase vb)
        · rw [h3 hm]; exact hd
      · simpa [sub.SetOption, hr, hs, hu] using hd

theorem sub_SetOption_nodup (s : sub) (name : String) (v : Iface) (hd : s.subs.Nodup) :
    (s.SetOption name v).1.subs.Nodup := by
  cases v with
  | bytes bs => exact sub_SetOption_bytes_nodup s name bs hd
  | str x => rw [sub_SetOption_str]; exact sub_SetOption_bytes_nodup s name _ hd
  | int n => unfold sub.SetOption; split_ifs <;> simpa using hd
  | addr a => unfold sub.SetOption; split_ifs <;> simpa using hd
  | other t => unfold sub.SetOption; split_ifs <;> simpa using hd
  | dur d => unfold sub.SetOption; split_ifs <;> simpa using hd
  | bool b => unfold sub.SetOption; split_ifs <;> simpa using hd

theorem sub_runOptions_nodup (ops : List (String × Iface)) : (sub.runOptions ops).subs.Nodup := by
  induction ops using List.reverseRecOn with
  | nil => exact List.nodup_nil
  | append_singleton ops op ih =>
    have e : sub.runOptions (ops ++ [op]) = ((sub.runOptions ops).SetOption op.1 op.2).1 := by
      simp [sub.runOptions, List.foldl_append]
    rw [e]
    exact sub_SetOption_nodup _ _ _ ih

/-- C19: the SUB subscription options treat the list as a set. On a list without repetition:
SUBSCRIBE of a present value returns nil and changes nothing, SUBSCRIBE of an absent value
appends exactly that value; UNSUBSCRIBE of a present value returns nil, removes that value,
keeps every other one and leaves the list without repetition; UNSUBSCRIBE of an absent value
returns `ErrBadValue` and changes nothing. A string is treated as the `[]byte` of its bytes,
a value of any other type yields `ErrBadValue`, and after `Init` and any sequence of
`SetOption` calls the list holds no value twice. -/
theorem sub_subscription_set :
    (∀ (s : sub) (vb : List Byte), s.subs.Nodup →
      (vb ∈ s.subs → s.SetOption OptionSubscribe (Iface.bytes vb) = (s, none)) ∧
      (vb ∉ s.subs → s.SetOption OptionSubscribe (Iface.bytes vb) =
        ({ s with subs := s.subs ++ [vb] }, none)) ∧
      (vb ∈ s.subs →
        (s.SetOption OptionUnsubscribe (Iface.bytes vb)).2 = none ∧
        vb ∉ (s.SetOption OptionUnsubscribe (Iface.bytes vb)).1.subs ∧
        (∀ q, q ≠ vb →
          (q ∈ (s.SetOption OptionUnsubscribe (Iface.bytes vb)).1.subs ↔ q ∈ s.subs)) ∧
        (s.SetOption OptionUnsubscribe (Iface.bytes vb)).1.subs.length + 1 = s.subs.length ∧
        (s.SetOption OptionUnsubscribe (Iface.bytes vb)).1.subs.Nodup) ∧
      (vb ∉ s.subs →
        s.SetOption OptionUnsubscribe (Iface.bytes vb) = (s, some Error.ErrBadValue))) ∧
    (∀ (s : sub) (name v : String),
      s.SetOption name (Iface.str v) = s.SetOption name (Iface.bytes (stringBytes v))) ∧
    (∀ (s : sub) (name : String) (v : Iface),
      name = OptionSubscribe ∨ name = OptionUnsubscribe →
      (∀ bs, v ≠ Iface.bytes bs) → (∀ str, v ≠ Iface.str str) →
      s.SetOption name v = (s, some Error.ErrBadValue)) ∧
    (∀ ops : List (String × Iface), (sub.runOptions ops).subs.Nodup) := by
  refine ⟨fun s vb hd => ?_, sub_SetOption_str, sub_SetOption_other, sub_runOptions_nodup⟩
  obtain ⟨h1, h2, h3, h4⟩ := sub_SetOption_bytes s vb
  refine ⟨h1, h2, fun hm => ?_, h3⟩
  obtain ⟨g1, -, g3⟩ := h4 hm
  refine ⟨g1, ?_, fun q hq => ?_, ?_, ?_⟩
  · rw [g3.mem_iff]
    exact hd.not_mem_erase
  · rw [g3.mem_iff, hd.mem_erase_iff]
    exact ⟨fun h => h.2, fun h => ⟨hq, h⟩⟩
  · rw [g3.length_eq, List.length_erase_of_mem hm]
    have : 0 < s.subs.length := List.length_pos_of_mem hm
    omega
  · exact g3.nodup_iff.mpr (hd.erase vb)

/-! ## REP: alternation of receive and send -/

theorem Slice_append_empty0 (h : Slice) (xs : List Byte) :
    (h.empty0.append xs).data = xs ∧
    ((h.empty0.append xs).isNil = true ↔ (h.isNil = true ∧ xs = [])) := by
  unfold Slice.append Slice.empty0
  by_cases hx : xs = []
  · subst hx; simp
  · simp only [hx, if_false]
    split_ifs <;> simp [hx]

theorem rep_RecvMsg_eq (s : socket rep) (req : Message) (rest : List Message)
    (preferClose : Bool) (mc : List msgCacheInfo) (hraw : s.proto.raw = false)
    (hre : s.recverr = none) (hcl : s.closing = false) (hrq : s.rq.buf = req :: rest) :
    socket.RecvMsg repMethods s preferClose mc =
      ⟨{ s with
          rq := { s.rq with buf := rest }, senderr := none,
          proto := { s.proto with backtrace := (Slice.make 64).append req.Header.data } },
        mc, some { req with Header := Slice.nil }, .returned none⟩ := by
  simp [socket.RecvMsg, socket.recvLoop, hre, hcl, hrq, repMethods, rep.RecvHook, hraw,
    socket.SetSendError]

theorem rep_applySendHook_eq (s : socket rep) (m : Message) (hraw : s.proto.raw = false) :
    socket.applySendHook repMethods s m =
      ⟨{ s with
          senderr := some Error.ErrProtoState,
          proto := { s.proto with backtrace := Slice.nil } },
        { m with Header := m.Header.empty0.append s.proto.backtrace.data },
        !(m.Header.empty0.append s.proto.backtrace.data).isNil⟩ := by
  simp [socket.applySendHook, repMethods, rep.SendHook, hraw, socket.SetSendError]

theorem Slice_make_append_data (n : Nat) (xs : List Byte) :
    ((Slice.make n).append xs).data = xs := by
  unfold Slice.append Slice.make
  by_cases hx : xs = []
  · subst hx; simp
  · simp only [hx, if_false]
    split_ifs <;> simp

/-- A cooked REP socket that holds a stashed backtrace `bt` and has no send error latched:
`SendMsg` sets the header to `bt`, queues the message and latches `ErrProtoState`. -/
theorem rep_SendMsg_reply (s : socket rep) (m : Message) (now : Nat) (preferClose : Bool)
    (mc : List msgCacheInfo) (hraw : s.proto.raw = false) (he : s.senderr = none)
    (hcl : s.closing = false) (hroom : s.wq.hasRoom = true)
    (hnil : s.proto.backtrace.data ≠ [] ∨ m.Header.isNil = false) :
    (socket.SendMsg repMethods s m now preferClose mc).out = .returned none ∧
    (socket.SendMsg repMethods s m now preferClose mc).sock.senderr =
      some Error.ErrProtoState ∧
    (socket.SendMsg repMethods s m now preferClose mc).sock.proto.raw = false ∧
    (socket.SendMsg repMethods s m now preferClose mc).sock.proto.backtrace = Slice.nil ∧
    ∃ m', (socket.SendMsg repMethods s m now preferClose mc).sock.wq.buf = s.wq.buf ++ [m'] ∧
      m'.Header.data = s.proto.backtrace.data ∧ m'.Body = m.Body := by
  have hh := rep_applySendHook_eq s m hraw
  obtain ⟨hd, hn⟩ := Slice_append_empty0 m.Header s.proto.backtrace.data
  have hok : (socket.applySendHook repMethods s m).ok = true := by
    rw [hh]
    simp only [Bool.not_eq_true']
    rw [← Bool.not_eq_true, hn]
    rintro ⟨h1, h2⟩
    rcases hnil with h | h
    · exact h h2
    · rw [h] at h1; simp at h1
  have hcl' : (socket.applySendHook repMethods s m).sock.closing = false := by rw [hh]; exact hcl
  have hroom' : (socket.applySendHook repMethods s m).sock.wq.hasRoom = true := by
    rw [hh]; exact hroom
  rw [SendMsg_hook_accepts repMethods s m now preferClose mc he hok hcl', if_pos hroom']
  rw [hh]
  exact ⟨rfl, rfl, hraw, rfl, _, rfl, hd, rfl⟩

/-- C20: REQ/REP alternation in cooked mode. A fresh REP socket refuses `SendMsg` with
`ErrProtoState`. When `RecvMsg` delivers a request (a message with a non-empty header, as the
REP receiver queues them; or the reply's header is not nil) it clears the latched error; the
next `SendMsg` gets past the error and the hook and puts the reply, with the request's
header, on the send queue; and the `SendMsg` after that, with no receive in between, returns
`ErrProtoState` and leaves the send queue as it is. -/
theorem rep_alternation :
    (∀ (msg : Message) (now : Nat) (preferClose : Bool) (mc : List msgCacheInfo),
      (socket.SendMsg repMethods (newSocket repMethods rep.zero) msg now preferClose mc).out =
        .returned (some Error.ErrProtoState)) ∧
    (∀ (s : socket rep) (req : Message) (rest : List Message) (m2 m3 : Message)
      (now now' : Nat) (preferClose : Bool) (mc : List msgCacheInfo),
      s.proto.raw = false → s.recverr = none → s.closing = false → s.rq.buf = req :: rest →
      s.wq.hasRoom = true → (req.Header.data ≠ [] ∨ m2.Header.isNil = false) →
      ∃ (r1 : RecvMsgResult rep) (r2 r3 : SendMsgResult rep),
        r1 = socket.RecvMsg repMethods s preferClose mc ∧
        r2 = socket.SendMsg repMethods r1.sock m2 now preferClose r1.mc ∧
        r3 = socket.SendMsg repMethods r2.sock m3 now' preferClose r2.mc ∧
        r1.out = .returned none ∧ r1.msg = some { req with Header := Slice.nil } ∧
        r1.sock.senderr = none ∧
        r2.out = .returned none ∧ r2.sock.senderr = some Error.ErrProtoState ∧
        (∃ m', r2.sock.wq.buf = s.wq.buf ++ [m'] ∧ m'.Header.data = req.Header.data ∧
          m'.Body = m2.Body) ∧
        r3.out = .returned (some Error.ErrProtoState) ∧ r3.sock.wq = r2.sock.wq) := by
  refine ⟨fun msg now preferClose mc => ?_, ?_⟩
  · rw [SendMsg_latched repMethods _ msg now preferClose mc Error.ErrProtoState rfl]
  · intro s req rest m2 m3 now now' preferClose mc hraw hre hcl hrq hroom hnil
    have e1 := rep_RecvMsg_eq s req rest preferClose mc hraw hre hcl hrq
    have hbt := Slice_make_append_data 64 req.Header.data
    obtain ⟨s1, hs1⟩ : ∃ s1 : socket rep, s1 =
        { s with
          rq := { s.rq with buf := rest }, senderr := none,
          proto := { s.proto with backtrace := (Slice.make 64).append req.Header.data } } :=
      ⟨_, rfl⟩
    rw [← hs1] at e1
    have hs1raw : s1.proto.raw = false := by rw [hs1]; exact hraw
    have hs1err : s1.senderr = none := by rw [hs1]
    have hs1cl : s1.closing = false := by rw [hs1]; exact hcl
    have hs1room : s1.wq.hasRoom = true := by rw [hs1]; exact hroom
    have hs1bt : s1.proto.backtrace.data = req.Header.data := by rw [hs1]; exact hbt
    have hs1wq : s1.wq.buf = s.wq.buf := by rw [hs1]
    obtain ⟨g1, g2, -, -, m', g5, g6, g7⟩ := rep_SendMsg_reply s1 m2 now preferClose mc hs1raw
      hs1err hs1cl hs1room (by rw [hs1bt]; exact hnil)
    have g8 := SendMsg_latched repMethods (socket.SendMsg repMethods s1 m2 now preferClose mc).sock
      m3 now' preferClose (socket.SendMsg repMethods s1 m2 now preferClose mc).mc
      Error.ErrProtoState g2
    refine ⟨⟨s1, mc, some { req with Header := Slice.nil }, .returned none⟩,
      socket.SendMsg repMethods s1 m2 now preferClose mc,
      socket.SendMsg repMethods (socket.SendMsg repMethods s1 m2 now preferClose mc).sock m3 now'
        preferClose (socket.SendMsg repMethods s1 m2 now preferClose mc).mc,
      e1.symm, rfl, rfl, rfl, rfl, hs1err, g1, g2, ⟨m', ?_, ?_, g7⟩, ?_, ?_⟩
    · rw [g5, hs1wq]
    · rw [g6, hs1bt]
    · rw [g8]
    · rw [g8]

theorem rep_alternation_witness :
    (socket.SendMsg repMethods repWithRequest (mkMessage [] [0x42] 0) 0 false messageCache).out
      = .returned (some Error.ErrProtoState) ∧
    ∃ (r1 : RecvMsgResult rep) (r2 r3 : SendMsgResult rep),
      r1 = socket.RecvMsg repMethods repWithRequest false messageCache ∧
      r2 = socket.SendMsg repMethods r1.sock (mkMessage [] [0x42] 0) 0 false r1.mc ∧
      r3 = socket.SendMsg repMethods r2.sock (mkMessage [] [0x43] 0) 0 false r2.mc ∧
      r2.out = .returned none ∧
      (∃ m', r2.sock.wq.buf = repWithRequest.wq.buf ++ [m'] ∧
        m'.Header.data = [0, 0, 0, 1, 0x80, 0, 0, 1] ∧
        m'.Body = (mkMessage [] [0x42] 0).Body) ∧
      r3.out = .returned (some Error.ErrProtoState) :=
  ⟨rfl,
    (rep_alternation.2 repWithRequest (mkMessage [0, 0, 0, 1, 0x80, 0, 0, 1] [0x41] 0) []
      (mkMessage [] [0x42] 0) (mkMessage [] [0x43] 0) 0 0 false messageCache rfl rfl rfl rfl
      (by decide) (Or.inl (by decide))).imp fun _ h1 => h1.imp fun _ h2 => h2.imp fun _ h3 =>
        ⟨h3.1, h3.2.1, h3.2.2.1, h3.2.2.2.2.2.2.1, h3.2.2.2.2.2.2.2.2.1,
          h3.2.2.2.2.2.2.2.2.2.1⟩⟩

/-! ## Framing: the payload is preserved, the split is not -/

/-- C28: for a message with header `h` and body `b`, not expired, whose length `|h|+|b|`
passes the size check of the receiving pipe (and, as the bytes of a message held in memory
are, is within the limit of the allocator), `conn.Recv` applied to the bytes written by
`conn.Send`, and `connipc.Recv` applied to the bytes written by `connipc.Send`, return a
message whose header is empty and whose body is `h ++ b`. -/
theorem framing_preserves_payload (ps pr qs qr : conn) (msg : Message) (now : Nat)
    (mcS mcR : List msgCacheInfo) (pick : Option Nat)
    (hexp : msg.Expired now = false) (hwf : CacheWF mcR)
    (hlt : msg.Header.data.length + msg.Body.data.length ≤ maxAlloc)
    (hps : ps.c.canWrite 3 = true) (hpr : pr.c.closed = false)
    (hpmax : ¬ (pr.maxrw > 0 ∧
      ((msg.Header.data.length + msg.Body.data.length : Nat) : Int) > pr.maxrw))
    (hpwire : pr.c.rd = ((ps.Send msg now mcS).p.c.wr).drop ps.c.wr.length)
    (hqs : qs.c.canWrite 4 = true) (hqr : qr.c.closed = false)
    (hqmax : ¬ (qr.maxrw > 0 ∧
      ((msg.Header.data.length + msg.Body.data.length : Nat) : Int) > qr.maxrw))
    (hqwire : qr.c.rd = ((connipc.Send qs msg mcS).p.c.wr).drop qs.c.wr.length) :
    (∃ m, (pr.Recv pick mcR).res = some (.ok m) ∧ m.Header.data = [] ∧
      m.Body.data = msg.Header.data ++ msg.Body.data) ∧
    (∃ m, (connipc.Recv qr pick mcR).res = some (.ok m) ∧ m.Header.data = [] ∧
      m.Body.data = msg.Header.data ++ msg.Body.data) := by
  have hlen : (msg.Header.data ++ msg.Body.data).length
      = msg.Header.data.length + msg.Body.data.length := List.length_append _ _
  obtain ⟨c3, h1, -, -, h2⟩ := conn_Send_eq ps msg now mcS hexp hps
  obtain ⟨c4, h3, -, -, h4⟩ := connipc_Send_eq qs msg mcS hqs
  rw [h2] at hpwire
  rw [h4] at hqwire
  simp only [h1, List.append_assoc, List.drop_left] at hpwire
  simp only [h3, List.append_assoc, List.drop_left, List.singleton_append] at hqwire
  rw [← hlen] at hpwire hqwire hpmax hqmax hlt
  obtain ⟨m, g1, g2, g3, -, -⟩ := conn_Recv_frame pr pick mcR (msg.Header.data ++ msg.Body.data)
    [] hpr hwf hlt hpmax (by simpa using hpwire)
  obtain ⟨m', k1, k2, k3, -, -⟩ := connipc_Recv_frame qr pick mcR 1
    (msg.Header.data ++ msg.Body.data) [] hqr hwf hlt hqmax (by simpa using hqwire)
  exact ⟨⟨m, g1, g2, g3⟩, ⟨m', k1, k2, k3⟩⟩

theorem framing_preserves_payload_witness :
    (∃ m, ((recvPipe ((pipeOn [] ⟨0x30, 0x31⟩).Send (mkMessage [0x80, 0, 0, 1] [7, 8] 0) 0
        messageCache).p.c.wr).Recv none messageCache).res = some (.ok m) ∧
      m.Header.data = [] ∧ m.Body.data = [0x80, 0, 0, 1, 7, 8]) ∧
    (∃ m, (connipc.Recv (recvPipe (connipc.Send (pipeOn [] ⟨0x30, 0x31⟩)
        (mkMessage [0x80, 0, 0, 1] [7, 8] 0) messageCache).p.c.wr) none messageCache).res =
          some (.ok m) ∧
      m.Header.data = [] ∧ m.Body.data = [0x80, 0, 0, 1, 7, 8]) :=
  framing_preserves_payload (pipeOn [] ⟨0x30, 0x31⟩)
    (recvPipe ((pipeOn [] ⟨0x30, 0x31⟩).Send (mkMessage [0x80, 0, 0, 1] [7, 8] 0) 0
      messageCache).p.c.wr)
    (pipeOn [] ⟨0x30, 0x31⟩)
    (recvPipe (connipc.Send (pipeOn [] ⟨0x30, 0x31⟩)
      (mkMessage [0x80, 0, 0, 1] [7, 8] 0) messageCache).p.c.wr)
    (mkMessage [0x80, 0, 0, 1] [7, 8] 0) 0 messageCache messageCache none rfl (by decide)
    (by decide) rfl rfl (by decide) rfl rfl rfl (by decide) rfl

/-! ## REP: the send hook -/

/-- C21 (the code at the failing input): on a cooked REP socket with no backtrace stashed,
`SendHook` applied to a message fresh from `NewMessage` (its header is empty but not nil)
returns true and leaves the header empty, whereas it returns false for a message whose
header is nil; in both cases no backtrace is stashed afterwards and `ErrProtoState` is
latched. -/
theorem rep_SendHook_without_backtrace :
    (newSocket repMethods rep.zero).proto.raw = false ∧
    (newSocket repMethods rep.zero).proto.backtrace = Slice.nil ∧
    (freshMessage 1).1.Header = Slice.make 32 ∧
    (rep.SendHook (newSocket repMethods rep.zero) (freshMessage 1).1).ok = true ∧
    (rep.SendHook (newSocket repMethods rep.zero) (freshMessage 1).1).msg.Header.data
      = [] ∧
    (rep.SendHook (newSocket repMethods rep.zero) (freshMessage 1).1).sock.senderr
      = some Error.ErrProtoState ∧
    (rep.SendHook (newSocket repMethods rep.zero)
      (freshMessage 1).1).sock.proto.backtrace = Slice.nil ∧
    (rep.SendHook (newSocket repMethods rep.zero)
      { (freshMessage 1).1 with Header := Slice.nil }).ok = false := by
  refine ⟨rfl, rfl, rfl, ?_, ?_, rfl, rfl, ?_⟩ <;> decide

/-! ## REP: the receive worker -/

theorem Slice_append_data (s : Slice) (xs : List Byte) : (s.append xs).data = s.data ++ xs := by
  unfold Slice.append
  split_ifs with h <;> simp [h]

theorem firstHighWord_pos (b0 b1 b2 b3 : Byte) (rest : List Byte) (hb : b0.val &&& 0x80 ≠ 0) :
    firstHighWord (b0 :: b1 :: b2 :: b3 :: rest) = some 0 := by
  simp only [firstHighWord]
  exact if_pos hb

theorem firstHighWord_neg (b0 b1 b2 b3 : Byte) (rest : List Byte)
    (hb : ¬ b0.val &&& 0x80 ≠ 0) :
    firstHighWord (b0 :: b1 :: b2 :: b3 :: rest) = (firstHighWord rest).map (· + 1) := by
  simp only [firstHighWord]
  exact if_neg hb

theorem rep_walk_found (ttl : Int) : ∀ (B : List Byte) (hops : Int) (hdr : Slice) (bcap : Nat)
    (bnil : Bool) (k : Nat), firstHighWord B = some k → hops + k < ttl →
    (rep.walk ttl hops hdr bcap bnil B).2.2 = true ∧
    (rep.walk ttl hops hdr bcap bnil B).1.data = hdr.data ++ B.take (4 * (k + 1)) ∧
    (rep.walk ttl hops hdr bcap bnil B).2.1.data = B.drop (4 * (k + 1))
  | [], _, _, _, _, _, h, _ => by simp [firstHighWord] at h
  | [_], _, _, _, _, _, h, _ => by simp [firstHighWord] at h
  | [_, _], _, _, _, _, _, h, _ => by simp [firstHighWord] at h
  | [_, _, _], _, _, _, _, _, h, _ => by simp [firstHighWord] at h
  | b0 :: b1 :: b2 :: b3 :: rest, hops, hdr, bcap, bnil, k, h, hk => by
    by_cases hb : b0.val &&& 0x80 ≠ 0
    · rw [firstHighWord_pos _ _ _ _ _ hb, Option.some.injEq] at h
      subst h
      have hh : ¬ hops ≥ ttl := by push_cast at hk; omega
      simp [rep.walk, hh, hb, Slice_append_data]
    · rw [firstHighWord_neg _ _ _ _ _ hb, Option.map_eq_some'] at h
      obtain ⟨k', hk', rfl⟩ := h
      have hh : ¬ hops ≥ ttl := by push_cast at hk; omega
      have ih := rep_walk_found ttl rest (hops + 1) (hdr.append [b0, b1, b2, b3]) (bcap - 4)
        false k' hk' (by push_cast at hk ⊢; omega)
      have e : rep.walk ttl hops hdr bcap bnil (b0 :: b1 :: b2 :: b3 :: rest) =
          rep.walk ttl (hops + 1) (hdr.append [b0, b1, b2, b3]) (bcap - 4) false rest := by
        simp [rep.walk, hh, hb]
      rw [e]
      refine ⟨ih.1, ?_, ?_⟩
      · rw [ih.2.1, Slice_append_data]
        simp [Nat.mul_add, List.take_succ_cons]
      · rw [ih.2.2]
        simp [Nat.mul_add]

theorem rep_walk_break (ttl : Int) : ∀ (B : List Byte) (hops : Int) (hdr : Slice) (bcap : Nat)
    (bnil : Bool), (rep.walk ttl hops hdr bcap bnil B).2.2 = true →
    ∃ k, firstHighWord B = some k ∧ hops + k < ttl
  | [], _, _, _, _, h => by simp [rep.walk] at h
  | [_], _, _, _, _, h => by simp [rep.walk] at h
  | [_, _], _, _, _, _, h => by simp [rep.walk] at h
  | [_, _, _], _, _, _, _, h => by simp [rep.walk] at h
  | b0 :: b1 :: b2 :: b3 :: rest, hops, hdr, bcap, bnil, h => by
    by_cases hh : hops ≥ ttl
    · simp [rep.walk, hh] at h
    · by_cases hb : b0.val &&& 0x80 ≠ 0
      · exact ⟨0, firstHighWord_pos _ _ _ _ _ hb, by push_cast; omega⟩
      · have e : rep.walk ttl hops hdr bcap bnil (b0 :: b1 :: b2 :: b3 :: rest) =
            rep.walk ttl (hops + 1) (hdr.append [b0, b1, b2, b3]) (bcap - 4) false rest := by
          simp [rep.walk, hh, hb]
        rw [e] at h
        obtain ⟨k, hk, hlt⟩ := rep_walk_break ttl rest _ _ _ _ h
        exact ⟨k + 1, by rw [firstHighWord_neg _ _ _ _ _ hb, hk]; rfl,
          by push_cast; omega⟩

/-- The function `firstHighWord` finds the word the specification describes: word `k` lies
fully inside `B`, its first byte has the high order bit set, and no earlier word has. -/
theorem firstHighWord_iff : ∀ (B : List Byte) (k : Nat), firstHighWord B = some k ↔
    (4 * (k + 1) ≤ B.length ∧ (B.getD (4 * k) 0).val &&& 0x80 ≠ 0 ∧
      ∀ j, j < k → (B.getD (4 * j) 0).val &&& 0x80 = 0)
  | [], k => by simp [firstHighWord]
  | [_], k => by simp [firstHighWord]; omega
  | [_, _], k => by simp [firstHighWord]; omega
  | [_, _, _], k => by simp [firstHighWord]; omega
  | b0 :: b1 :: b2 :: b3 :: rest, k => by
    have sh : ∀ j, (b0 :: b1 :: b2 :: b3 :: rest).getD (4 * (j + 1)) 0 = rest.getD (4 * j) 0 :=
      fun j => rfl
    by_cases hb : b0.val &&& 0x80 ≠ 0
    · rw [firstHighWord_pos _ _ _ _ _ hb, Option.some.injEq]
      constructor
      · rintro rfl
        refine ⟨by simp, by simpa using hb, by omega⟩
      · rintro ⟨-, -, h3⟩
        rcases Nat.eq_zero_or_pos k with h0 | h0
        · exact h0.symm
        · exact absurd (h3 0 h0) (by simpa using hb)
    · rw [firstHighWord_neg _ _ _ _ _ hb, Option.map_eq_some']
      constructor
      · rintro ⟨k', hk', rfl⟩
        obtain ⟨g1, g2, g3⟩ := (firstHighWord_iff rest k').1 hk'
        refine ⟨by simp only [List.length_cons]; omega, by rw [sh]; exact g2, ?_⟩
        intro j hj
        rcases j with _ | j
        · simpa using hb
        · rw [sh]; exact g3 j (by omega)
      · rintro ⟨g1, g2, g3⟩
        rcases k with _ | k'
        · exact absurd (by simpa using g2) hb
        · refine ⟨k', (firstHighWord_iff rest k').2 ⟨?_, ?_, ?_⟩, rfl⟩
          · simp only [List.length_cons] at g1; omega
          · rw [sh] at g2; exact g2
          · intro j hj
            have := g3 (j + 1) (by omega)
            rw [sh] at this; exact this

theorem rep_receiverStep_open (r : rep) (id : Nat) (rq : Chan) (preferClose : Bool)
    (m : Message) (mc : List msgCacheInfo) (hroom : rq.hasRoom = true) :
    r.receiverStep id rq false preferClose m mc =
      if (r.backtraced id m).2 then
        ⟨rq.send (r.backtraced id m).1, (r.backtraced id m).1, mc, .forwarded⟩
      else ⟨rq, ((r.backtraced id m).1.Free mc).1, ((r.backtraced id m).1.Free mc).2, .exited⟩ := by
  unfold rep.receiverStep
  cases hb : (r.backtraced id m).2 <;> simp [hroom, hb]

theorem rep_receiverStep_drop (r : rep) (id : Nat) (rq : Chan) (closing preferClose : Bool)
    (m : Message) (mc : List msgCacheInfo) (hb : (r.backtraced id m).2 = false) :
    r.receiverStep id rq closing preferClose m mc =
      ⟨rq, ((r.backtraced id m).1.Free mc).1, ((r.backtraced id m).1.Free mc).2, .exited⟩ := by
  unfold rep.receiverStep
  simp [hb]

theorem rep_backtraced_iff (r : rep) (id : Nat) (m : Message) :
    (r.backtraced id m).2 = true ↔
      ∃ k : Nat, (k : Int) < r.ttl ∧ 4 * (k + 1) ≤ m.Body.data.length ∧
        (m.Body.data.getD (4 * k) 0).val &&& 0x80 ≠ 0 ∧
        ∀ j, j < k → (m.Body.data.getD (4 * j) 0).val &&& 0x80 = 0 := by
  constructor
  · intro h
    obtain ⟨k, hk, hlt⟩ := rep_walk_break r.ttl m.Body.data 0 _ _ _ h
    exact ⟨k, by omega, (firstHighWord_iff _ _).1 hk⟩
  · rintro ⟨k, hlt, hk⟩
    exact (rep_walk_found r.ttl m.Body.data 0 _ _ _ k ((firstHighWord_iff _ _).2 hk)
      (by omega)).1

theorem rep_backtraced_data (r : rep) (id : Nat) (m : Message) (k : Nat)
    (hlt : (k : Int) < r.ttl) (hk : firstHighWord m.Body.data = some k) :
    (r.backtraced id m).1.Header.data =
        m.Header.data ++ PutUint32 id ++ m.Body.data.take (4 * (k + 1)) ∧
      (r.backtraced id m).1.Body.data = m.Body.data.drop (4 * (k + 1)) := by
  obtain ⟨-, h2, h3⟩ := rep_walk_found r.ttl m.Body.data 0 (m.Header.append (PutUint32 id))
    m.Body.cap m.Body.isNil k hk (by omega)
  refine ⟨?_, h3⟩
  show (rep.walk r.ttl 0 (m.Header.append (PutUint32 id)) m.Body.cap m.Body.isNil
    m.Body.data).1.data = _
  rw [h2, Slice_append_data]

/-- C22: a request whose body starts with `k` full peer-ID words (first byte without the
high order bit), `k` being at least the TTL of the engine (so in particular when more than
TTL such words precede the request-ID), is freed by the REP receiver, which returns, and the
receive queue stays as it was. `SetOption(TTL, v)` stores `v` and returns nil exactly when
`v` is an int from 1 to 255; for every other value it returns `ErrBadValue` and leaves the
socket, hence the TTL, unchanged. `Init` sets the TTL to 8. -/
theorem rep_ttl :
    (∀ (r : rep) (id : Nat) (rq : Chan) (closing preferClose : Bool) (m : Message)
        (mc : List msgCacheInfo) (k : Nat),
      (∀ j, j < k → 4 * (j + 1) ≤ m.Body.data.length ∧
        (m.Body.data.getD (4 * j) 0).val &&& 0x80 = 0) →
      r.ttl ≤ k →
      (r.receiverStep id rq closing preferClose m mc).step = ReceiverStep.exited ∧
      (r.receiverStep id rq closing preferClose m mc).rq = rq ∧
      ∀ ms, (rep.receiver r id closing preferClose (m :: ms) rq mc).1 = rq) ∧
    (∀ (sock : socket rep) (v : Iface),
      (∀ n : Int, v = Iface.int n → 1 ≤ n → n ≤ 255 →
        (rep.SetOption sock OptionTTL v).2 = none ∧
        (rep.SetOption sock OptionTTL v).1.proto.ttl = n) ∧
      ((¬ ∃ n : Int, v = Iface.int n ∧ 1 ≤ n ∧ n ≤ 255) →
        rep.SetOption sock OptionTTL v = (sock, some Error.ErrBadValue))) ∧
    (∀ sock : socket rep, (rep.Init sock).proto.ttl = 8) ∧
    (newSocket repMethods rep.zero).proto.ttl = 8 := by
  refine ⟨?_, ?_, fun _ => rfl, rfl⟩
  · intro r id rq closing preferClose m mc k hw ht
    have hb : (r.backtraced id m).2 = false := by
      cases hbt : (r.backtraced id m).2
      · rfl
      · obtain ⟨k', hlt, -, hhi, -⟩ := (rep_backtraced_iff r id m).1 hbt
        exact absurd (hw k' (by omega)).2 hhi
    have e := rep_receiverStep_drop r id rq closing preferClose m mc hb
    refine ⟨by rw [e], by rw [e], fun ms => ?_⟩
    simp only [rep.receiver, e]
  · intro sock v
    have hne : OptionTTL ≠ OptionRaw := by decide
    constructor
    · rintro n rfl h1 h2
      have : ¬ (n < 1 ∨ n > 255) := by omega
      simp [rep.SetOption, hne, this]
    · intro h
      cases v with
      | int n =>
        have : n < 1 ∨ n > 255 := by
          by_contra hc
          exact h ⟨n, rfl, by omega, by omega⟩
        simp [rep.SetOption, hne, this]
      | _ => simp [rep.SetOption, hne]

theorem rep_ttl_witness :
    ((⟨Slice.nil, false, 2⟩ : rep).receiverStep 5 (Chan.make 4) false false
      (mkMessage [] [0, 0, 0, 1, 0, 0, 0, 2, 0, 0, 0, 3, 0x80, 0, 0, 9, 7] 0)
      messageCache).step = ReceiverStep.exited :=
  (rep_ttl.1 ⟨Slice.nil, false, 2⟩ 5 (Chan.make 4) false false
    (mkMessage [] [0, 0, 0, 1, 0, 0, 0, 2, 0, 0, 0, 3, 0x80, 0, 0, 9, 7] 0) messageCache 3
    (by decide) (by decide)).1

/-- C26: with room in the receive queue and the socket open, the REP receiver forwards a
request with header `H0` and body `B` from the endpoint with ID `v` exactly when some word
`k` of `B`, with `k` below the TTL, lies fully inside `B`, has the high order bit set, and
no earlier word has it. The forwarded message then has the header
`H0 ++ BE32(v) ++ B[0 : 4(k+1)]` and the body `B[4(k+1):]`, so the moved words followed by
the remaining body are `B`. In every other case the worker frees the message and returns,
and the queue is left as it was. -/
theorem rep_backtrace_walk (r : rep) (id : Nat) (rq : Chan) (preferClose : Bool) (m : Message)
    (mc : List msgCacheInfo) (hroom : rq.hasRoom = true) :
    ((r.receiverStep id rq false preferClose m mc).step = ReceiverStep.forwarded ↔
      ∃ k : Nat, (k : Int) < r.ttl ∧ 4 * (k + 1) ≤ m.Body.data.length ∧
        (m.Body.data.getD (4 * k) 0).val &&& 0x80 ≠ 0 ∧
        ∀ j, j < k → (m.Body.data.getD (4 * j) 0).val &&& 0x80 = 0) ∧
    (∀ k : Nat, (k : Int) < r.ttl → 4 * (k + 1) ≤ m.Body.data.length →
      (m.Body.data.getD (4 * k) 0).val &&& 0x80 ≠ 0 →
      (∀ j, j < k → (m.Body.data.getD (4 * j) 0).val &&& 0x80 = 0) →
      (r.receiverStep id rq false preferClose m mc).msg.Header.data =
        m.Header.data ++ PutUint32 id ++ m.Body.data.take (4 * (k + 1)) ∧
      (r.receiverStep id rq false preferClose m mc).msg.Body.data =
        m.Body.data.drop (4 * (k + 1)) ∧
      m.Body.data.take (4 * (k + 1)) ++
        (r.receiverStep id rq false preferClose m mc).msg.Body.data = m.Body.data ∧
      (r.receiverStep id rq false preferClose m mc).rq =
        rq.send (r.receiverStep id rq false preferClose m mc).msg ∧
      (r.receiverStep id rq false preferClose m mc).mc = mc) ∧
    ((r.receiverStep id rq false preferClose m mc).step ≠ ReceiverStep.forwarded →
      (r.receiverStep id rq false preferClose m mc).step = ReceiverStep.exited ∧
      (r.receiverStep id rq false preferClose m mc).rq = rq ∧
      ((r.receiverStep id rq false preferClose m mc).msg,
        (r.receiverStep id rq false preferClose m mc).mc) = (r.backtraced id m).1.Free mc) := by
  have e := rep_receiverStep_open r id rq preferClose m mc hroom
  refine ⟨?_, ?_, ?_⟩
  · rw [← rep_backtraced_iff, e]
    cases hb : (r.backtraced id m).2 <;> simp
  · intro k hlt h1 h2 h3
    have hk := (firstHighWord_iff _ _).2 ⟨h1, h2, h3⟩
    have hb : (r.backtraced id m).2 = true :=
      (rep_backtraced_iff r id m).2 ⟨k, hlt, h1, h2, h3⟩
    obtain ⟨g1, g2⟩ := rep_backtraced_data r id m k hlt hk
    rw [e]
    simp only [hb, if_true]
    refine ⟨g1, g2, by rw [g2, List.take_append_drop], ?_, ?_⟩ <;> first | rfl | trivial
  · rw [e]
    cases hb : (r.backtraced id m).2 <;> simp

theorem rep_backtrace_walk_witness :
    ((⟨Slice.nil, false, 8⟩ : rep).receiverStep 5 (Chan.make 4) false false
      (mkMessage [] [0, 0, 0, 1, 0x80, 0, 0, 2, 9] 0) messageCache).step =
        ReceiverStep.forwarded :=
  (rep_backtrace_walk ⟨Slice.nil, false, 8⟩ 5 (Chan.make 4) false
    (mkMessage [] [0, 0, 0, 1, 0x80, 0, 0, 2, 9] 0) messageCache rfl).1.2
    ⟨1, by decide, by decide, by decide, by decide⟩

theorem rep_receiver_open (r : rep) (id : Nat) (preferClose : Bool) :
    ∀ (ms : List Message) (rq : Chan) (mc : List msgCacheInfo),
      rq.buf.length + ms.length ≤ rq.cap →
      (rep.receiver r id false preferClose ms rq mc).1.buf =
        rq.buf ++ (ms.takeWhile fun m => (r.backtraced id m).2).map
          fun m => (r.backtraced id m).1
  | [], rq, mc, _ => by simp [rep.receiver]
  | m :: ms, rq, mc, h => by
    have hroom : rq.hasRoom = true := by
      simp only [List.length_cons] at h
      simp only [Chan.hasRoom, decide_eq_true_eq]
      omega
    have e := rep_receiverStep_open r id rq preferClose m mc hroom
    cases hb : (r.backtraced id m).2
    · simp only [hb, Bool.false_eq_true, if_false] at e
      simp [rep.receiver, e, hb]
    · simp only [hb, if_true] at e
      have ih := rep_receiver_open r id preferClose ms (rq.send (r.backtraced id m).1) mc (by
        simp only [Chan.send, List.length_append, List.length_cons, List.length_nil] at h ⊢
        omega)
      simp only [rep.receiver, e, List.takeWhile_cons, hb, if_true, List.map_cons]
      rw [ih]
      simp [Chan.send]

theorem rep_receiver_after_drop (r : rep) (id : Nat) (closing preferClose : Bool) (m : Message)
    (post : List Message) (hb : (r.backtraced id m).2 = false) :
    ∀ (pre : List Message) (rq : Chan) (mc : List msgCacheInfo),
      rep.receiver r id closing preferClose (pre ++ m :: post) rq mc =
        rep.receiver r id closing preferClose (pre ++ [m]) rq mc
  | [], rq, mc => by
    simp [rep.receiver, rep_receiverStep_drop r id rq closing preferClose m mc hb]
  | p :: pre, rq, mc => by
    cases hs : (r.receiverStep id rq closing preferClose p mc).step <;>
      simp [rep.receiver, hs, rep_receiver_after_drop r id closing preferClose m post hb pre]

/-- C30: a drop ends the receive loop of the REP receiver. For every sequence of inbound
messages from one endpoint (the socket open and the receive queue with room for all of
them), the messages the worker puts on the receive queue are, in order, the rewritten
messages that precede the first one it drops; and whatever follows a dropped message makes
no difference to the outcome. -/
theorem rep_receiver_stops_at_first_drop (r : rep) (id : Nat) (preferClose : Bool)
    (ms : List Message) (rq : Chan) (mc : List msgCacheInfo)
    (hroom : rq.buf.length + ms.length ≤ rq.cap) :
    (rep.receiver r id false preferClose ms rq mc).1.buf =
      rq.buf ++ (ms.takeWhile fun m => (r.backtraced id m).2).map
        (fun m => (r.backtraced id m).1) ∧
    ∀ (closing : Bool) (pre post : List Message) (m : Message),
      (r.backtraced id m).2 = false →
      rep.receiver r id closing preferClose (pre ++ m :: post) rq mc =
        rep.receiver r id closing preferClose (pre ++ [m]) rq mc :=
  ⟨rep_receiver_open r id preferClose ms rq mc hroom, fun closing pre post m hb =>
    rep_receiver_after_drop r id closing preferClose m post hb pre rq mc⟩

theorem rep_receiver_stops_at_first_drop_witness :
    (rep.receiver ⟨Slice.nil, false, 8⟩ 5 false false
      [mkMessage [] [0x80, 0, 0, 1, 7] 0, mkMessage [] [0, 0, 0, 1] 0,
        mkMessage [] [0x80, 0, 0, 2, 8] 0] (Chan.make 4) messageCache).1.buf.map
        (fun m => (m.Header.data, m.Body.data)) =
      [([0, 0, 0, 5, 0x80, 0, 0, 1], [7])] := by
  have h := (rep_receiver_stops_at_first_drop ⟨Slice.nil, false, 8⟩ 5 false
    [mkMessage [] [0x80, 0, 0, 1, 7] 0, mkMessage [] [0, 0, 0, 1] 0,
      mkMessage [] [0x80, 0, 0, 2, 8] 0] (Chan.make 4) messageCache (by decide)).1
  rw [h]
  decide

/-! ## SURVEYOR: survey IDs -/

theorem or_high_bit (x : Nat) : (x ||| 0x80000000) % 2 ^ 32 = x % 2 ^ 31 + 2 ^ 31 := by
  have h2 : x % 2 ^ 31 + 2 ^ 31 = 2 ^ 31 ||| x % 2 ^ 31 := by
    have := Nat.mul_add_lt_is_or (Nat.mod_lt x (by positivity : 0 < 2 ^ 31)) 1
    rw [Nat.mul_one] at this
    omega
  have h3 : (0x80000000 : Nat) = 2 ^ 31 := by norm_num
  rw [h2, h3]
  apply Nat.eq_of_testBit_eq
  intro i
  simp only [Nat.testBit_mod_two_pow, Nat.testBit_or, Nat.testBit_two_pow]
  by_cases h : i < 31
  · have : i < 32 := by omega
    have h' : ¬ 31 = i := by omega
    simp [h, this, h']
  · by_cases h' : i = 31
    · subst h'; simp
    · have : ¬ i < 32 := by omega
      have h'' : ¬ 31 = i := by omega
      simp [h, this, h'']

theorem GetUint32_PutUint32 (v : Nat) (h : v < 2 ^ 32) :
    GetUint32 (Byte.ofNat (v / 2 ^ 24)) (Byte.ofNat (v / 2 ^ 16)) (Byte.ofNat (v / 2 ^ 8))
      (Byte.ofNat v) = v := by
  simp only [GetUint32, Byte.ofNat]
  norm_num at h ⊢
  omega

theorem surveyor_RecvHook_eq (sock : socket surveyor) (m : Message)
    (hraw : sock.proto.raw = false) :
    surveyor.RecvHook sock m =
      if 4 ≤ m.Header.data.length ∧
          GetUint32 (m.Header.data.getD 0 0) (m.Header.data.getD 1 0) (m.Header.data.getD 2 0)
            (m.Header.data.getD 3 0) = sock.proto.surveyID then
        ⟨sock, { m with Header := m.Header.drop 4 }, true⟩
      else ⟨sock, m, false⟩ := by
  unfold surveyor.RecvHook
  rcases hd : m.Header.data with _ | ⟨b0, _ | ⟨b1, _ | ⟨b2, _ | ⟨b3, rest⟩⟩⟩⟩ <;>
    simp [hraw]

theorem surveyor_SendHook_eq (sock : socket surveyor) (m : Message)
    (hraw : sock.proto.raw = false) :
    surveyor.SendHook sock m =
      ⟨{ sock.SetRecvError none with
          proto := { sock.proto with
            surveyID := sock.proto.nextID % 2 ^ 31 + 2 ^ 31,
            nextID := (sock.proto.nextID + 1) % 2 ^ 32,
            timer := if sock.proto.duration > 0 then some sock.proto.duration
              else sock.proto.timer } },
        { m with
          Header := m.Header.append (PutUint32 (sock.proto.nextID % 2 ^ 31 + 2 ^ 31)) },
        true⟩ := by
  unfold surveyor.SendHook
  rw [or_high_bit]
  simp [hraw]

/-- What `RecvHook` does on a cooked SURVEYOR socket with a header of any length: it
returns false exactly when the header has fewer than 4 bytes or its first 4 bytes, read big
endian, differ from the current survey ID, and then leaves the message as it is; when it
returns true, those 4 bytes have been removed from the header. The engine is unchanged in
both cases. -/
theorem surveyor_RecvHook_leading (sock : socket surveyor) (m : Message)
    (hraw : sock.proto.raw = false) :
    ((surveyor.RecvHook sock m).ok = false ↔
      (m.Header.data.length < 4 ∨
        GetUint32 (m.Header.data.getD 0 0) (m.Header.data.getD 1 0) (m.Header.data.getD 2 0)
          (m.Header.data.getD 3 0) ≠ sock.proto.surveyID)) ∧
    ((surveyor.RecvHook sock m).ok = true →
      (surveyor.RecvHook sock m).msg = { m with Header := m.Header.drop 4 } ∧
      (surveyor.RecvHook sock m).msg.Header.data = m.Header.data.drop 4) ∧
    ((surveyor.RecvHook sock m).ok = false → (surveyor.RecvHook sock m).msg = m) ∧
    (surveyor.RecvHook sock m).sock = sock := by
  rw [surveyor_RecvHook_eq sock m hraw]
  by_cases h : 4 ≤ m.Header.data.length ∧
      GetUint32 (m.Header.data.getD 0 0) (m.Header.data.getD 1 0) (m.Header.data.getD 2 0)
        (m.Header.data.getD 3 0) = sock.proto.surveyID
  · rw [if_pos h]
    refine ⟨?_, fun _ => ⟨rfl, rfl⟩, fun hf => ?_, rfl⟩
    · simp only [Bool.true_eq_false, false_iff, not_or, not_lt, ne_eq, not_not]
      exact h
    · simp at hf
  · rw [if_neg h]
    refine ⟨?_, fun hf => ?_, fun _ => rfl, rfl⟩
    · simp only [true_iff]
      by_cases h4 : m.Header.data.length < 4
      · exact Or.inl h4
      · exact Or.inr fun hid => h ⟨by omega, hid⟩
    · simp at hf

/-- The receive worker of a SURVEYOR peer turns an empty header, as the transports deliver
it, into a header of exactly 4 bytes. -/
theorem surveyorP_receiverStep_header (rq : Chan) (closing preferClose : Bool) (m : Message)
    (mc : List msgCacheInfo) (hh : m.Header.data = [])
    (hf : (surveyorP.receiverStep rq closing preferClose m mc).step = ReceiverStep.forwarded) :
    (surveyorP.receiverStep rq closing preferClose m mc).msg.Header.data = m.Body.data.take 4 ∧
    (surveyorP.receiverStep rq closing preferClose m mc).msg.Header.data.length = 4 ∧
    (surveyorP.receiverStep rq closing preferClose m mc).msg.Body.data = m.Body.data.drop 4 ∧
    (surveyorP.receiverStep rq closing preferClose m mc).rq =
      rq.send (surveyorP.receiverStep rq closing preferClose m mc).msg := by
  unfold surveyorP.receiverStep at hf ⊢
  by_cases h4 : m.Body.data.length < 4
  · rw [if_pos h4] at hf
    exact ReceiverStep.noConfusion hf
  · rw [if_neg h4] at hf ⊢
    by_cases hc : closing = true ∧ (preferClose = true ∨ ¬ rq.hasRoom = true)
    · rw [if_pos hc] at hf
      exact ReceiverStep.noConfusion hf
    · rw [if_neg hc] at hf ⊢
      by_cases hr : rq.hasRoom = true
      · rw [if_pos hr]
        refine ⟨?_, ?_, rfl, rfl⟩
        · show (m.Header.append (m.Body.data.take 4)).data = _
          rw [Slice_append_data, hh, List.nil_append]
        · show (m.Header.append (m.Body.data.take 4)).data.length = 4
          rw [Slice_append_data, hh, List.nil_append, List.length_take]
          omega
      · rw [if_neg hr] at hf
        exact ReceiverStep.noConfusion hf

/-- C23: in cooked mode the messages that reach `RecvHook` are those that the receive
worker of a peer has put on the receive queue, and their header has exactly 4 bytes (the
worker builds it from the empty header that a transport delivers). On every message whose
header has at most 4 bytes, `RecvHook` returns false if and only if the header is shorter
than 4 bytes or its trailing 4 bytes, read big endian, differ from the current survey ID,
and then leaves the message as it is; when it returns true, those 4 bytes have been removed
from the header, which is then empty. -/
theorem surveyor_RecvHook_filter (sock : socket surveyor) (hraw : sock.proto.raw = false) :
    (∀ (rq : Chan) (closing preferClose : Bool) (m0 : Message) (mc : List msgCacheInfo),
      m0.Header.data = [] →
      (surveyorP.receiverStep rq closing preferClose m0 mc).step = ReceiverStep.forwarded →
      (surveyorP.receiverStep rq closing preferClose m0 mc).msg.Header.data.length = 4 ∧
      (surveyorP.receiverStep rq closing preferClose m0 mc).rq =
        rq.send (surveyorP.receiverStep rq closing preferClose m0 mc).msg) ∧
    (∀ m : Message, m.Header.data.length ≤ 4 →
      ((surveyor.RecvHook sock m).ok = false ↔
        (m.Header.data.length < 4 ∨
          GetUint32 (m.Header.data.getD (m.Header.data.length - 4) 0)
            (m.Header.data.getD (m.Header.data.length - 3) 0)
            (m.Header.data.getD (m.Header.data.length - 2) 0)
            (m.Header.data.getD (m.Header.data.length - 1) 0) ≠ sock.proto.surveyID)) ∧
      ((surveyor.RecvHook sock m).ok = true →
        (surveyor.RecvHook sock m).msg.Header.data =
          m.Header.data.take (m.Header.data.length - 4) ∧
        (surveyor.RecvHook sock m).msg.Header.data = [] ∧
        (surveyor.RecvHook sock m).msg.Body = m.Body) ∧
      ((surveyor.RecvHook sock m).ok = false → (surveyor.RecvHook sock m).msg = m)) := by
  refine ⟨fun rq closing preferClose m0 mc hh hf => ?_, fun m hle => ?_⟩
  · obtain ⟨-, h2, -, h4⟩ := surveyorP_receiverStep_header rq closing preferClose m0 mc hh hf
    exact ⟨h2, h4⟩
  · obtain ⟨h1, h2, h3, -⟩ := surveyor_RecvHook_leading sock m hraw
    refine ⟨?_, fun hok => ?_, h3⟩
    · rw [h1]
      by_cases h4 : m.Header.data.length < 4
      · simp [h4]
      · have e : m.Header.data.length = 4 := by omega
        simp [e]
    · obtain ⟨g1, g2⟩ := h2 hok
      have hlen : ¬ m.Header.data.length < 4 := by
        intro hc
        have := h1.2 (Or.inl hc)
        rw [hok] at this
        exact Bool.noConfusion this
      have e : m.Header.data.length = 4 := by omega
      refine ⟨?_, ?_, ?_⟩
      · rw [g2, e]
        simp [List.drop_eq_nil_of_le (le_of_eq e)]
      · rw [g2]
        exact List.drop_eq_nil_of_le (le_of_eq e)
      · rw [g1]

theorem surveyor_RecvHook_filter_witness :
    (surveyor.RecvHook (surveyor.SendHook (newSocket surveyorMethods surveyor.zero)
      (mkMessage [] [1] 0)).sock
        (surveyorP.receiverStep (Chan.make 4) false false (mkMessage [] [0x80, 0, 0, 0, 9] 0)
          messageCache).msg).ok = true ∧
    (surveyor.RecvHook (surveyor.SendHook (newSocket surveyorMethods surveyor.zero)
      (mkMessage [] [1] 0)).sock
        (surveyorP.receiverStep (Chan.make 4) false false (mkMessage [] [0x80, 0, 0, 1, 9] 0)
          messageCache).msg).ok = false :=
  ⟨by
    have h := ((surveyor_RecvHook_filter (surveyor.SendHook (newSocket surveyorMethods
      surveyor.zero) (mkMessage [] [1] 0)).sock rfl).2 (surveyorP.receiverStep (Chan.make 4)
      false false (mkMessage [] [0x80, 0, 0, 0, 9] 0) messageCache).msg (by decide)).1
    cases hv : (surveyor.RecvHook (surveyor.SendHook (newSocket surveyorMethods
      surveyor.zero) (mkMessage [] [1] 0)).sock (surveyorP.receiverStep (Chan.make 4)
      false false (mkMessage [] [0x80, 0, 0, 0, 9] 0) messageCache).msg).ok
    · exact absurd (h.1 hv) (by decide)
    · rfl,
   ((surveyor_RecvHook_filter (surveyor.SendHook (newSocket surveyorMethods
      surveyor.zero) (mkMessage [] [1] 0)).sock rfl).2 (surveyorP.receiverStep (Chan.make 4)
      false false (mkMessage [] [0x80, 0, 0, 1, 9] 0) messageCache).msg (by decide)).1.2
      (by decide)⟩

/-- C24: every `SendHook` on a cooked SURVEYOR socket returns true, sets the survey ID to a
value from `2^31` to `2^32 - 1` (a 32-bit value with the high bit set), appends the 4 big
endian bytes of that ID to the header of the message, and clears the latched receive error.
The ID of the next survey differs from it, so that a response whose header is exactly the
bytes of this ID, which `RecvHook` accepts until then, is rejected once the next survey has
been sent. -/
theorem surveyor_fresh_survey_id (sock : socket surveyor) (m : Message)
    (hraw : sock.proto.raw = false) :
    (surveyor.SendHook sock m).ok = true ∧
    2 ^ 31 ≤ (surveyor.SendHook sock m).sock.proto.surveyID ∧
    (surveyor.SendHook sock m).sock.proto.surveyID < 2 ^ 32 ∧
    (surveyor.SendHook sock m).sock.proto.surveyID =
      (sock.proto.nextID ||| 0x80000000) % 2 ^ 32 ∧
    (surveyor.SendHook sock m).msg.Header.data =
      m.Header.data ++ PutUint32 (surveyor.SendHook sock m).sock.proto.surveyID ∧
    (surveyor.SendHook sock m).sock.recverr = none ∧
    ∀ m2 : Message,
      (surveyor.SendHook (surveyor.SendHook sock m).sock m2).sock.proto.surveyID ≠
        (surveyor.SendHook sock m).sock.proto.surveyID ∧
      ∀ resp : Message,
        resp.Header.data = PutUint32 (surveyor.SendHook sock m).sock.proto.surveyID →
        (surveyor.RecvHook (surveyor.SendHook sock m).sock resp).ok = true ∧
        (surveyor.RecvHook (surveyor.SendHook (surveyor.SendHook sock m).sock m2).sock
          resp).ok = false := by
  have e1 := surveyor_SendHook_eq sock m hraw
  have hraw1 : (surveyor.SendHook sock m).sock.proto.raw = false := by rw [e1]; exact hraw
  have hid1 : (surveyor.SendHook sock m).sock.proto.surveyID =
      sock.proto.nextID % 2 ^ 31 + 2 ^ 31 := by rw [e1]
  have hn1 : (surveyor.SendHook sock m).sock.proto.nextID = (sock.proto.nextID + 1) % 2 ^ 32 := by
    rw [e1]
  have hlt : sock.proto.nextID % 2 ^ 31 + 2 ^ 31 < 2 ^ 32 := by
    have := Nat.mod_lt sock.proto.nextID (by positivity : 0 < 2 ^ 31)
    omega
  refine ⟨by rw [e1], by rw [hid1]; omega, by rw [hid1]; exact hlt,
    by rw [hid1, or_high_bit], ?_, by rw [e1]; rfl, fun m2 => ?_⟩
  · rw [hid1, e1]
    exact Slice_append_data _ _
  · have e2 := surveyor_SendHook_eq (surveyor.SendHook sock m).sock m2 hraw1
    have hraw2 : (surveyor.SendHook (surveyor.SendHook sock m).sock m2).sock.proto.raw = false := by
      rw [e2]; exact hraw1
    have hid2 : (surveyor.SendHook (surveyor.SendHook sock m).sock m2).sock.proto.surveyID =
        (sock.proto.nextID + 1) % 2 ^ 32 % 2 ^ 31 + 2 ^ 31 := by rw [e2, ← hn1]
    have hne : (sock.proto.nextID + 1) % 2 ^ 32 % 2 ^ 31 + 2 ^ 31 ≠
        sock.proto.nextID % 2 ^ 31 + 2 ^ 31 := by
      norm_num
      omega
    refine ⟨by rw [hid2, hid1]; exact hne, fun resp hresp => ?_⟩
    have hg := GetUint32_PutUint32 _ hlt
    rw [hid1] at hresp
    have hd : resp.Header.data.length = 4 := by rw [hresp]; rfl
    have hget : GetUint32 (resp.Header.data.getD 0 0) (resp.Header.data.getD 1 0)
        (resp.Header.data.getD 2 0) (resp.Header.data.getD 3 0) =
          sock.proto.nextID % 2 ^ 31 + 2 ^ 31 := by
      rw [hresp]; exact hg
    rw [surveyor_RecvHook_eq _ resp hraw1, surveyor_RecvHook_eq _ resp hraw2, hget, hid1, hid2]
    constructor
    · rw [if_pos ⟨by omega, rfl⟩]
    · rw [if_neg (fun h => hne h.2.symm)]

theorem surveyor_fresh_survey_id_witness :
    (surveyor.SendHook (newSocket surveyorMethods surveyor.zero)
      (mkMessage [] [1] 0)).sock.recverr = none ∧
    (newSocket surveyorMethods surveyor.zero).recverr = some Error.ErrProtoState :=
  ⟨(surveyor_fresh_survey_id (newSocket surveyorMethods surveyor.zero) (mkMessage [] [1] 0)
    rfl).2.2.2.2.2.1, rfl⟩

/-! ## Fan-out: who is offered a duplicate, and the reference count -/

theorem Free_refcnt (m : Message) (mc : List msgCacheInfo) :
    (m.Free mc).1.refcnt = wrapInt32 (m.refcnt - 1) := by
  unfold Message.Free
  simp only []
  split_ifs <;> rfl

theorem Free_Header (m : Message) (mc : List msgCacheInfo) : (m.Free mc).1.Header = m.Header := by
  unfold Message.Free
  simp only []
  split_ifs <;> rfl

theorem fanout_offers (skip : Nat → Bool) : ∀ (peers : List Peer) (m : Message)
    (mc : List msgCacheInfo),
    (fanout skip peers m mc).offers =
      (peers.filter fun p => !skip p.id).map fun p => ⟨p.id, p.q.hasRoom⟩
  | [], _, _ => rfl
  | pe :: rest, m, mc => by
    unfold fanout
    by_cases hs : skip pe.id = true
    · simp [hs, fanout_offers skip rest]
    · by_cases hr : pe.q.hasRoom = true
      · simp [hs, hr, fanout_offers skip rest]
      · simp [hs, hr, fanout_offers skip rest]

theorem fanout_Header (skip : Nat → Bool) : ∀ (peers : List Peer) (m : Message)
    (mc : List msgCacheInfo), (fanout skip peers m mc).msg.Header = m.Header
  | [], _, _ => rfl
  | pe :: rest, m, mc => by
    unfold fanout
    by_cases hs : skip pe.id = true
    · simp [hs, fanout_Header skip rest]
    · by_cases hr : pe.q.hasRoom = true
      · simp [hs, hr, fanout_Header skip rest, Message.Dup]
      · simp [hs, hr, fanout_Header skip rest, Free_Header, Message.Dup]

/-- The reference count after the loop: one more for every queue that took its duplicate;
the cache is not touched as long as the count was at least 1 before. -/
theorem fanout_refcnt (skip : Nat → Bool) : ∀ (peers : List Peer) (m : Message)
    (mc : List msgCacheInfo), 1 ≤ m.refcnt → m.refcnt + peers.length < 2 ^ 31 →
    (fanout skip peers m mc).msg.refcnt =
      m.refcnt + (((fanout skip peers m mc).offers.filter fun o => o.accepted).length : Nat) ∧
    (fanout skip peers m mc).mc = mc
  | [], _, _, _, _ => by simp [fanout]
  | pe :: rest, m, mc, h1, h2 => by
    simp only [List.length_cons, Nat.cast_add, Nat.cast_one] at h2
    have hd : m.Dup.refcnt = m.refcnt + 1 := wrapInt32_id _ (by omega) (by omega)
    unfold fanout
    by_cases hs : skip pe.id = true
    · have ih := fanout_refcnt skip rest m mc h1 (by omega)
      simp only [hs, if_true]
      exact ih
    · by_cases hr : pe.q.hasRoom = true
      · have ih := fanout_refcnt skip rest m.Dup mc (by omega) (by omega)
        simp only [hs, hr, if_true, Bool.false_eq_true, if_false, List.filter_cons_of_pos,
          List.length_cons]
        refine ⟨?_, ih.2⟩
        rw [ih.1, hd]
        push_cast
        omega
      · have hf : m.Dup.Free mc = ({ m.Dup with refcnt := m.Dup.refcnt - 1 }, mc) :=
          Free_of_pos _ _ (by omega) (by omega)
        have ih := fanout_refcnt skip rest { m.Dup with refcnt := m.Dup.refcnt - 1 } mc
          (by simp only [hd]; omega) (by simp only [hd]; omega)
        simp only [hs, hr, Bool.false_eq_true, if_false, hf]
        refine ⟨?_, ih.2⟩
        rw [ih.1]
        simp [hd]

theorem bus_senderStep_short (x : bus) (m : Message) (mc : List msgCacheInfo)
    (h : m.Header.data.length < 4) : bus.senderStep x m mc = (x.broadcast m 0 mc).free := by
  unfold bus.senderStep
  rcases hd : m.Header.data with _ | ⟨b0, _ | ⟨b1, _ | ⟨b2, _ | ⟨b3, rest⟩⟩⟩⟩
  · rfl
  · rfl
  · rfl
  · rfl
  · rw [hd] at h
    simp only [List.length_cons] at h
    omega

theorem bus_senderStep_long (x : bus) (m : Message) (mc : List msgCacheInfo)
    (h : 4 ≤ m.Header.data.length) :
    bus.senderStep x m mc =
      (x.broadcast { m with Header := m.Header.drop 4 }
        (GetUint32 (m.Header.data.getD 0 0) (m.Header.data.getD 1 0) (m.Header.data.getD 2 0)
          (m.Header.data.getD 3 0)) mc).free := by
  unfold bus.senderStep
  rcases hd : m.Header.data with _ | ⟨b0, _ | ⟨b1, _ | ⟨b2, _ | ⟨b3, rest⟩⟩⟩⟩
  · rw [hd] at h; simp at h
  · rw [hd] at h; simp at h
  · rw [hd] at h; simp at h
  · rw [hd] at h; simp at h
  · rfl

theorem bus_broadcast_offers (x : bus) (m : Message) (s : Nat) (mc : List msgCacheInfo) :
    ((x.broadcast m s mc).free.offers.map fun o => o.id) =
      (x.peers.map fun p => p.id).filter fun id => decide (id ≠ s) := by
  simp only [bus.broadcast, FanoutResult.free, fanout_offers, List.map_map, List.filter_map]
  congr 1
  apply List.filter_congr
  intro p _
  simp [eq_comm]

theorem bus_broadcast_Header (x : bus) (m : Message) (s : Nat) (mc : List msgCacheInfo) :
    (x.broadcast m s mc).free.msg.Header = m.Header := by
  simp only [bus.broadcast, FanoutResult.free, Free_Header, fanout_Header]

/-- What the BUS sender does for any set of peers: it removes the leading 4 bytes of a
header of at least 4 bytes and reads them big endian as the origin ID; with a shorter
header it leaves the header alone and the origin ID keeps its zero value. In both cases it
offers a duplicate to exactly the registered peers whose endpoint ID differs from the
origin ID. -/
theorem bus_offers (x : bus) (m : Message) (mc : List msgCacheInfo) :
    (4 ≤ m.Header.data.length →
      (bus.senderStep x m mc).msg.Header.data = m.Header.data.drop 4 ∧
      (bus.senderStep x m mc).offers.map (fun o => o.id) =
        (x.peers.map fun p => p.id).filter fun id =>
          decide (id ≠ GetUint32 (m.Header.data.getD 0 0) (m.Header.data.getD 1 0)
            (m.Header.data.getD 2 0) (m.Header.data.getD 3 0))) ∧
    (m.Header.data.length < 4 →
      (bus.senderStep x m mc).msg.Header = m.Header ∧
      (bus.senderStep x m mc).offers.map (fun o => o.id) =
        (x.peers.map fun p => p.id).filter fun id => decide (id ≠ 0)) := by
  refine ⟨fun h => ?_, fun h => ?_⟩
  · rw [bus_senderStep_long x m mc h, bus_broadcast_offers, bus_broadcast_Header]
    exact ⟨rfl, rfl⟩
  · rw [bus_senderStep_short x m mc h, bus_broadcast_offers, bus_broadcast_Header]
    exact ⟨rfl, rfl⟩

/-- C25: let no registered endpoint have the ID 0, the value with which the sender starts
its variable `id` (the IDs come from the generator of the core, which gives each endpoint a
unique 31-bit value). For every list of registered peers and every message taken from the
send queue: if the header has at least 4 bytes the BUS sender removes the leading 4 bytes,
reads them big endian as the origin ID, and offers a duplicate to exactly the peers whose
endpoint ID differs from the origin ID; if the header has fewer than 4 bytes it leaves the
header alone and offers a duplicate to every registered peer. -/
theorem bus_recipients (x : bus) (m : Message) (mc : List msgCacheInfo)
    (hid : ∀ p ∈ x.peers, p.id ≠ 0) :
    (4 ≤ m.Header.data.length →
      (bus.senderStep x m mc).msg.Header.data = m.Header.data.drop 4 ∧
      (bus.senderStep x m mc).offers.map (fun o => o.id) =
        (x.peers.map fun p => p.id).filter (fun id =>
          decide (id ≠ GetUint32 (m.Header.data.getD 0 0) (m.Header.data.getD 1 0)
            (m.Header.data.getD 2 0) (m.Header.data.getD 3 0))) ∧
      GetUint32 (m.Header.data.getD 0 0) (m.Header.data.getD 1 0) (m.Header.data.getD 2 0)
        (m.Header.data.getD 3 0) ∉ (bus.senderStep x m mc).offers.map (fun o => o.id)) ∧
    (m.Header.data.length < 4 →
      (bus.senderStep x m mc).msg.Header = m.Header ∧
      (bus.senderStep x m mc).offers.map (fun o => o.id) = x.peers.map fun p => p.id) := by
  obtain ⟨h1, h2⟩ := bus_offers x m mc
  refine ⟨fun h => ?_, fun h => ?_⟩
  · obtain ⟨g1, g2⟩ := h1 h
    refine ⟨g1, g2, ?_⟩
    rw [g2]
    simp
  · obtain ⟨g1, g2⟩ := h2 h
    refine ⟨g1, ?_⟩
    rw [g2, List.filter_eq_self]
    intro id hmem
    obtain ⟨p, hp, rfl⟩ := List.mem_map.1 hmem
    simpa using hid p hp

theorem bus_recipients_witness :
    (bus.senderStep ⟨[⟨3, Chan.make 16⟩, ⟨7, Chan.make 16⟩], false⟩
      (mkMessage [0, 0, 0, 3] [1] 0) messageCache).offers.map (fun o => o.id) = [7] ∧
    (bus.senderStep ⟨[⟨3, Chan.make 16⟩, ⟨7, Chan.make 16⟩], false⟩
      (mkMessage [] [1] 0) messageCache).offers.map (fun o => o.id) = [3, 7] :=
  ⟨((bus_recipients ⟨[⟨3, Chan.make 16⟩, ⟨7, Chan.make 16⟩], false⟩
      (mkMessage [0, 0, 0, 3] [1] 0) messageCache (by decide)).1 (by decide)).2.1.trans
      (by decide),
    ((bus_recipients ⟨[⟨3, Chan.make 16⟩, ⟨7, Chan.make 16⟩], false⟩
      (mkMessage [] [1] 0) messageCache (by decide)).2 (by decide)).2⟩

/-- Were an endpoint to have the ID 0, the sender would pass it over for a message without
a header: with endpoint IDs 0 and 7 only the peer 7 is offered a duplicate. -/
theorem bus_short_header_skips_id_zero :
    (mkMessage [] [1] 0).Header.data.length < 4 ∧
    (bus.senderStep ⟨[⟨0, Chan.make 16⟩, ⟨7, Chan.make 16⟩], false⟩ (mkMessage [] [1] 0)
      messageCache).offers = [⟨7, true⟩] := by
  decide

theorem fanout_accepted_le (skip : Nat → Bool) (peers : List Peer) (m : Message)
    (mc : List msgCacheInfo) :
    ((fanout skip peers m mc).offers.filter fun o => o.accepted).length ≤ peers.length := by
  rw [fanout_offers]
  refine (List.length_filter_le _ _).trans ?_
  rw [List.length_map]
  exact List.length_filter_le _ _

/-- After the loop and the `Free` that follows it, a message that came with the count 1 has
as many references as queues took a duplicate. -/
theorem fanout_free_refcnt (skip : Nat → Bool) (peers : List Peer) (m : Message)
    (mc : List msgCacheInfo) (h1 : m.refcnt = 1) (hn : peers.length < 2 ^ 31 - 1) :
    (fanout skip peers m mc).free.msg.refcnt =
      (((fanout skip peers m mc).free.offers.filter fun o => o.accepted).length : Nat) := by
  have h := (fanout_refcnt skip peers m mc (by omega) (by rw [h1]; omega)).1
  have hk := fanout_accepted_le skip peers m mc
  show ((fanout skip peers m mc).msg.Free (fanout skip peers m mc).mc).1.refcnt = _
  rw [Free_refcnt, h, h1, wrapInt32_id _ (by omega) (by omega)]
  show (1 : Int) + (((fanout skip peers m mc).offers.filter fun o => o.accepted).length : Nat)
    - 1 = (((fanout skip peers m mc).offers.filter fun o => o.accepted).length : Nat)
  omega

/-- C27 (the code at the failing input): with a message of reference count 1 and fewer than `2^31 - 1` peers, one
round of the PUB sender and one round of the BUS sender leave the message with as many
references as per-peer queues accepted a duplicate, whereas one round of the SURVEYOR
sender, which has no `Free` after its loop, leaves it with one more. With one peer whose
queue has room, the counts are 1 for PUB and 2 for SURVEYOR; with no peer at all, PUB
returns the message to the cache and SURVEYOR leaves it with the count 1 and the cache as
it was. -/
theorem surveyor_sender_keeps_reference :
    (∀ (p : pub) (m : Message) (mc : List msgCacheInfo), m.refcnt = 1 →
      p.eps.length < 2 ^ 31 - 1 →
      (pub.senderStep p m mc).msg.refcnt =
        (((pub.senderStep p m mc).offers.filter fun o => o.accepted).length : Nat)) ∧
    (∀ (x : bus) (m : Message) (mc : List msgCacheInfo), m.refcnt = 1 →
      x.peers.length < 2 ^ 31 - 1 →
      (bus.senderStep x m mc).msg.refcnt =
        (((bus.senderStep x m mc).offers.filter fun o => o.accepted).length : Nat)) ∧
    (∀ (x : surveyor) (m : Message) (mc : List msgCacheInfo), m.refcnt = 1 →
      x.peers.length < 2 ^ 31 - 1 →
      (surveyor.senderStep x m mc).msg.refcnt =
        (((surveyor.senderStep x m mc).offers.filter fun o => o.accepted).length : Nat) + 1 ∧
      (surveyor.senderStep x m mc).mc = mc) ∧
    (freshMessage 1).1.refcnt = 1 ∧
    (pub.senderStep ⟨[⟨3, Chan.make 16⟩], false⟩ (freshMessage 1).1
      messageCache).msg.refcnt = 1 ∧
    (surveyor.senderStep { surveyor.zero with peers := [⟨3, Chan.make 1⟩] }
      (freshMessage 1).1 messageCache).offers = [⟨3, true⟩] ∧
    (surveyor.senderStep { surveyor.zero with peers := [⟨3, Chan.make 1⟩] }
      (freshMessage 1).1 messageCache).msg.refcnt = 2 ∧
    (pub.senderStep ⟨[], false⟩ (freshMessage 1).1 messageCache).msg.refcnt = 0 ∧
    (pub.senderStep ⟨[], false⟩ (freshMessage 1).1 messageCache).mc ≠
      messageCache ∧
    (surveyor.senderStep surveyor.zero (freshMessage 1).1
      messageCache).msg.refcnt = 1 ∧
    (surveyor.senderStep surveyor.zero (freshMessage 1).1 messageCache).mc =
      messageCache := by
  refine ⟨?_, ?_, ?_, rfl, by decide, by decide, by decide, by decide, by decide, by decide,
    by decide⟩
  · intro p m mc h1 hn
    exact fanout_free_refcnt _ p.eps m mc h1 hn
  · intro x m mc h1 hn
    by_cases h : m.Header.data.length < 4
    · rw [bus_senderStep_short x m mc h]
      exact fanout_free_refcnt _ x.peers m mc h1 hn
    · rw [bus_senderStep_long x m mc (by omega)]
      exact fanout_free_refcnt _ x.peers _ mc h1 hn
  · intro x m mc h1 hn
    have h := fanout_refcnt (fun _ => false) x.peers m mc (by omega) (by rw [h1]; omega)
    refine ⟨?_, h.2⟩
    show (fanout (fun _ => false) x.peers m mc).msg.refcnt =
      (((fanout (fun _ => false) x.peers m mc).offers.filter fun o => o.accepted).length : Nat)
        + 1
    rw [h.1, h1]
    omega

/-! ## The registry of pipes -/

theorem swapRemove_getElem? (L : List Nat) (i last : Nat) (hi : i < L.length) (j : Nat) :
    ((L.set i last).dropLast)[j]? =
      if j < L.length - 1 then (if j = i then some last else L[j]?) else none := by
  rw [List.dropLast_eq_take, List.getElem?_take, List.length_set]
  split_ifs with h1 h2
  · subst h2; simp [List.getElem?_set, hi]
  · rw [List.getElem?_set]; simp [Ne.symm h2]
  · rfl

theorem PipeHeap_modify_obj (h : PipeHeap) (a : Nat) (f : pipe → pipe) (b : Nat) :
    (h.modify a f).obj b = if b = a then f (h.obj a) else h.obj b := rfl

theorem RegistryInv_congr {σ : Type} (s s' : socket σ) (h : PipeHeap)
    (hp : s'.pipes = s.pipes) (hI : RegistryInv s h) : RegistryInv s' h := by
  unfold RegistryInv at hI ⊢
  rw [hp]
  exact hI

theorem RegistryInv_nodup {σ : Type} (sock : socket σ) (h : PipeHeap)
    (hI : RegistryInv sock h) : sock.pipes.Nodup := by
  rw [List.nodup_iff_getElem?_ne_getElem?]
  intro i j hij hj heq
  have hq : sock.pipes[j]? = some (sock.pipes.get ⟨j, hj⟩) := List.getElem?_eq_getElem hj
  have h1 := (hI.1 i _ (heq.trans hq)).1
  have h2 := (hI.1 j _ hq).1
  omega

theorem addPipe_reject {σ : Type} (sock : socket σ) (h : PipeHeap) (index0 : Int)
    (d l : Option Nat) (addEp : socket σ → Nat → socket σ)
    (hrej : (l = none ∧ d = none) ∨
      ∃ fn, sock.porthook = some fn ∧ fn PortAction.PortActionAdd h.next = false) :
    (sock.addPipe h index0 d l addEp).1 = sock ∧
    (sock.addPipe h index0 d l addEp).2.2 = none ∧
    (sock.addPipe h index0 d l addEp).2.1.next = h.next + 1 ∧
    (∀ b, b ≠ h.next → (sock.addPipe h index0 d l addEp).2.1.obj b = h.obj b) ∧
    (sock.addPipe h index0 d l addEp).2.1.obj h.next = ⟨index0, d, l, false, true⟩ := by
  unfold socket.addPipe
  by_cases h0 : l = none ∧ d = none
  · simp only [h0, and_self, if_true]
    refine ⟨?_, ?_, ?_, fun b hb => ?_, ?_⟩ <;>
      first | trivial | rfl | simp [PipeHeap.Close, PipeHeap_modify_obj, newPipe, *]
  · rcases hrej with hr | ⟨fn, hfn, hfalse⟩
    · exact absurd hr h0
    · simp only [h0, if_false, hfn, newPipe, hfalse, Bool.not_false, if_true]
      refine ⟨?_, ?_, ?_, fun b hb => ?_, ?_⟩ <;>
        first | trivial | rfl | simp [PipeHeap.Close, PipeHeap_modify_obj, *]

theorem addPipe_accept {σ : Type} (sock : socket σ) (h : PipeHeap) (index0 : Int)
    (d l : Option Nat) (addEp : socket σ → Nat → socket σ)
    (h0 : ¬ (l = none ∧ d = none))
    (hhook : ∀ fn, sock.porthook = some fn → fn PortAction.PortActionAdd h.next = true) :
    (sock.addPipe h index0 d l addEp).1 =
      addEp { sock with pipes := sock.pipes ++ [h.next] } h.next ∧
    (sock.addPipe h index0 d l addEp).2.2 = some h.next ∧
    (sock.addPipe h index0 d l addEp).2.1.next = h.next + 1 ∧
    (∀ b, b ≠ h.next → (sock.addPipe h index0 d l addEp).2.1.obj b = h.obj b) ∧
    (sock.addPipe h index0 d l addEp).2.1.obj h.next =
      ⟨sock.pipes.length, d, l, true, false⟩ := by
  unfold socket.addPipe
  cases hp : sock.porthook with
  | none =>
    simp only [h0, if_false, newPipe]
    refine ⟨?_, ?_, ?_, fun b hb => ?_, ?_⟩ <;>
      first | trivial | rfl | simp [PipeHeap_modify_obj, *]
  | some fn =>
    have := hhook fn hp
    simp only [h0, if_false, newPipe, this, Bool.not_true, Bool.false_eq_true]
    refine ⟨?_, ?_, ?_, fun b hb => ?_, ?_⟩ <;>
      first | trivial | rfl | simp [PipeHeap_modify_obj, *]

theorem addPipe_inv {σ : Type} (sock : socket σ) (h : PipeHeap) (index0 : Int)
    (d l : Option Nat) (addEp : socket σ → Nat → socket σ)
    (hadd : ∀ s p, (addEp s p).pipes = s.pipes) (hI : RegistryInv sock h) :
    RegistryInv (sock.addPipe h index0 d l addEp).1 (sock.addPipe h index0 d l addEp).2.1 := by
  have hfresh : ∀ i q, sock.pipes[i]? = some q → q ≠ h.next := fun i q hq => by
    have := (hI.1 i q hq).2.1
    omega
  by_cases hacc : ¬ (l = none ∧ d = none) ∧
      ∀ fn, sock.porthook = some fn → fn PortAction.PortActionAdd h.next = true
  · obtain ⟨e1, -, e3, e4, e5⟩ := addPipe_accept sock h index0 d l addEp hacc.1 hacc.2
    have hp : (sock.addPipe h index0 d l addEp).1.pipes = sock.pipes ++ [h.next] := by
      rw [e1, hadd]
    refine ⟨fun i q hq => ?_, fun q hq hs hm => ?_⟩
    · rw [hp, List.getElem?_append] at hq
      split_ifs at hq with hlt
      · have hne := hfresh i q hq
        rw [e4 q hne, e3]
        obtain ⟨g1, g2, g3⟩ := hI.1 i q hq
        exact ⟨g1, by omega, g3⟩
      · have hi : i = sock.pipes.length := by
          by_contra hc
          have : 1 ≤ i - sock.pipes.length := by omega
          rw [List.getElem?_eq_none (by simp; omega)] at hq
          exact Option.noConfusion hq
        subst hi
        simp only [Nat.sub_self, List.getElem?_cons_zero, Option.some.injEq] at hq
        subst hq
        rw [e5, e3]
        exact ⟨rfl, by omega, rfl⟩
    · rw [hp, List.mem_append, List.mem_singleton, not_or] at hm
      rw [e4 q hm.2] at hs ⊢
      rw [e3] at hq
      exact hI.2 q (by have := hm.2; omega) hs hm.1
  · have hrej : (l = none ∧ d = none) ∨
        ∃ fn, sock.porthook = some fn ∧ fn PortAction.PortActionAdd h.next = false := by
      by_contra hc
      rw [not_or] at hc
      refine hacc ⟨hc.1, fun fn hfn => ?_⟩
      cases hv : fn PortAction.PortActionAdd h.next
      · exact absurd ⟨fn, hfn, hv⟩ hc.2
      · rfl
    obtain ⟨e1, -, e3, e4, e5⟩ := addPipe_reject sock h index0 d l addEp hrej
    rw [e1]
    refine ⟨fun i q hq => ?_, fun q hq hs hm => ?_⟩
    · rw [e4 q (hfresh i q hq), e3]
      obtain ⟨g1, g2, g3⟩ := hI.1 i q hq
      exact ⟨g1, by omega, g3⟩
    · by_cases hqn : q = h.next
      · subst hqn
        rw [e5] at hs
        exact absurd hs (by simp)
      · rw [e4 q hqn] at hs ⊢
        rw [e3] at hq
        exact hI.2 q (by omega) hs hm

theorem remPipe_unregistered {σ : Type} (sock : socket σ) (h : PipeHeap) (p : Nat)
    (remEp : socket σ → Nat → socket σ) (hrem : ∀ s p, (remEp s p).pipes = s.pipes)
    (hI : RegistryInv sock h) (hn : p < h.next) (hs : (h.obj p).sock = true)
    (hp : p ∉ sock.pipes) :
    sock.remPipe h p remEp = some (remEp sock p, h) ∧ RegistryInv (remEp sock p) h := by
  have hi := hI.2 p hn hs hp
  refine ⟨?_, RegistryInv_congr sock _ h (hrem sock p) hI⟩
  unfold socket.remPipe
  simp [hi]

theorem remPipe_registered {σ : Type} (sock : socket σ) (h : PipeHeap) (p : Nat)
    (remEp : socket σ → Nat → socket σ) (hrem : ∀ s p, (remEp s p).pipes = s.pipes)
    (hI : RegistryInv sock h) (hp : p ∈ sock.pipes) :
    ∃ st, sock.remPipe h p remEp = some st ∧
      (∀ q, q ∈ st.1.pipes ↔ q ∈ sock.pipes ∧ q ≠ p) ∧
      st.1.pipes.length + 1 = sock.pipes.length ∧
      (st.2.obj p).index = -1 ∧ (st.2.obj p).sock = true ∧ st.2.next = h.next ∧
      RegistryInv st.1 st.2 := by
  obtain ⟨i, hip⟩ := List.mem_iff_getElem?.1 hp
  obtain ⟨hidx, hpn, hps⟩ := hI.1 i p hip
  have hilt : i < sock.pipes.length := by
    by_contra hc
    rw [List.getElem?_eq_none (by omega)] at hip
    exact Option.noConfusion hip
  have hlast : sock.pipes.getLast? = some (sock.pipes.get ⟨sock.pipes.length - 1, by omega⟩) := by
    rw [List.getLast?_eq_getElem?]
    exact List.getElem?_eq_getElem _
  obtain ⟨last, hlast'⟩ : ∃ last, last = sock.pipes.get ⟨sock.pipes.length - 1, by omega⟩ :=
    ⟨_, rfl⟩
  rw [← hlast'] at hlast
  have hlastget : sock.pipes[sock.pipes.length - 1]? = some last := by
    rw [← List.getLast?_eq_getElem?]; exact hlast
  obtain ⟨lidx, lnext, lsock⟩ := hI.1 _ last hlastget
  have hget := swapRemove_getElem? sock.pipes i last hilt
  have e : sock.remPipe h p remEp =
      some ({ remEp sock p with pipes := (sock.pipes.set i last).dropLast },
        (h.modify last fun o => { o with index := (i : Int) }).modify p
          fun o => { o with index := -1 }) := by
    unfold socket.remPipe
    simp [hrem, hidx, hlast, hilt]
  refine ⟨_, e, ?_, ?_, ?_, ?_, rfl, ?_⟩
  · intro q
    show q ∈ (sock.pipes.set i last).dropLast ↔ _
    rw [List.mem_iff_getElem?]
    constructor
    · rintro ⟨j, hj⟩
      rw [hget] at hj
      split_ifs at hj with h1 h2
      · rw [Option.some.injEq] at hj
        subst hj
        refine ⟨List.mem_iff_getElem?.2 ⟨_, hlastget⟩, fun hc => ?_⟩
        subst hc
        omega
      · refine ⟨List.mem_iff_getElem?.2 ⟨_, hj⟩, fun hc => ?_⟩
        subst hc
        have := (hI.1 j q hj).1
        omega
    · rintro ⟨hq, hne⟩
      obtain ⟨j, hj⟩ := List.mem_iff_getElem?.1 hq
      have hjlt : j < sock.pipes.length := by
        by_contra hc
        rw [List.getElem?_eq_none (by omega)] at hj
        exact Option.noConfusion hj
      have hji : j ≠ i := fun hc => hne (by
        subst hc
        rw [hip] at hj
        exact (Option.some.inj hj).symm)
      by_cases hjl : j < sock.pipes.length - 1
      · exact ⟨j, by rw [hget, if_pos hjl, if_neg hji]; exact hj⟩
      · have hj' : j = sock.pipes.length - 1 := by omega
        subst hj'
        rw [hlastget] at hj
        exact ⟨i, by rw [hget, if_pos (by omega), if_pos rfl]; exact hj⟩
  · show ((sock.pipes.set i last).dropLast).length + 1 = _
    rw [List.length_dropLast, List.length_set]
    omega
  · simp [PipeHeap_modify_obj]
  · by_cases hpl : p = last <;> simp [PipeHeap_modify_obj, hpl, hps, lsock]
  · refine ⟨fun j q hq => ?_, fun q hq hs hm => ?_⟩
    · have hq' : ((sock.pipes.set i last).dropLast)[j]? = some q := hq
      rw [hget] at hq'
      split_ifs at hq' with h1 h2
      · rw [Option.some.injEq] at hq'
        subst hq'
        subst h2
        have hne : last ≠ p := fun hc => by subst hc; omega
        simp [PipeHeap_modify_obj, hne, lsock]
        exact lnext
      · obtain ⟨g1, g2, g3⟩ := hI.1 j q hq'
        have hne : q ≠ p := fun hc => by subst hc; omega
        have hnl : q ≠ last := fun hc => by subst hc; omega
        simp [PipeHeap_modify_obj, hne, hnl, g1, g3]
        exact g2
    · by_cases hqp : q = p
      · subst hqp
        simp [PipeHeap_modify_obj]
      · have hm' : q ∉ (sock.pipes.set i last).dropLast := hm
        have hnotin : q ∉ sock.pipes := fun hin => by
          apply hm'
          rw [List.mem_iff_getElem?]
          obtain ⟨j, hj⟩ := List.mem_iff_getElem?.1 hin
          have hjlt : j < sock.pipes.length := by
            by_contra hc
            rw [List.getElem?_eq_none (by omega)] at hj
            exact Option.noConfusion hj
          have hji : j ≠ i := fun hc => hqp (by
            subst hc
            rw [hip] at hj
            exact (Option.some.inj hj).symm)
          by_cases hjl : j < sock.pipes.length - 1
          · exact ⟨j, by rw [hget, if_pos hjl, if_neg hji]; exact hj⟩
          · have hj' : j = sock.pipes.length - 1 := by omega
            subst hj'
            rw [hlastget] at hj
            exact ⟨i, by rw [hget, if_pos (by omega), if_pos rfl]; exact hj⟩
        have hnl : q ≠ last := fun hc => hnotin (by
          subst hc; exact List.mem_iff_getElem?.2 ⟨_, hlastget⟩)
        have hs' : (h.obj q).sock = true := by
          simpa [PipeHeap_modify_obj, hqp, hnl] using hs
        have := hI.2 q hq hs' hnotin
        simp [PipeHeap_modify_obj, hqp, hnl, this]

theorem runRegistry_inv {σ : Type} (index0 : Int) (addEp remEp : socket σ → Nat → socket σ)
    (hadd : ∀ s p, (addEp s p).pipes = s.pipes) (hrem : ∀ s p, (remEp s p).pipes = s.pipes) :
    ∀ (ops : List RegistryOp) (st : socket σ × PipeHeap), RegistryInv st.1 st.2 →
      ∃ st', socket.runRegistry index0 addEp remEp ops st = some st' ∧ RegistryInv st'.1 st'.2
  | [], st, hI => ⟨st, rfl, hI⟩
  | RegistryOp.add d l :: ops, st, hI => by
    simp only [socket.runRegistry]
    exact runRegistry_inv index0 addEp remEp hadd hrem ops _
      (addPipe_inv st.1 st.2 index0 d l addEp hadd hI)
  | RegistryOp.rem p :: ops, st, hI => by
    simp only [socket.runRegistry]
    by_cases hg : p < st.2.next ∧ (st.2.obj p).sock = true
    · rw [if_pos hg]
      by_cases hp : p ∈ st.1.pipes
      · obtain ⟨st1, e, -, -, -, -, -, hI1⟩ := remPipe_registered st.1 st.2 p remEp hrem hI hp
        rw [e]
        exact runRegistry_inv index0 addEp remEp hadd hrem ops st1 hI1
      · obtain ⟨e, hI1⟩ := remPipe_unregistered st.1 st.2 p remEp hrem hI hg.1 hg.2 hp
        rw [e]
        exact runRegistry_inv index0 addEp remEp hadd hrem ops _ hI1
    · rw [if_neg hg]
      exact runRegistry_inv index0 addEp remEp hadd hrem ops st hI

/-- C29: let the calls `AddEndpoint` and `RemoveEndpoint` of the protocol leave `sock.pipes`
alone. Then every sequence of `addPipe` and `remPipe` calls on a socket that starts without
pipes runs without a panic and ends in a consistent registry: the pipe at position `i` of
`sock.pipes` has the index `i`, and no pipe occurs twice. In a consistent registry
`remPipe(p)` for a registered `p` removes exactly `p` (the other pipes stay, the list is
shorter by one), sets the index of `p` to `-1` and keeps the registry consistent, and a
further `remPipe(p)` leaves the list as it is. `addPipe` leaves the socket as it is,
returns `nil` and closes the pipe when the dialer and the listener are both `nil`, or when
the port hook returns false for `PortActionAdd`. -/
theorem pipe_registry {σ : Type} (index0 : Int) (addEp remEp : socket σ → Nat → socket σ)
    (hadd : ∀ s p, (addEp s p).pipes = s.pipes) (hrem : ∀ s p, (remEp s p).pipes = s.pipes) :
    (∀ (ops : List RegistryOp) (sock : socket σ) (h : PipeHeap),
      sock.pipes = [] → h.next = 0 →
      ∃ st, socket.runRegistry index0 addEp remEp ops (sock, h) = some st ∧
        RegistryInv st.1 st.2 ∧
        (∀ (i : Nat) (hi : i < st.1.pipes.length),
          (st.2.obj (st.1.pipes.get ⟨i, hi⟩)).index = i) ∧
        st.1.pipes.Nodup) ∧
    (∀ (sock : socket σ) (h : PipeHeap) (p : Nat), RegistryInv sock h → p ∈ sock.pipes →
      ∃ st, sock.remPipe h p remEp = some st ∧
        (∀ q, q ∈ st.1.pipes ↔ q ∈ sock.pipes ∧ q ≠ p) ∧
        st.1.pipes.length + 1 = sock.pipes.length ∧
        (st.2.obj p).index = -1 ∧ RegistryInv st.1 st.2 ∧
        ∃ st2, st.1.remPipe st.2 p remEp = some st2 ∧ st2.1.pipes = st.1.pipes ∧
          RegistryInv st2.1 st2.2) ∧
    (∀ (sock : socket σ) (h : PipeHeap) (d l : Option Nat),
      ((l = none ∧ d = none) ∨
        ∃ fn, sock.porthook = some fn ∧ fn PortAction.PortActionAdd h.next = false) →
      (sock.addPipe h index0 d l addEp).1 = sock ∧
      (sock.addPipe h index0 d l addEp).2.2 = none ∧
      ((sock.addPipe h index0 d l addEp).2.1.obj h.next).closed = true) := by
  refine ⟨fun ops sock h hp hn => ?_, fun sock h p hI hp => ?_, fun sock h d l hrej => ?_⟩
  · have hI0 : RegistryInv sock h := by
      refine ⟨fun i q hq => ?_, fun q hq => ?_⟩
      · rw [hp] at hq
        simp at hq
      · omega
    obtain ⟨st, e, hI⟩ := runRegistry_inv index0 addEp remEp hadd hrem ops (sock, h) hI0
    exact ⟨st, e, hI, fun i hi => (hI.1 i _ (List.getElem?_eq_getElem hi)).1,
      RegistryInv_nodup _ _ hI⟩
  · obtain ⟨st, e, hmem, hlen, hidx, hsock, hnext, hI1⟩ :=
      remPipe_registered sock h p remEp hrem hI hp
    have hnot : p ∉ st.1.pipes := fun hc => ((hmem p).1 hc).2 rfl
    have hpn : p < st.2.next := by
      obtain ⟨i, hi⟩ := List.mem_iff_getElem?.1 hp
      rw [hnext]
      exact (hI.1 i p hi).2.1
    obtain ⟨e2, hI2⟩ := remPipe_unregistered st.1 st.2 p remEp hrem hI1 hpn hsock hnot
    exact ⟨st, e, hmem, hlen, hidx, hI1, _, e2, hrem _ _, hI2⟩
  · obtain ⟨e1, e2, -, -, e5⟩ := addPipe_reject sock h index0 d l addEp hrej
    exact ⟨e1, e2, by rw [e5]⟩

theorem pipe_registry_witness :
    ∃ st, socket.runRegistry (-1) (fun s _ => s) (fun s _ => s)
        [RegistryOp.add (some 1) none, RegistryOp.add none none, RegistryOp.add none (some 2),
          RegistryOp.add (some 1) none, RegistryOp.rem 0, RegistryOp.rem 0]
        (newSocket pullMethods ⟨false⟩, ⟨fun _ => ⟨-1, none, none, false, false⟩, 0⟩) = some st ∧
      RegistryInv st.1 st.2 ∧
      (∀ (i : Nat) (hi : i < st.1.pipes.length),
        (st.2.obj (st.1.pipes.get ⟨i, hi⟩)).index = i) ∧
      st.1.pipes.Nodup :=
  (pipe_registry (-1) (fun s _ => s) (fun s _ => s) (fun _ _ => rfl) (fun _ _ => rfl)).1
    [RegistryOp.add (some 1) none, RegistryOp.add none none, RegistryOp.add none (some 2),
      RegistryOp.add (some 1) none, RegistryOp.rem 0, RegistryOp.rem 0]
    (newSocket pullMethods ⟨false⟩) ⟨fun _ => ⟨-1, none, none, false, false⟩, 0⟩ rfl rfl

/-- The run of the example above ends with the pipes `3` and `2` registered, in this order:
the pipe `1` was rejected, and the pipe `0` was removed by moving the last pipe to its place. -/
theorem runRegistry_example :
    (socket.runRegistry (-1) (fun s _ => s) (fun s _ => s)
      [RegistryOp.add (some 1) none, RegistryOp.add none none, RegistryOp.add none (some 2),
        RegistryOp.add (some 1) none, RegistryOp.rem 0, RegistryOp.rem 0]
      (newSocket pullMethods ⟨false⟩, ⟨fun _ => ⟨-1, none, none, false, false⟩, 0⟩)).map
        (fun st => (st.1.pipes, (st.2.obj 0).index, (st.2.obj 3).index, (st.2.obj 1).closed)) =
      some ([3, 2], -1, 0, true) := by
  decide

end Pikago
